import Mathlib

/-!
# School-Online-System: the `StorageManager` data-access layer of `script.js`

A shallow embedding of the `StorageManager` class and a verification of its
specification.

Modelling conventions.

* `localStorage` holds two entries, `appData` and `currentUser`.  An entry is
  missing, undecodable (`JSON.parse` throws, `getData` catches and returns
  `null`), or holds a decoded value.  `localStorage.setItem` may throw: the store
  carries the room `fits` that `localStorage` has, `setData` returns `false` and
  stores nothing for a write that does not fit, and the callers drop or return
  that result as the code does.
* A JavaScript fault (`TypeError`) is the `error` case of `Except Fault`; the
  store is untouched by a call that faults, because every fault in this class
  precedes the call's first write.
* `new Date().toISOString()` is the argument `now` of each operation.
* JSON scalars of users, subjects and answers are `Val`.  A user or subject is an
  `Obj`, an ordered list of fields; all other entities are records with the fields
  the code reads or writes.
* `marks` and `passMarks` are JSON numbers, `Numeral`, read as the binary64 number
  nearest to the decimal text.  `score`, `totalMarks` and `percentage` are JavaScript
  numbers, `Num`: a finite binary64 value kept as an exact fraction, an infinity or
  `NaN`.  Sums, quotients and products are rounded to binary64 (to nearest, ties
  to even, overflow to an infinity): `round53`, `binary64`, `Num.add`, `Num.div`,
  `Num.mul`.  `toFixed(1)` picks the one-decimal numeral nearest to a finite value
  below `10^21`, the larger one on a tie, kept as its integer number of tenths.
  `JSON.stringify` writes `null` for a number that is not finite: `Num.toJSON`.
* The generic `getData(key)` / `setData(key, data)` pair is modelled a second time
  over raw texts, `LocalStorage`, with `JSON.stringify` / `JSON.parse` as a
  `JsonCodec` and with writes that `setItem` may refuse.
-/

namespace SchoolOnline

/-! ## JSON scalars and objects -/

/-- A JSON scalar. -/
inductive Val where
  | null
  | bool (b : Bool)
  | num (n : Int)
  | str (s : String)
deriving DecidableEq, Repr

/-- JavaScript truthiness of a property read; `none` is `undefined`. -/
def truthy : Option Val → Bool
  | none => false
  | some .null => false
  | some (.bool b) => b
  | some (.num n) => n != 0
  | some (.str s) => s != ""

/-- An object with scalar fields, in insertion order.  Where a key is listed more
than once the last entry is the property's value, as in `JSON.parse`. -/
structure Obj where
  fields : List (String × Val)
deriving DecidableEq, Repr

namespace Obj

/-- Property read `o[k]`; `none` is `undefined`. -/
def get (o : Obj) (k : String) : Option Val :=
  o.fields.foldl (fun acc e => if e.1 = k then some e.2 else acc) none

/-- Whether `k` is an own property of `o`. -/
def has (o : Obj) (k : String) : Bool :=
  o.fields.any (fun e => e.1 == k)

/-- Property write `o[k] = v`: overwrite in place, or append a new key. -/
def set (o : Obj) (k : String) (v : Val) : Obj :=
  if o.has k then ⟨o.fields.map (fun e => if e.1 = k then (k, v) else e)⟩
  else ⟨o.fields ++ [(k, v)]⟩

/-- Object spread `{ ...a, ...b }`: the properties of `b` are written onto a copy
of `a`, one after the other. -/
def merge (a b : Obj) : Obj :=
  b.fields.foldl (fun acc e => acc.set e.1 e.2) a

end Obj

/-- A user record; `id`, `password` and `registrationDate` are ordinary fields. -/
abbrev User := Obj

/-- A subject record: caller-supplied fields plus `createdAt`. -/
abbrev Subject := Obj

/-! ## Numbers: binary64, `toFixed(1)` and JSON numerals -/


/-- A finite binary64 value, kept as the exact fraction `num / den`. -/
structure F64 where
  num : Int
  den : Nat
deriving DecidableEq, Repr

/-- The rational number an `F64` stands for. -/
def F64.toRat (x : F64) : ℚ := (x.num : ℚ) / (x.den : ℚ)

/-- Bit length minus one, by halving: `⌊log₂ n⌋` for `n > 0`. -/
def log2Aux : Nat → Nat → Nat
  | 0, _ => 0
  | fuel + 1, n => if n < 2 then 0 else log2Aux fuel (n / 2) + 1

/-- The integer `e` with `2^e ≤ a / b < 2^(e+1)`, for `a, b > 0`. -/
def log2Floor (a b : Nat) : Int :=
  let e : Int := (log2Aux a a : Int) - (log2Aux b b : Int)
  if b * 2 ^ e.toNat ≤ a * 2 ^ (-e).toNat then e else e - 1

/-- The integer nearest to `a / b` for `b > 0`, the even one on a tie. -/
def divRoundEven (a : Int) (b : Nat) : Int :=
  let f := a / (b : Int)
  let r := a % (b : Int)
  if 2 * r < b then f else if (b : Int) < 2 * r then f + 1
  else if f % 2 = 0 then f else f + 1

/-- Round the fraction `n / d` (`d > 0`) to 53 significant bits with least exponent
`-1074`, to nearest, ties to even.  The exponent is not bounded above here:
`binary64` cuts the result off to an infinity. -/
def round53 (n : Int) (d : Nat) : F64 :=
  if n = 0 then ⟨0, 1⟩
  else
    let k : Int := max (log2Floor n.natAbs d) (-1022) - 52
    let m := divRoundEven (n * 2 ^ (-k).toNat) (d * 2 ^ k.toNat)
    ⟨m * 2 ^ k.toNat, 2 ^ (-k).toNat⟩

/-- A JavaScript number, or `null`, which is what `JSON.stringify` writes in place of
a number that is not finite.  `fin num den` is the finite value `num / den` with
`den > 0`; `-0` is not told apart from `0`. -/
inductive Num where
  | fin (num : Int) (den : Nat)
  | posInf
  | negInf
  | nan
  | null
deriving DecidableEq, Repr

namespace Num

/-- The value of a finite number. -/
def toRat? : Num → Option ℚ
  | .fin n d => some ((n : ℚ) / (d : ℚ))
  | _ => none

/-- Whether the number is finite. -/
def isFinite : Num → Bool
  | .fin _ _ => true
  | _ => false

end Num

/-- The magnitude `2^1024`, the least one that is beyond the finite binary64
numbers. -/
def overflowBound : Nat := (2 ^ 256) ^ 4

/-- The binary64 number nearest to the fraction `n / d` (`d > 0`): `round53`, and an
infinity once the rounded magnitude reaches `2^1024`. -/
def binary64 (n : Int) (d : Nat) : Num :=
  let x := round53 n d
  if overflowBound * x.den ≤ x.num.natAbs then (if 0 < x.num then .posInf else .negInf)
  else .fin x.num x.den

/-- A number of a stored document as its JSON text writes it, `mant × 10 ^ exp`.
`JSON.stringify` writes finite numbers only, so the binary64 value is finite. -/
structure Numeral where
  mant : Int
  exp : Int
  finite : (binary64 (mant * 10 ^ exp.toNat) (10 ^ (-exp).toNat)).isFinite = true
deriving DecidableEq, Repr

/-- The exact value of the written numeral. -/
def Numeral.toRat (x : Numeral) : ℚ := (x.mant : ℚ) * (10 : ℚ) ^ x.exp

/-- `x.toFixed(1)` in tenths for `|x| < 10^21`: the integer `n` with `n / 10` nearest
to `x`, the larger `n` on a tie, taken on the magnitude and given the sign of `x`. -/
def toFixed1 (x : F64) : Int :=
  if 0 ≤ x.num then (20 * x.num + x.den) / (2 * (x.den : Int))
  else -((20 * (-x.num) + x.den) / (2 * (x.den : Int)))

/-- The text `x.toFixed(1)` returns: a one-decimal numeral, held as its integer
number of tenths (`287` is `"28.7"`), or, for `NaN`, an infinity and a magnitude of
`10^21` or more, the text `String(x)`. -/
inductive Fixed1 where
  | numeral (tenths : Int)
  | other (x : Num)
deriving DecidableEq, Repr

/-- The number a `toFixed(1)` text converts to, by `parseFloat` as well as in a
comparison: the binary64 value of the numeral, or the `x` of `String(x)`. -/
def Fixed1.toNumber : Fixed1 → Num
  | .numeral t => binary64 t 10
  | .other x => x

/-- The value of a one-decimal numeral held in tenths. -/
def tenthsToRat (t : Int) : ℚ := (t : ℚ) / 10

namespace Num

/-- The number `JSON.parse` reads from a numeral. -/
def ofNumeral (x : Numeral) : Num :=
  binary64 (x.mant * 10 ^ x.exp.toNat) (10 ^ (-x.exp).toNat)

/-- JavaScript `a + b`.  `null` is never an operand in this class. -/
def add : Num → Num → Num
  | .fin a b, .fin c d => binary64 (a * d + c * b) (b * d)
  | .posInf, .fin _ _ => .posInf
  | .fin _ _, .posInf => .posInf
  | .posInf, .posInf => .posInf
  | .negInf, .fin _ _ => .negInf
  | .fin _ _, .negInf => .negInf
  | .negInf, .negInf => .negInf
  | _, _ => .nan

/-- JavaScript `a / b`.  `null` is never an operand in this class. -/
def div : Num → Num → Num
  | .fin a b, .fin c d =>
    if c = 0 then (if 0 < a then .posInf else if a < 0 then .negInf else .nan)
    else binary64 (a * d * c.sign) (b * c.natAbs)
  | .fin _ _, .posInf => .fin 0 1
  | .fin _ _, .negInf => .fin 0 1
  | .posInf, .fin c _ => if 0 ≤ c then .posInf else .negInf
  | .negInf, .fin c _ => if 0 ≤ c then .negInf else .posInf
  | _, _ => .nan

/-- JavaScript `a * b`.  `null` is never an operand in this class. -/
def mul : Num → Num → Num
  | .fin a b, .fin c d => binary64 (a * c) (b * d)
  | .posInf, .fin c _ => if 0 < c then .posInf else if c < 0 then .negInf else .nan
  | .negInf, .fin c _ => if 0 < c then .negInf else if c < 0 then .posInf else .nan
  | .fin a _, .posInf => if 0 < a then .posInf else if a < 0 then .negInf else .nan
  | .fin a _, .negInf => if 0 < a then .negInf else if a < 0 then .posInf else .nan
  | .posInf, .posInf => .posInf
  | .negInf, .negInf => .posInf
  | .posInf, .negInf => .negInf
  | .negInf, .posInf => .negInf
  | _, _ => .nan

/-- JavaScript `a < b`: `false` as soon as an operand is `NaN`. -/
def lt : Num → Num → Bool
  | .fin a b, .fin c d => decide (a * d < c * b)
  | .fin _ _, .posInf => true
  | .negInf, .fin _ _ => true
  | .negInf, .posInf => true
  | _, _ => false

/-- JavaScript `a <= b`, which is also `b >= a`: `false` as soon as an operand is
`NaN`. -/
def le : Num → Num → Bool
  | .fin a b, .fin c d => decide (a * d ≤ c * b)
  | .fin _ _, .posInf => true
  | .negInf, .fin _ _ => true
  | .negInf, .posInf => true
  | .posInf, .posInf => true
  | .negInf, .negInf => true
  | _, _ => false

/-- JavaScript `a === b` on numbers: equal values; `NaN` equals nothing. -/
def eq : Num → Num → Bool
  | .fin a b, .fin c d => decide (a * d = c * b)
  | .posInf, .posInf => true
  | .negInf, .negInf => true
  | _, _ => false

/-- `x.toFixed(1)`. -/
def toFixed1 : Num → Fixed1
  | .fin n d =>
    if 10 ^ 21 * d ≤ n.natAbs then .other (.fin n d)
    else .numeral (SchoolOnline.toFixed1 ⟨n, d⟩)
  | x => .other x

/-- What `JSON.stringify` followed by `JSON.parse` makes of a number: itself when
finite, `null` otherwise. -/
def toJSON : Num → Num
  | .fin n d => .fin n d
  | _ => .null

end Num

/-- The id suffix `(n).toString().padStart(3, '0')`. -/
def pad3 (n : Nat) : String :=
  let s := toString n
  String.mk (List.replicate (3 - s.length) '0') ++ s

/-! ## Entities -/

/-- A question, stand-alone or embedded in an exam. -/
structure Question where
  id : String
  marks : Numeral
  correctAnswer : Val
  createdAt : String
deriving DecidableEq, Repr

/-- An exam.  `questions` and `status` may be absent on the object handed to
`addExam`. -/
structure Exam where
  id : String
  questions : Option (List Question)
  status : Option String
  passMarks : Numeral
  createdBy : String
  createdAt : String
deriving DecidableEq, Repr

/-- A submission. -/
structure Submission where
  id : String
  examId : String
  studentId : String
  answers : List Val
  status : String
  submittedAt : String
deriving DecidableEq, Repr

/-- A derived result.  The one `addSubmission` returns holds JavaScript numbers;
in a stored document a number that was not finite has become `null`. -/
structure Result where
  id : String
  studentId : String
  examId : String
  score : Num
  totalMarks : Num
  percentage : Num
  submittedAt : String
  status : String
deriving DecidableEq, Repr

/-- The result as `JSON.stringify` stores it. -/
def Result.toJSON (r : Result) : Result :=
  { r with
    score := r.score.toJSON, totalMarks := r.totalMarks.toJSON,
    percentage := r.percentage.toJSON }

/-- The three role collections, `appData.users`. -/
structure Users where
  students : List User
  examiners : List User
  admins : List User
deriving DecidableEq, Repr

/-- The document stored under `appData`. -/
structure AppData where
  users : Users
  exams : List Exam
  submissions : List Submission
  results : List Result
  questions : List Question
  subjects : List Subject
deriving DecidableEq, Repr

/-- What `localStorage` holds under one key. -/
inductive Entry (α : Type) where
  | missing
  | corrupt
  | stored (a : α)
deriving DecidableEq, Repr

/-- The two entries of `localStorage` the class uses, and the room it has: `fits a c`
tells whether `localStorage` takes a write that leaves it holding the entries `a` and
`c`; `setItem` throws on the others (quota exceeded, storage disabled).
`stored none` under `currentUser` is the JSON text `null`. -/
structure Store where
  appData : Entry AppData
  currentUser : Entry (Option User)
  fits : Entry AppData → Entry (Option User) → Bool

/-- A thrown JavaScript fault. -/
inductive Fault where
  | typeError
deriving DecidableEq, Repr

/-! ## The store: `getData` and `setData` -/

/-- `getData('appData')`: the decoded document, `none` (JavaScript `null`) when
the entry is missing or does not decode. -/
def getData_appData (st : Store) : Option AppData :=
  match st.appData with
  | .stored d => some d
  | _ => none

/-- `getData('currentUser')`: the decoded session user, `none` when the entry is
missing, does not decode, or holds `null`. -/
def getData_currentUser (st : Store) : Option User :=
  match st.currentUser with
  | .stored u => u
  | _ => none

/-- `setData('appData', d)`: `true` and the entry replaced, or `false` and the store
as it was when `setItem` throws. -/
def setData_appData (st : Store) (d : AppData) : Bool × Store :=
  if st.fits (.stored d) st.currentUser then (true, { st with appData := .stored d })
  else (false, st)

/-- `setData('currentUser', u)`: `true` and the entry replaced, or `false` and the
store as it was when `setItem` throws. -/
def setData_currentUser (st : Store) (u : Option User) : Bool × Store :=
  if st.fits st.appData (.stored u) then (true, { st with currentUser := .stored u })
  else (false, st)

/-- The document `initStorage` writes. -/
def defaultData : AppData :=
  { users := { students := [], examiners := [], admins := [] },
    exams := [], submissions := [], results := [], questions := [], subjects := [] }

/-- A `localStorage` with neither entry and room for every write. -/
def emptyStore : Store :=
  { appData := .missing, currentUser := .missing, fits := fun _ _ => true }

/-- The store `st` on a `localStorage` that refuses every write. -/
def refusing (st : Store) : Store := { st with fits := fun _ _ => false }

/-- The `localStorage` of `st` takes every write. -/
def AcceptsAll (st : Store) : Prop := ∀ a c, st.fits a c = true

/-! ## Property access on `appData.users` -/

/-- The property names every object inherits from `Object.prototype`. -/
def objectPrototypeNames : List String :=
  ["constructor", "__defineGetter__", "__defineSetter__", "hasOwnProperty",
   "__lookupGetter__", "__lookupSetter__", "isPrototypeOf", "propertyIsEnumerable",
   "toString", "valueOf", "__proto__", "toLocaleString"]

/-- The value of `appData.users[type]`. -/
inductive UsersProp where
  | coll (us : List User)
  | inherited
  | undefined
deriving DecidableEq, Repr

/-- Read `users[type]`: a role collection, a member inherited from
`Object.prototype` (truthy, and without a `find` method), or `undefined`. -/
def Users.prop (users : Users) (type : String) : UsersProp :=
  if type = "students" then .coll users.students
  else if type = "examiners" then .coll users.examiners
  else if type = "admins" then .coll users.admins
  else if type ∈ objectPrototypeNames then .inherited
  else .undefined

/-- Replace the role collection named `type`. -/
def Users.setColl (users : Users) (type : String) (us : List User) : Users :=
  if type = "students" then { users with students := us }
  else if type = "examiners" then { users with examiners := us }
  else if type = "admins" then { users with admins := us }
  else users

/-- `Array.prototype.findIndex`, with `none` for `-1`. -/
def findIndex {α : Type} (p : α → Bool) : List α → Option Nat
  | [] => none
  | x :: xs => if p x then some 0 else (findIndex p xs).map (· + 1)

namespace StorageManager

/-- `initStorage()`. -/
def initStorage (st : Store) : Store :=
  let st1 := if (getData_appData st).isNone then (setData_appData st defaultData).2 else st
  if (getData_currentUser st1).isNone then (setData_currentUser st1 none).2 else st1

/-- `addUser(user, type)`. -/
def addUser (st : Store) (user : User) (type : String) (now : String) :
    Except Fault (Bool × Store) :=
  match getData_appData st with
  | none => .ok (false, st)
  | some appData =>
    match appData.users.prop type with
    | .undefined => .ok (false, st)
    | .inherited => .error .typeError
    | .coll us =>
      if (us.find? (fun u => decide (u.get "id" = user.get "id"))).isSome then
        .ok (false, st)
      else
        let user := if truthy (user.get "registrationDate") then user
          else user.set "registrationDate" (.str now)
        .ok (setData_appData st
          { appData with users := appData.users.setColl type (us ++ [user]) })

/-- The concatenation `[...students, ...examiners, ...admins]`. -/
def allUsers (appData : AppData) : List User :=
  appData.users.students ++ appData.users.examiners ++ appData.users.admins

/-- `findUser(username, password)`. -/
def findUser (st : Store) (username password : Option Val) : Option User :=
  match getData_appData st with
  | none => none
  | some appData =>
    (allUsers appData).find?
      (fun user => decide (user.get "id" = username) && decide (user.get "password" = password))

/-- `getUserType(username)`. -/
def getUserType (st : Store) (username : Option Val) : Option String :=
  match getData_appData st with
  | none => none
  | some appData =>
    if (appData.users.students.find? (fun u => decide (u.get "id" = username))).isSome then
      some "student"
    else if (appData.users.examiners.find? (fun u => decide (u.get "id" = username))).isSome then
      some "examiner"
    else if (appData.users.admins.find? (fun u => decide (u.get "id" = username))).isSome then
      some "admin"
    else none

/-- `getUserById(userId)`. -/
def getUserById (st : Store) (userId : Option Val) : Option User :=
  match getData_appData st with
  | none => none
  | some appData => (allUsers appData).find? (fun user => decide (user.get "id" = userId))

/-- `getExams()`. -/
def getExams (st : Store) : List Exam :=
  match getData_appData st with
  | some appData => appData.exams
  | none => []

/-- `getExamById(id)`. -/
def getExamById (st : Store) (id : String) : Option Exam :=
  (getExams st).find? (fun exam => decide (exam.id = id))

/-- `getQuestions()`. -/
def getQuestions (st : Store) : List Question :=
  match getData_appData st with
  | some appData => appData.questions
  | none => []

/-- `getSubmissions()`. -/
def getSubmissions (st : Store) : List Submission :=
  match getData_appData st with
  | some appData => appData.submissions
  | none => []

/-- `getSubjects()`. -/
def getSubjects (st : Store) : List Subject :=
  match getData_appData st with
  | some appData => appData.subjects
  | none => []

/-- `getAllResults()`. -/
def getAllResults (st : Store) : List Result :=
  match getData_appData st with
  | some appData => appData.results
  | none => []

/-- `getStudentResults(studentId)`. -/
def getStudentResults (st : Store) (studentId : String) : List Result :=
  match getData_appData st with
  | some appData => appData.results.filter (fun result => decide (result.studentId = studentId))
  | none => []

/-- `getExamsByExaminer(examinerId)`. -/
def getExamsByExaminer (st : Store) (examinerId : String) : List Exam :=
  (getExams st).filter (fun exam => decide (exam.createdBy = examinerId))

/-- `getSubmissionsForExaminer(examinerId)`. -/
def getSubmissionsForExaminer (st : Store) (examinerId : String) : List Submission :=
  let exams := getExamsByExaminer st examinerId
  let submissions := getSubmissions st
  let examIds := exams.map (fun exam => exam.id)
  submissions.filter (fun submission => examIds.contains submission.examId)

/-- `addExam(exam)`. -/
def addExam (st : Store) (exam : Exam) (now : String) : Except Fault (String × Store) :=
  match getData_appData st with
  | none => .error .typeError
  | some appData =>
    let exam := { exam with id := "EXAM" ++ pad3 (appData.exams.length + 1) }
    let exam := { exam with questions := some (exam.questions.getD []) }
    let exam := { exam with
      status := match exam.status with
        | some s => if s != "" then some s else some "active"
        | none => some "active" }
    let exam := { exam with createdAt := now }
    .ok (exam.id, (setData_appData st { appData with exams := appData.exams ++ [exam] }).2)

/-- `addQuestion(question)`. -/
def addQuestion (st : Store) (question : Question) (now : String) :
    Except Fault (String × Store) :=
  match getData_appData st with
  | none => .error .typeError
  | some appData =>
    let question := { question with id := "Q" ++ pad3 (appData.questions.length + 1) }
    let question := { question with createdAt := now }
    .ok (question.id,
      (setData_appData st { appData with questions := appData.questions ++ [question] }).2)

/-- The body of `submission.answers.forEach((answer, index) => ...)`, from position
`index` on, threading `(score, totalMarks)`; `+=` is the binary64 addition. -/
def gradeLoop (questions : List Question) : List Val → Nat → Num × Num → Num × Num
  | [], _, acc => acc
  | answer :: rest, index, (score, totalMarks) =>
    match questions[index]? with
    | some question =>
      gradeLoop questions rest (index + 1)
        (if answer = question.correctAnswer then score.add (Num.ofNumeral question.marks)
          else score,
         totalMarks.add (Num.ofNumeral question.marks))
    | none => gradeLoop questions rest (index + 1) (score, totalMarks)

/-- The line `totalMarks > 0 ? (score / totalMarks * 100).toFixed(1) : 0`, as the
number that both `parseFloat(percentage)` and `percentage >= passMarks` make of its
value, a `toFixed` text or the number `0`. -/
def percentageOf (score totalMarks : Num) : Num :=
  if (Num.fin 0 1).lt totalMarks then
    ((score.div totalMarks).mul (.fin 100 1)).toFixed1.toNumber
  else .fin 0 1

/-- `addSubmission(submission)`.  The returned result holds the numbers as computed;
the stored copy is what `JSON.stringify` writes. -/
def addSubmission (st : Store) (submission : Submission) (now : String) :
    Except Fault (Result × Store) :=
  match getData_appData st with
  | none => .error .typeError
  | some appData =>
    let submission := { submission with id := "SUB" ++ pad3 (appData.submissions.length + 1) }
    let submission := { submission with submittedAt := now }
    let submission := { submission with status := "submitted" }
    let submissions := appData.submissions ++ [submission]
    let exam := getExamById st submission.examId
    let graded : Num × Num :=
      match exam with
      | some e =>
        match e.questions with
        | some questions => gradeLoop questions submission.answers 0 (.fin 0 1, .fin 0 1)
        | none => (.fin 0 1, .fin 0 1)
      | none => (.fin 0 1, .fin 0 1)
    let score := graded.1
    let totalMarks := graded.2
    let percentage := percentageOf score totalMarks
    let passMarks : Num := match exam with
      | some e => Num.ofNumeral e.passMarks
      | none => .fin 50 1
    let result : Result :=
      { id := "RES" ++ pad3 (appData.results.length + 1),
        studentId := submission.studentId,
        examId := submission.examId,
        score := score,
        totalMarks := totalMarks,
        percentage := percentage,
        submittedAt := submission.submittedAt,
        status := if passMarks.le percentage then "passed" else "failed" }
    .ok (result,
      (setData_appData st
        { appData with
          submissions := submissions, results := appData.results ++ [result.toJSON] }).2)

/-- `addSubject(subject)`. -/
def addSubject (st : Store) (subject : Subject) (now : String) : Except Fault (Bool × Store) :=
  match getData_appData st with
  | none => .error .typeError
  | some appData =>
    let subject := subject.set "createdAt" (.str now)
    .ok (true, (setData_appData st { appData with subjects := appData.subjects ++ [subject] }).2)

/-- `updateUser(updatedUser)`. -/
def updateUser (st : Store) (updatedUser : User) : Except Fault (Bool × Store) :=
  let appData? := getData_appData st
  match getUserType st (updatedUser.get "id") with
  | none => .ok (false, st)
  | some userType =>
    match appData? with
    | none => .error .typeError
    | some appData =>
      match appData.users.prop (userType ++ "s") with
      | .coll users =>
        match findIndex (fun u => decide (u.get "id" = updatedUser.get "id")) users with
        | none => .ok (false, st)
        | some userIndex =>
          match users[userIndex]? with
          | none => .error .typeError
          | some old =>
            let merged := old.merge updatedUser
            let users := users.set userIndex merged
            let st1 := (setData_appData st
              { appData with users := appData.users.setColl (userType ++ "s") users }).2
            let st2 := match getData_currentUser st1 with
              | some currentUser =>
                if currentUser.get "id" = updatedUser.get "id" then
                  (setData_currentUser st1 (some merged)).2
                else st1
              | none => st1
            .ok (true, st2)
      | _ => .error .typeError

/-- `deleteUser(userId)`. -/
def deleteUser (st : Store) (userId : Option Val) : Except Fault (Bool × Store) :=
  match getData_appData st with
  | none => .error .typeError
  | some appData =>
    let keep := fun (u : User) => decide (u.get "id" ≠ userId)
    let students := appData.users.students.filter keep
    let examiners := appData.users.examiners.filter keep
    let admins := appData.users.admins.filter keep
    let deleted := decide (students.length < appData.users.students.length)
      || decide (examiners.length < appData.users.examiners.length)
      || decide (admins.length < appData.users.admins.length)
    if deleted then
      let st1 := match getData_currentUser st with
        | some currentUser =>
          if currentUser.get "id" = userId then (setData_currentUser st none).2 else st
        | none => st
      .ok (true, (setData_appData st1
        { appData with
          users := { students := students, examiners := examiners, admins := admins } }).2)
    else .ok (false, st)

/-- The `passRate` of `getSystemStats()`: the text `toFixed(1)` returns, or a
number. -/
inductive PassRate where
  | text (s : Fixed1)
  | number (x : Num)
deriving DecidableEq, Repr

/-- The record `getSystemStats()` returns. -/
structure SystemStats where
  totalStudents : Nat
  totalExaminers : Nat
  totalAdmins : Nat
  totalExams : Nat
  totalSubmissions : Nat
  totalQuestions : Nat
  totalSubjects : Nat
  activeExams : Nat
  passedExams : Nat
  totalResults : Nat
  passRate : PassRate
deriving DecidableEq, Repr

/-- `getSystemStats()`. -/
def getSystemStats (st : Store) : Option SystemStats :=
  match getData_appData st with
  | none => none
  | some appData =>
    let passedExams :=
      (appData.results.filter (fun result => decide (result.status = "passed"))).length
    let totalResults := appData.results.length
    some
      { totalStudents := appData.users.students.length,
        totalExaminers := appData.users.examiners.length,
        totalAdmins := appData.users.admins.length,
        totalExams := appData.exams.length,
        totalSubmissions := appData.submissions.length,
        totalQuestions := appData.questions.length,
        totalSubjects := appData.subjects.length,
        activeExams :=
          (appData.exams.filter (fun exam => decide (exam.status = some "active"))).length,
        passedExams := passedExams,
        totalResults := totalResults,
        passRate :=
          if 0 < totalResults then
            .text ((((Num.fin passedExams 1).div (.fin totalResults 1)).mul
              (.fin 100 1)).toFixed1)
          else .number (.fin 0 1) }

/-- The record `getExaminerStats()` returns. -/
structure ExaminerStats where
  activeExams : Nat
  totalSubmissions : Nat
  pendingEvaluations : Nat
  totalQuestions : Nat
deriving DecidableEq, Repr

/-- `getExaminerStats(examinerId)`. -/
def getExaminerStats (st : Store) (examinerId : String) : ExaminerStats :=
  let myExams := getExamsByExaminer st examinerId
  let mySubmissions := getSubmissionsForExaminer st examinerId
  let questions := getQuestions st
  { activeExams := (myExams.filter (fun e => decide (e.status = some "active"))).length,
    totalSubmissions := mySubmissions.length,
    pendingEvaluations :=
      (mySubmissions.filter (fun s => decide (s.status = "submitted"))).length,
    totalQuestions := questions.length }

/-- The free function `logout()`, as far as the store goes. -/
def logout (st : Store) : Store := (setData_currentUser st none).2

/-- `N` consecutive `addExam` calls, collecting the returned ids. -/
def addExams (st : Store) : List (Exam × String) → Except Fault (List String × Store)
  | [] => .ok ([], st)
  | (exam, now) :: rest =>
    match addExam st exam now with
    | .error f => .error f
    | .ok (id, st1) =>
      match addExams st1 rest with
      | .error f => .error f
      | .ok (ids, st2) => .ok (id :: ids, st2)

end StorageManager

/-! ## Reachable stores -/

/-- The store a call leaves behind: the new store, or the old one after a fault. -/
def storeAfter {α : Type} (r : Except Fault (α × Store)) (st : Store) : Store :=
  match r with
  | .ok (_, st1) => st1
  | .error _ => st

/-- A call of a state-changing operation of the class, with its arguments. -/
inductive Op where
  | initStorage
  | addUser (user : User) (type : String) (now : String)
  | addExam (exam : Exam) (now : String)
  | addQuestion (question : Question) (now : String)
  | addSubmission (submission : Submission) (now : String)
  | addSubject (subject : Subject) (now : String)
  | updateUser (updatedUser : User)
  | deleteUser (userId : Option Val)
  | logout
deriving DecidableEq, Repr

/-- The store after the call `op` made on `st`. -/
def Op.run (op : Op) (st : Store) : Store :=
  match op with
  | .initStorage => StorageManager.initStorage st
  | .addUser user type now => storeAfter (StorageManager.addUser st user type now) st
  | .addExam exam now => storeAfter (StorageManager.addExam st exam now) st
  | .addQuestion question now => storeAfter (StorageManager.addQuestion st question now) st
  | .addSubmission submission now =>
    storeAfter (StorageManager.addSubmission st submission now) st
  | .addSubject subject now => storeAfter (StorageManager.addSubject st subject now) st
  | .updateUser updatedUser => storeAfter (StorageManager.updateUser st updatedUser) st
  | .deleteUser userId => storeAfter (StorageManager.deleteUser st userId) st
  | .logout => StorageManager.logout st

/-- The stores reachable from the fresh empty document, the one `initStorage`
writes into an empty `localStorage`, by calls of the operations; the room `fits`
that `localStorage` has is arbitrary. -/
inductive Reachable : Store → Prop where
  | fresh (fits : Entry AppData → Entry (Option User) → Bool) :
    Reachable { appData := .stored defaultData, currentUser := .stored none, fits := fits }
  | step (op : Op) {st : Store} : Reachable st → Reachable (op.run st)

/-! ## Sample data -/

/-- The numeral `50`. -/
def fifty : Numeral := ⟨50, 0, by decide⟩

/-- A question with the given marks and correct answer. -/
def sampleQuestion (marks : Numeral) (correct : String) : Question :=
  { id := "", marks := marks, correctAnswer := .str correct, createdAt := "" }

/-- An exam `EXAM001` of examiner `ex1` with pass mark 50 and the given questions. -/
def examOf (questions : List Question) : Exam :=
  { id := "EXAM001", questions := some questions, status := some "active",
    passMarks := fifty, createdBy := "ex1", createdAt := "t0" }

/-- A store with room for every write whose document holds the exam `e` only. -/
def storeOf (e : Exam) : Store :=
  { appData := .stored { defaultData with exams := [e] }, currentUser := .stored none,
    fits := fun _ _ => true }

/-- The exam of the grading example: pass mark 50, marks `[40, 60]`, correct
answers `["A", "B"]`. -/
def sampleExam : Exam :=
  examOf [sampleQuestion ⟨40, 0, by decide⟩ "A", sampleQuestion ⟨60, 0, by decide⟩ "B"]

/-- A store whose document holds `sampleExam` only. -/
def sampleStore : Store := storeOf sampleExam

/-- A submission to `EXAM001` by student `s1` with the given answers. -/
def sampleSubmission (answers : List String) : Submission :=
  { id := "", examId := "EXAM001", studentId := "s1", answers := answers.map Val.str,
    status := "", submittedAt := "" }

/-- An exam with one rewarded and one penalised question: marks `[5, -10]`. -/
def penaltyExam : Exam :=
  examOf [sampleQuestion ⟨5, 0, by decide⟩ "A", sampleQuestion ⟨-10, 0, by decide⟩ "B"]

/-- A store whose document holds `penaltyExam` only. -/
def penaltyStore : Store := storeOf penaltyExam

/-- An exam whose marks `[9007199254740991, 2]` add up to `2^53 + 1`, which is not a
binary64 number. -/
def largeExam : Exam :=
  examOf [sampleQuestion ⟨9007199254740991, 0, by decide⟩ "A",
    sampleQuestion ⟨2, 0, by decide⟩ "B"]

/-- An exam with marks `[23, 57]`: the first answer alone scores `23` of `80`. -/
def quarterExam : Exam :=
  examOf [sampleQuestion ⟨23, 0, by decide⟩ "A", sampleQuestion ⟨57, 0, by decide⟩ "B"]

set_option exponentiation.threshold 400 in
/-- An exam with marks `[1e308, 1e308]`, whose sum is beyond the binary64 range. -/
def hugeExam : Exam :=
  examOf [sampleQuestion ⟨1, 308, by decide!⟩ "A", sampleQuestion ⟨1, 308, by decide!⟩ "B"]

/-- An exam with the fractional marks `[0.5, 2.5]`. -/
def halfExam : Exam :=
  examOf [sampleQuestion ⟨5, -1, by decide⟩ "A", sampleQuestion ⟨25, -1, by decide⟩ "B"]

/-! ## Specification-level notions -/

/-- The answered positions `i < min(answers.length, questions.length)`, in order, each
with its answer and its question. -/
def answered (answers : List Val) (questions : List Question) : List (Val × Question) :=
  answers.zip questions

/-- The binary64 sum of a list of marks: from `0`, adding one after the other. -/
def sumMarks (qs : List Question) : Num :=
  qs.foldl (fun acc q => acc.add (Num.ofNumeral q.marks)) (.fin 0 1)

/-- The questions the loop grades for `answers`: those at the positions
`i < min(answers.length, questions.length)`. -/
def gradedQuestions (answers : List Val) (questions : List Question) : List Question :=
  questions.take answers.length

/-- The questions at the positions `i` where `answers[i]` equals the correct answer
of `questions[i]`, in position order. -/
def correctQuestions (answers : List Val) (questions : List Question) : List Question :=
  ((answered answers questions).filter (fun p => decide (p.1 = p.2.correctAnswer))).map
    (fun p => p.2)

/-- The exact sum of the marks of a list of questions. -/
def exactMarks (qs : List Question) : ℚ := (qs.map (fun q => q.marks.toRat)).sum

/-- A mark that is a whole number and not negative. -/
def Numeral.IsNat (x : Numeral) : Prop := 0 ≤ x.mant ∧ 0 ≤ x.exp

/-- The pass threshold `addSubmission` uses for a submission to `examId`:
`passMarks` of the first exam with that id, `50` when there is none. -/
def passThreshold (d : AppData) (examId : String) : Num :=
  match d.exams.find? (fun exam => decide (exam.id = examId)) with
  | some e => Num.ofNumeral e.passMarks
  | none => .fin 50 1

/-- A result carries the `studentId`, `examId` and `submittedAt` of a submission. -/
def Paired (s : Submission) (r : Result) : Prop :=
  r.studentId = s.studentId ∧ r.examId = s.examId ∧ r.submittedAt = s.submittedAt

/-- The submission `addSubmission` stores for the argument `submission`. -/
def stampSubmission (d : AppData) (submission : Submission) (now : String) : Submission :=
  { submission with
    id := "SUB" ++ pad3 (d.submissions.length + 1), submittedAt := now, status := "submitted" }

/-- The record `addUser` stores for `user`: `registrationDate` is stamped when the
argument has none (or a falsy one). -/
def withRegistrationDate (user : User) (now : String) : User :=
  if truthy (user.get "registrationDate") then user
  else user.set "registrationDate" (.str now)

/-- The role collections the lookups search before the one named `type`. -/
def searchedBefore (users : Users) (type : String) : List User :=
  if type = "students" then []
  else if type = "examiners" then users.students
  else if type = "admins" then users.students ++ users.examiners
  else []

/-- A small user record. -/
def sampleUser (id password : String) : User :=
  ⟨[("id", .str id), ("password", .str password)]⟩

/-- A document with one student, `u1`, already registered. -/
def oneStudentData : AppData :=
  { defaultData with
    users := { students := [(sampleUser "u1" "x").set "registrationDate" (.str "t0")],
               examiners := [], admins := [] } }

/-- A store with `oneStudentData` and nobody logged in. -/
def oneStudentStore : Store :=
  { appData := .stored oneStudentData, currentUser := .stored none, fits := fun _ _ => true }

/-- The session user read by `getData('currentUser')` exists and has the id `id`. -/
def sessionHasId (st : Store) (id : Option Val) : Prop :=
  ∃ cu, getData_currentUser st = some cu ∧ cu.get "id" = id

/-- The store `oneStudentStore` with student `u1` logged in. -/
def loggedInStore : Store :=
  { oneStudentStore with
    currentUser := .stored (some ((sampleUser "u1" "x").set "registrationDate" (.str "t0"))) }

/-- The pair `(s, r)` was produced by one `addSubmission` call on an earlier store
whose exams are a prefix of those of `d`: `r` is the result the call returned, as
`JSON.stringify` stores it, and `s` the submission it stored. -/
def DerivedFrom (d : AppData) (s : Submission) (r : Result) : Prop :=
  ∃ (st0 : Store) (d0 : AppData) (sub : Submission) (now : String) (r0 : Result)
    (st1 : Store),
    st0.appData = .stored d0 ∧ d0.exams <+: d.exams ∧
    StorageManager.addSubmission st0 sub now = .ok (r0, st1) ∧
    r = r0.toJSON ∧ s = stampSubmission d0 sub now

/-- The ids of a role collection, in stored order. -/
def idsOf (us : List User) : List (Option Val) := us.map (fun u => u.get "id")

/-- The store after `u1` registered as a student and then as an examiner. -/
def twoRolesStore : Store :=
  (Op.addUser (sampleUser "u1" "y") "examiners" "t1").run
    ((Op.addUser (sampleUser "u1" "x") "students" "t0").run
      (StorageManager.initStorage emptyStore))

/-- The store `twoRolesStore` with the examiner `u1`, whose password is `y`, logged
in. -/
def examinerSessionStore : Store :=
  { twoRolesStore with
    currentUser :=
      .stored (some ((sampleUser "u1" "y").set "registrationDate" (.str "t1"))) }

/-- How one call can change the role collections: not at all, by appending a user
whose id is new to the collection, by replacing a record with one of the same id, or
by filtering an id out of all three collections. -/
def UsersStep (users users1 : Users) : Prop :=
  users1 = users ∨
  (∃ type us user, users.prop type = .coll us ∧
    (∀ u ∈ us, u.get "id" ≠ user.get "id") ∧
    users1 = users.setColl type (us ++ [user])) ∨
  (∃ type pre old new post, users.prop type = .coll (pre ++ old :: post) ∧
    new.get "id" = old.get "id" ∧
    users1 = users.setColl type (pre ++ new :: post)) ∨
  (∃ id, users1 =
    { students := users.students.filter (fun u => decide (u.get "id" ≠ id)),
      examiners := users.examiners.filter (fun u => decide (u.get "id" ≠ id)),
      admins := users.admins.filter (fun u => decide (u.get "id" ≠ id)) })

/-- No role collection holds two users with the same id. -/
def UniqueIds (users : Users) : Prop :=
  (idsOf users.students).Nodup ∧ (idsOf users.examiners).Nodup ∧ (idsOf users.admins).Nodup

/-- A store with no document but with student `u1` still logged in. -/
def staleSessionStore : Store :=
  { appData := .missing, currentUser := .stored (some (sampleUser "u1" "x")),
    fits := fun _ _ => true }

/-- A store whose `appData` entry does not decode. -/
def corruptStore : Store :=
  { appData := .corrupt, currentUser := .stored none, fits := fun _ _ => true }

/-! ## Notions of the rounding proofs -/

/-- The integer `m` is a nearest integer of `x`, the even one when `x` lies half-way
between two integers. -/
def RoundsTo (x : ℚ) (m : Int) : Prop :=
  |(m : ℚ) - x| ≤ 1 / 2 ∧ (|(m : ℚ) - x| = 1 / 2 → m % 2 = 0)

/-- A non-negative value with at most 53 significant bits and an exponent of at
least `-1074`. -/
def OnGrid (v : ℚ) : Prop :=
  ∃ k m : Int, -1074 ≤ k ∧ 0 ≤ m ∧ m ≤ 2 ^ 53 ∧ v = (m : ℚ) * (2 : ℚ) ^ k

/-- A non-negative binary64 number or `Infinity`: what a sum of non-negative marks
can be. -/
def Num.Good (x : Num) : Prop :=
  x = .posInf ∨ ∃ n d, x = .fin n d ∧ 0 < d ∧ 0 ≤ n ∧ OnGrid ((n : ℚ) / d)

/-- Every finite number is written with a positive denominator. -/
def Num.WF (x : Num) : Prop := ∀ n d, x = .fin n d → 0 < d

/-! ## The generic store: `getData(key)` and `setData(key, data)` -/

/-- `JSON.stringify` and `JSON.parse` on a type `J` of JSON-representable values:
`parse` returns `none` where `JSON.parse` throws, `parse` inverts `stringify`, and a
JSON text is never empty. -/
structure JsonCodec (J : Type) where
  null : J
  stringify : J → String
  parse : String → Option J
  parse_stringify : ∀ v, parse (stringify v) = some v
  stringify_ne_empty : ∀ v, stringify v ≠ ""

/-- The browser's `localStorage`: the stored texts, and which writes it accepts
(`setItem` throws on the others, for instance when the quota is exceeded). -/
structure LocalStorage where
  items : String → Option String
  accepts : String → String → Bool

/-- `getData(key)`: `null` for a missing or empty item and for a text that does not
decode. -/
def LocalStorage.getData {J : Type} (c : JsonCodec J) (ls : LocalStorage) (key : String) : J :=
  match ls.items key with
  | none => c.null
  | some data =>
    if data = "" then c.null
    else
      match c.parse data with
      | some v => v
      | none => c.null

/-- `setData(key, data)`: `true` and the new storage, or `false` and the old one when
`setItem` throws. -/
def LocalStorage.setData {J : Type} (c : JsonCodec J) (ls : LocalStorage) (key : String)
    (data : J) : Bool × LocalStorage :=
  if ls.accepts key (c.stringify data) then
    (true, { ls with items := fun k => if k = key then some (c.stringify data) else ls.items k })
  else (false, ls)

/-- The codec of the three JSON literals `null`, `true` and `false`; `none` is
`null`. -/
def literalCodec : JsonCodec (Option Bool) where
  null := none
  stringify := fun v =>
    match v with
    | none => "null"
    | some true => "true"
    | some false => "false"
  parse := fun s =>
    if s = "null" then some none
    else if s = "true" then some (some true)
    else if s = "false" then some (some false)
    else none
  parse_stringify := by
    intro v
    rcases v with _ | _ | _ <;> decide
  stringify_ne_empty := by
    intro v
    rcases v with _ | _ | _ <;> decide

/-- An empty `localStorage` that accepts every write. -/
def emptyLocalStorage : LocalStorage := { items := fun _ => none, accepts := fun _ _ => true }

/-- The session step of `updateUser` and `deleteUser`: when the session user has the
id `id`, write `u` under `currentUser`. -/
def sessionWrite (st : Store) (id : Option Val) (u : Option User) : Store :=
  match getData_currentUser st with
  | some currentUser =>
    if currentUser.get "id" = id then (setData_currentUser st u).2 else st
  | none => st

/-- What one call can make of the stored document `d`: nothing (also when its write
is refused), a change of the role collections, or one element more in the exams, in
the questions, in the subjects, or in the submissions together with the results. -/
def DocStep (d d1 : AppData) : Prop :=
  d1 = d ∨
  (∃ users1, UsersStep d.users users1 ∧ d1 = { d with users := users1 }) ∨
  (∃ e : Exam, e.id = "EXAM" ++ pad3 (d.exams.length + 1) ∧
    d1 = { d with exams := d.exams ++ [e] }) ∨
  (∃ q : Question, q.id = "Q" ++ pad3 (d.questions.length + 1) ∧
    d1 = { d with questions := d.questions ++ [q] }) ∨
  (∃ s : Subject, d1 = { d with subjects := d.subjects ++ [s] }) ∨
  (∃ (st0 : Store) (sub : Submission) (now : String) (r0 : Result) (st1 : Store),
    st0.appData = .stored d ∧ StorageManager.addSubmission st0 sub now = .ok (r0, st1) ∧
    d1 = { d with
      submissions := d.submissions ++ [stampSubmission d sub now],
      results := d.results ++ [r0.toJSON] })

/-- The ids `pfx001`, `pfx002`, ... of a collection of `n` elements. -/
def seqIds (pfx : String) (n : Nat) : List String :=
  (List.range n).map (fun i => pfx ++ pad3 (i + 1))

/-- How one call can change the four id-carrying collections: each stays as it is or
gains one element at the end, whose id is the prefix followed by the new length. -/
def CollectionsStep (d d1 : AppData) : Prop :=
  (d1.exams = d.exams ∨
    ∃ e : Exam, e.id = "EXAM" ++ pad3 (d.exams.length + 1) ∧ d1.exams = d.exams ++ [e]) ∧
  (d1.questions = d.questions ∨
    ∃ q : Question, q.id = "Q" ++ pad3 (d.questions.length + 1) ∧
      d1.questions = d.questions ++ [q]) ∧
  (d1.submissions = d.submissions ∨
    ∃ s : Submission, s.id = "SUB" ++ pad3 (d.submissions.length + 1) ∧
      d1.submissions = d.submissions ++ [s]) ∧
  (d1.results = d.results ∨
    ∃ r : Result, r.id = "RES" ++ pad3 (d.results.length + 1) ∧ d1.results = d.results ++ [r])

/-- Every element of the four id-carrying collections has the id of its position. -/
def SequentialIds (d : AppData) : Prop :=
  d.exams.map (fun e => e.id) = seqIds "EXAM" d.exams.length ∧
  d.questions.map (fun q => q.id) = seqIds "Q" d.questions.length ∧
  d.submissions.map (fun s => s.id) = seqIds "SUB" d.submissions.length ∧
  d.results.map (fun r => r.id) = seqIds "RES" d.results.length

/-- The store after the exam of the grading example was added to the fresh empty
document and student `s1` submitted twice, first `["A", "B"]` and then `["A", "X"]`. -/
def busyStore : Store :=
  (Op.addSubmission (sampleSubmission ["A", "X"]) "t2").run
    ((Op.addSubmission (sampleSubmission ["A", "B"]) "t1").run
      ((Op.addExam sampleExam "t0").run (StorageManager.initStorage emptyStore)))

/-- A stored result with the given status. -/
def resultWith (status : String) : Result :=
  { id := "", studentId := "s1", examId := "EXAM001", score := .fin 0 1,
    totalMarks := .fin 0 1, percentage := .fin 0 1, submittedAt := "t0", status := status }

/-- A store whose document holds 80 results, 23 of them passed. -/
def quarterStore : Store :=
  { appData := .stored
      { defaultData with
        results := List.replicate 23 (resultWith "passed") ++
          List.replicate 57 (resultWith "failed") },
    currentUser := .stored none, fits := fun _ _ => true }

/-- The store `sampleStore` after one submission with both answers correct. -/
def gradedStore : Store :=
  (Op.addSubmission (sampleSubmission ["A", "B"]) "t1").run sampleStore

/-- The document of `gradedStore`. -/
def gradedData : AppData := (getData_appData gradedStore).getD defaultData


/-! # Verification -/

open StorageManager

/-! ## Binary64 rounding and `toFixed(1)` -/

theorem log2Aux_spec : ∀ (fuel n : Nat), 0 < n → n ≤ fuel →
    2 ^ log2Aux fuel n ≤ n ∧ n < 2 ^ (log2Aux fuel n + 1) := by
  intro fuel
  induction fuel with
  | zero => intro n h0 h1; omega
  | succ fuel ih =>
    intro n h0 h1
    unfold log2Aux
    by_cases h2 : n < 2
    · simp only [h2, if_true]
      constructor <;> simp <;> omega
    · simp only [h2, if_false]
      obtain ⟨ha, hb⟩ := ih (n / 2) (by omega) (by omega)
      rw [pow_succ] at hb
      constructor
      · rw [pow_succ]; omega
      · rw [pow_succ, pow_succ]; omega

theorem two_zpow_split (e : Int) :
    (2 : ℚ) ^ e = (2 : ℚ) ^ e.toNat / (2 : ℚ) ^ (-e).toNat := by
  rcases le_or_lt 0 e with h | h
  · have h1 : (-e).toNat = 0 := by omega
    have h2 : (e.toNat : Int) = e := Int.toNat_of_nonneg h
    rw [h1, pow_zero, div_one, ← zpow_natCast, h2]
  · have h1 : e.toNat = 0 := by omega
    have h2 : ((-e).toNat : Int) = -e := Int.toNat_of_nonneg (by omega)
    rw [h1, pow_zero, one_div, ← zpow_natCast, h2, zpow_neg, inv_inv]

theorem log2Floor_spec (a b : Nat) (ha : 0 < a) (hb : 0 < b) :
    (2 : ℚ) ^ log2Floor a b ≤ (a : ℚ) / b ∧ (a : ℚ) / b < (2 : ℚ) ^ (log2Floor a b + 1) := by
  obtain ⟨a1, a2⟩ := log2Aux_spec a a ha le_rfl
  obtain ⟨b1, b2⟩ := log2Aux_spec b b hb le_rfl
  have hbq : (0 : ℚ) < b := by exact_mod_cast hb
  have haq : (0 : ℚ) < a := by exact_mod_cast ha
  have a1q : (2 : ℚ) ^ (log2Aux a a : Int) ≤ a := by
    rw [zpow_natCast]; exact_mod_cast a1
  have a2q : (a : ℚ) < (2 : ℚ) ^ ((log2Aux a a : Int) + 1) := by
    have : (a : ℚ) < (2 : ℚ) ^ (log2Aux a a + 1) := by exact_mod_cast a2
    rw [← zpow_natCast] at this; push_cast at this; exact this
  have b1q : (2 : ℚ) ^ (log2Aux b b : Int) ≤ b := by
    rw [zpow_natCast]; exact_mod_cast b1
  have b2q : (b : ℚ) < (2 : ℚ) ^ ((log2Aux b b : Int) + 1) := by
    have : (b : ℚ) < (2 : ℚ) ^ (log2Aux b b + 1) := by exact_mod_cast b2
    rw [← zpow_natCast] at this; push_cast at this; exact this
  have h2 : (0 : ℚ) < 2 := by norm_num
  have hup : (a : ℚ) / b < (2 : ℚ) ^ ((log2Aux a a : Int) - (log2Aux b b : Int) + 1) := by
    rw [div_lt_iff₀ hbq]
    calc (a : ℚ) < (2 : ℚ) ^ ((log2Aux a a : Int) + 1) := a2q
      _ = (2 : ℚ) ^ ((log2Aux a a : Int) - (log2Aux b b : Int) + 1) *
            (2 : ℚ) ^ (log2Aux b b : Int) := by
          rw [← zpow_add₀ (by norm_num : (2 : ℚ) ≠ 0)]; congr 1; ring
      _ ≤ _ := by
          apply mul_le_mul_of_nonneg_left b1q (le_of_lt (zpow_pos h2 _))
  have hlo : (2 : ℚ) ^ ((log2Aux a a : Int) - (log2Aux b b : Int) - 1) ≤ (a : ℚ) / b := by
    rw [le_div_iff₀ hbq]
    calc (2 : ℚ) ^ ((log2Aux a a : Int) - (log2Aux b b : Int) - 1) * (b : ℚ)
        ≤ (2 : ℚ) ^ ((log2Aux a a : Int) - (log2Aux b b : Int) - 1) *
            (2 : ℚ) ^ ((log2Aux b b : Int) + 1) :=
          mul_le_mul_of_nonneg_left (le_of_lt b2q) (le_of_lt (zpow_pos h2 _))
      _ = (2 : ℚ) ^ (log2Aux a a : Int) := by
          rw [← zpow_add₀ (by norm_num : (2 : ℚ) ≠ 0)]; congr 1; ring
      _ ≤ a := a1q
  unfold log2Floor
  simp only
  have hP : (0 : ℚ) < (2 : ℚ) ^ (-((log2Aux a a : Int) - (log2Aux b b : Int))).toNat :=
    pow_pos h2 _
  have htest : (b * 2 ^ ((log2Aux a a : Int) - (log2Aux b b : Int)).toNat ≤
        a * 2 ^ (-((log2Aux a a : Int) - (log2Aux b b : Int))).toNat) ↔
      (2 : ℚ) ^ ((log2Aux a a : Int) - (log2Aux b b : Int)) ≤ (a : ℚ) / b := by
    rw [two_zpow_split, div_le_div_iff₀ hP hbq]
    constructor
    · intro h
      have : ((b * 2 ^ ((log2Aux a a : Int) - (log2Aux b b : Int)).toNat : Nat) : ℚ) ≤
          ((a * 2 ^ (-((log2Aux a a : Int) - (log2Aux b b : Int))).toNat : Nat) : ℚ) := by
        exact_mod_cast h
      push_cast at this; linarith
    · intro h
      have : ((b * 2 ^ ((log2Aux a a : Int) - (log2Aux b b : Int)).toNat : Nat) : ℚ) ≤
          ((a * 2 ^ (-((log2Aux a a : Int) - (log2Aux b b : Int))).toNat : Nat) : ℚ) := by
        push_cast; linarith
      exact_mod_cast this
  by_cases ht : b * 2 ^ ((log2Aux a a : Int) - (log2Aux b b : Int)).toNat ≤
        a * 2 ^ (-((log2Aux a a : Int) - (log2Aux b b : Int))).toNat
  · rw [if_pos ht]
    exact ⟨htest.mp ht, hup⟩
  · rw [if_neg ht]
    refine ⟨hlo, ?_⟩
    have := lt_of_not_le (fun h => ht (htest.mpr h))
    have e1 : (log2Aux a a : Int) - (log2Aux b b : Int) - 1 + 1 =
        (log2Aux a a : Int) - (log2Aux b b : Int) := by ring
    rw [e1]; exact this

theorem divRoundEven_spec (a : Int) (b : Nat) (hb : 0 < b) :
    |(divRoundEven a b : ℚ) - (a : ℚ) / b| ≤ 1 / 2 := by
  have hbz : (0 : Int) < b := by exact_mod_cast hb
  have hbq : (0 : ℚ) < b := by exact_mod_cast hb
  have h1 := Int.emod_add_ediv a b
  have h2 := Int.emod_nonneg a (ne_of_gt hbz)
  have h3 := Int.emod_lt_of_pos a hbz
  have hq : (a : ℚ) / b = ((a / (b : Int) : Int) : ℚ) + ((a % (b : Int) : Int) : ℚ) / b := by
    field_simp
    have : ((a % (b : Int) + (b : Int) * (a / (b : Int)) : Int) : ℚ) = (a : ℚ) := by
      rw [h1]
    push_cast at this; linarith
  have hr0 : (0 : ℚ) ≤ ((a % (b : Int) : Int) : ℚ) / b :=
    div_nonneg (by exact_mod_cast h2) (le_of_lt hbq)
  have hr1 : ((a % (b : Int) : Int) : ℚ) / b < 1 := by
    rw [div_lt_one hbq]; exact_mod_cast h3
  unfold divRoundEven
  simp only
  rw [hq, abs_le]
  by_cases c1 : 2 * (a % (b : Int)) < b
  · rw [if_pos c1]
    have : ((a % (b : Int) : Int) : ℚ) / b < 1 / 2 := by
      rw [div_lt_iff₀ hbq]
      have : ((2 * (a % (b : Int)) : Int) : ℚ) < ((b : Int) : ℚ) := Int.cast_lt.mpr c1
      push_cast at this; linarith
    constructor <;> linarith
  · rw [if_neg c1]
    have c1q : (1 : ℚ) / 2 ≤ ((a % (b : Int) : Int) : ℚ) / b := by
      rw [le_div_iff₀ hbq]
      have : ((b : Int) : ℚ) ≤ ((2 * (a % (b : Int)) : Int) : ℚ) :=
        Int.cast_le.mpr (not_lt.mp c1)
      push_cast at this; linarith
    by_cases c2 : (b : Int) < 2 * (a % (b : Int))
    · rw [if_pos c2]
      push_cast
      constructor <;> linarith
    · rw [if_neg c2]
      have c2q : ((a % (b : Int) : Int) : ℚ) / b ≤ 1 / 2 := by
        rw [div_le_iff₀ hbq]
        have : ((2 * (a % (b : Int)) : Int) : ℚ) ≤ ((b : Int) : ℚ) :=
          Int.cast_le.mpr (not_lt.mp c2)
        push_cast at this; linarith
      split
      · constructor <;> linarith
      · push_cast
        constructor <;> linarith

theorem int_ediv_bounds (a b : Int) (hb : 0 < b) :
    ((a / b : Int) : ℚ) ≤ (a : ℚ) / b ∧ (a : ℚ) / b < ((a / b : Int) : ℚ) + 1 := by
  have hbq : (0 : ℚ) < b := by exact_mod_cast hb
  have h1 := Int.emod_add_ediv a b
  have h2 := Int.emod_nonneg a (ne_of_gt hb)
  have h3 := Int.emod_lt_of_pos a hb
  have e : (a : ℚ) = ((a % b : Int) : ℚ) + (b : ℚ) * ((a / b : Int) : ℚ) := by
    have : ((a % b + b * (a / b) : Int) : ℚ) = (a : ℚ) := by rw [h1]
    push_cast at this; linarith
  have h2q : (0 : ℚ) ≤ ((a % b : Int) : ℚ) := by exact_mod_cast h2
  have h3q : ((a % b : Int) : ℚ) < (b : ℚ) := by exact_mod_cast h3
  constructor
  · rw [le_div_iff₀ hbq]; nlinarith
  · rw [div_lt_iff₀ hbq]; nlinarith

theorem divRoundEven_roundsTo (a : Int) (b : Nat) (hb : 0 < b) :
    RoundsTo ((a : ℚ) / b) (divRoundEven a b) := by
  refine ⟨divRoundEven_spec a b hb, ?_⟩
  have hbz : (0 : Int) < b := by exact_mod_cast hb
  have hbq : (0 : ℚ) < b := by exact_mod_cast hb
  have h1 := Int.emod_add_ediv a b
  have h2 := Int.emod_nonneg a (ne_of_gt hbz)
  have h3 := Int.emod_lt_of_pos a hbz
  have hq : (a : ℚ) / b = ((a / (b : Int) : Int) : ℚ) + ((a % (b : Int) : Int) : ℚ) / b := by
    field_simp
    have : ((a % (b : Int) + (b : Int) * (a / (b : Int)) : Int) : ℚ) = (a : ℚ) := by
      rw [h1]
    push_cast at this; linarith
  have hr0 : (0 : ℚ) ≤ ((a % (b : Int) : Int) : ℚ) / b :=
    div_nonneg (by exact_mod_cast h2) (le_of_lt hbq)
  have hr1 : ((a % (b : Int) : Int) : ℚ) / b < 1 := by
    rw [div_lt_one hbq]; exact_mod_cast h3
  unfold divRoundEven
  simp only
  rw [hq]
  by_cases c1 : 2 * (a % (b : Int)) < b
  · rw [if_pos c1]
    have : ((a % (b : Int) : Int) : ℚ) / b < 1 / 2 := by
      rw [div_lt_iff₀ hbq]
      have : ((2 * (a % (b : Int)) : Int) : ℚ) < ((b : Int) : ℚ) := Int.cast_lt.mpr c1
      push_cast at this; linarith
    intro h
    exfalso
    have e : ((a / (b : Int) : Int) : ℚ) -
        (((a / (b : Int) : Int) : ℚ) + ((a % (b : Int) : Int) : ℚ) / b) =
        -(((a % (b : Int) : Int) : ℚ) / b) := by ring
    rw [e, abs_neg, abs_of_nonneg hr0] at h
    linarith
  · rw [if_neg c1]
    by_cases c2 : (b : Int) < 2 * (a % (b : Int))
    · rw [if_pos c2]
      have : 1 / 2 < ((a % (b : Int) : Int) : ℚ) / b := by
        rw [lt_div_iff₀ hbq]
        have : ((b : Int) : ℚ) < ((2 * (a % (b : Int)) : Int) : ℚ) := Int.cast_lt.mpr c2
        push_cast at this; linarith
      intro h
      exfalso
      have e : (((a / (b : Int) + 1 : Int)) : ℚ) -
          (((a / (b : Int) : Int) : ℚ) + ((a % (b : Int) : Int) : ℚ) / b) =
          1 - ((a % (b : Int) : Int) : ℚ) / b := by push_cast; ring
      rw [e, abs_of_nonneg (by linarith)] at h
      linarith
    · rw [if_neg c2]
      intro _
      split
      · assumption
      · omega

theorem roundsTo_le_int (x : ℚ) (m C : Int) (h : RoundsTo x m) (hx : x ≤ C) : m ≤ C := by
  have h1 := (abs_le.mp h.1).2
  have : ((m : Int) : ℚ) < ((C + 1 : Int) : ℚ) := by push_cast; linarith
  have := Int.cast_lt.mp this
  omega

theorem int_le_roundsTo (x : ℚ) (m C : Int) (h : RoundsTo x m) (hx : (C : ℚ) ≤ x) : C ≤ m := by
  have h1 := (abs_le.mp h.1).1
  have : ((C - 1 : Int) : ℚ) < ((m : Int) : ℚ) := by push_cast; linarith
  have := Int.cast_lt.mp this
  omega

theorem roundsTo_mono (x y : ℚ) (m m1 : Int) (hx : RoundsTo x m) (hy : RoundsTo y m1)
    (hxy : x ≤ y) : m ≤ m1 := by
  by_contra hc
  push_neg at hc
  have hm : ((m1 + 1 : Int) : ℚ) ≤ ((m : Int) : ℚ) := Int.cast_le.mpr (by omega)
  push_cast at hm
  have a1 := (abs_le.mp hx.1).2
  have a2 := (abs_le.mp hy.1).1
  have e1 : (m : ℚ) - x = 1 / 2 := by linarith
  have e2 : (m1 : ℚ) - y = -(1 / 2) := by linarith
  have p1 := hx.2 (by rw [e1]; norm_num)
  have p2 := hy.2 (by rw [e2]; norm_num)
  have e3 : (m : ℚ) = m1 + 1 := by linarith
  have : m = m1 + 1 := by exact_mod_cast e3
  omega

theorem round53_den_pos (n : Int) (d : Nat) : 0 < (round53 n d).den := by
  unfold round53
  split
  · decide
  · exact Nat.pos_pow_of_pos _ (by decide)

/-- The shape of a rounded positive fraction: a 53-bit integer `m`, nearest to the
fraction scaled by `2^k`, at an exponent `k ≥ -1074` that is the least one unless the
fraction is at least `2^(k+52)`. -/
theorem round53_char (n : Int) (d : Nat) (hn : 0 < n) (hd : 0 < d) :
    ∃ k m : Int, -1074 ≤ k ∧ (n : ℚ) / d < (2 : ℚ) ^ (k + 53) ∧
      (-1074 < k → (2 : ℚ) ^ (k + 52) ≤ (n : ℚ) / d) ∧
      RoundsTo ((n : ℚ) / d / (2 : ℚ) ^ k) m ∧
      (round53 n d).toRat = (m : ℚ) * (2 : ℚ) ^ k ∧
      (round53 n d).num = m * 2 ^ k.toNat ∧ (round53 n d).den = 2 ^ (-k).toNat := by
  have h2 : (0 : ℚ) < 2 := by norm_num
  have hdq : (0 : ℚ) < d := by exact_mod_cast hd
  have hn0 : n ≠ 0 := ne_of_gt hn
  have hna : 0 < n.natAbs := Int.natAbs_pos.mpr hn0
  obtain ⟨hlo, hhi⟩ := log2Floor_spec n.natAbs d hna hd
  have habs : ((n.natAbs : Nat) : ℚ) = (n : ℚ) := by
    rw [Nat.cast_natAbs, abs_of_nonneg (le_of_lt hn)]
  rw [habs] at hlo hhi
  generalize he : log2Floor n.natAbs d = e at hlo hhi
  have hx : round53 n d =
      ⟨divRoundEven (n * 2 ^ (-(max e (-1022) - 52)).toNat)
          (d * 2 ^ (max e (-1022) - 52).toNat) * 2 ^ (max e (-1022) - 52).toNat,
        2 ^ (-(max e (-1022) - 52)).toNat⟩ := by
    unfold round53
    rw [if_neg hn0, he]
  have hQn : 0 < d * 2 ^ (max e (-1022) - 52).toNat :=
    Nat.mul_pos hd (Nat.pos_pow_of_pos _ (by decide))
  have hm := divRoundEven_roundsTo (n * 2 ^ (-(max e (-1022) - 52)).toNat)
    (d * 2 ^ (max e (-1022) - 52).toNat) hQn
  refine ⟨max e (-1022) - 52, divRoundEven (n * 2 ^ (-(max e (-1022) - 52)).toNat)
    (d * 2 ^ (max e (-1022) - 52).toNat), ?_, ?_, ?_, ?_, ?_, ?_, ?_⟩
  rotate_left 3
  · convert hm using 1
    rw [two_zpow_split (max e (-1022) - 52)]
    push_cast
    field_simp
  · rw [hx, two_zpow_split (max e (-1022) - 52)]
    simp only [F64.toRat]
    push_cast
    field_simp
  · rw [hx]
  · rw [hx]
  · have := le_max_right e (-1022)
    omega
  · refine lt_of_lt_of_le hhi ?_
    apply zpow_le_zpow_right₀ (by norm_num)
    have := le_max_left e (-1022)
    omega
  · intro hk
    have : max e (-1022) = e := by
      rcases le_total e (-1022) with h | h
      · rw [max_eq_right h] at hk; omega
      · exact max_eq_left h
    rw [this]
    have e1 : e - 52 + 52 = e := by ring
    rw [e1]
    exact hlo

theorem round53_spec (n : Int) (d : Nat) (hd : 0 < d) :
    |(round53 n d).toRat - (n : ℚ) / d| ≤
      (2 : ℚ) ^ (-53 : Int) * |(n : ℚ) / d| + (2 : ℚ) ^ (-1075 : Int) := by
  have h2 : (0 : ℚ) < 2 := by norm_num
  by_cases hn : n = 0
  · subst hn
    have : (round53 0 d).toRat = 0 := by simp [round53, F64.toRat]
    rw [this]
    simp
    positivity
  · have hdq : (0 : ℚ) < d := by exact_mod_cast hd
    have hna : 0 < n.natAbs := Int.natAbs_pos.mpr hn
    obtain ⟨hlo, -⟩ := log2Floor_spec n.natAbs d hna hd
    have habs : ((n.natAbs : Nat) : ℚ) / d = |(n : ℚ) / d| := by
      rw [abs_div, abs_of_pos hdq, Nat.cast_natAbs, Int.cast_abs]
    rw [habs] at hlo
    generalize he : log2Floor n.natAbs d = e at hlo
    have hx : round53 n d =
        ⟨divRoundEven (n * 2 ^ (-(max e (-1022) - 52)).toNat)
            (d * 2 ^ (max e (-1022) - 52).toNat) * 2 ^ (max e (-1022) - 52).toNat,
          2 ^ (-(max e (-1022) - 52)).toNat⟩ := by
      unfold round53
      rw [if_neg hn, he]
    rw [hx]
    generalize hk : max e (-1022) - 52 = k
    have hP : (0 : ℚ) < (2 : ℚ) ^ (-k).toNat := pow_pos h2 _
    have hQ : (0 : ℚ) < (2 : ℚ) ^ k.toNat := pow_pos h2 _
    have hQn : 0 < d * 2 ^ k.toNat := Nat.mul_pos hd (Nat.pos_pow_of_pos _ (by decide))
    have hm := divRoundEven_spec (n * 2 ^ (-k).toNat) (d * 2 ^ k.toNat) hQn
    generalize divRoundEven (n * 2 ^ (-k).toNat) (d * 2 ^ k.toNat) = m at hm
    have hk2 : (2 : ℚ) ^ k = (2 : ℚ) ^ k.toNat / (2 : ℚ) ^ (-k).toNat := two_zpow_split k
    have hkpos : (0 : ℚ) < (2 : ℚ) ^ k := zpow_pos h2 _
    have e1 : (F64.mk (m * 2 ^ k.toNat) (2 ^ (-k).toNat)).toRat - (n : ℚ) / d =
        ((m : ℚ) - ((n * 2 ^ (-k).toNat : Int) : ℚ) / ((d * 2 ^ k.toNat : Nat) : ℚ)) *
          (2 : ℚ) ^ k := by
      rw [hk2]
      simp only [F64.toRat]
      push_cast
      field_simp
      ring
    rw [e1, abs_mul, abs_of_pos hkpos]
    have step : |(m : ℚ) - ((n * 2 ^ (-k).toNat : Int) : ℚ) / ((d * 2 ^ k.toNat : Nat) : ℚ)| *
        (2 : ℚ) ^ k ≤ (2 : ℚ) ^ (k - 1) := by
      have : (2 : ℚ) ^ (k - 1) = 1 / 2 * (2 : ℚ) ^ k := by
        rw [zpow_sub₀ (by norm_num : (2 : ℚ) ≠ 0), zpow_one]; ring
      rw [this]
      exact mul_le_mul_of_nonneg_right hm (le_of_lt hkpos)
    refine le_trans step ?_
    have hpos1 : (0 : ℚ) ≤ (2 : ℚ) ^ (-53 : Int) * |(n : ℚ) / d| := by positivity
    have hpos2 : (0 : ℚ) ≤ (2 : ℚ) ^ (-1075 : Int) := by positivity
    rcases le_or_lt (-1022) e with hc | hc
    · have hk' : k - 1 = -53 + e := by rw [← hk, max_eq_left hc]; ring
      rw [hk', zpow_add₀ (by norm_num : (2 : ℚ) ≠ 0)]
      have := mul_le_mul_of_nonneg_left hlo (le_of_lt (zpow_pos h2 (-53)))
      linarith
    · have hk' : k - 1 = -1075 := by rw [← hk, max_eq_right (le_of_lt hc)]; norm_num
      rw [hk']
      linarith

theorem toFixed1_spec (x : F64) (hx : 0 < x.den) :
    |tenthsToRat (toFixed1 x) - x.toRat| ≤ 1 / 20 := by
  have hdz : (0 : Int) < 2 * (x.den : Int) := by
    have : (0 : Int) < x.den := by exact_mod_cast hx
    omega
  have hdq : (0 : ℚ) < x.den := by exact_mod_cast hx
  unfold toFixed1 tenthsToRat F64.toRat
  by_cases h : 0 ≤ x.num
  · rw [if_pos h]
    obtain ⟨b1, b2⟩ := int_ediv_bounds (20 * x.num + x.den) (2 * (x.den : Int)) hdz
    generalize (20 * x.num + x.den) / (2 * (x.den : Int)) = n at b1 b2
    push_cast at b1 b2
    have e : (20 * (x.num : ℚ) + x.den) / (2 * (x.den : ℚ)) =
        10 * ((x.num : ℚ) / x.den) + 1 / 2 := by
      field_simp; ring
    rw [e] at b1 b2
    rw [abs_le]
    constructor <;> linarith
  · rw [if_neg h]
    obtain ⟨b1, b2⟩ := int_ediv_bounds (20 * (-x.num) + x.den) (2 * (x.den : Int)) hdz
    generalize (20 * (-x.num) + x.den) / (2 * (x.den : Int)) = n at b1 b2
    push_cast at b1 b2
    have e : (20 * (-(x.num : ℚ)) + x.den) / (2 * (x.den : ℚ)) =
        -(10 * ((x.num : ℚ) / x.den)) + 1 / 2 := by
      field_simp; ring
    rw [e] at b1 b2
    push_cast
    rw [abs_le]
    constructor <;> linarith


theorem divRoundEven_le (a : Int) (b : Nat) (C : Int) (hb : 0 < b) (h : a ≤ C * b) :
    divRoundEven a b ≤ C := by
  have hbq : (0 : ℚ) < b := by exact_mod_cast hb
  have hs := (abs_le.mp (divRoundEven_spec a b hb)).2
  have hq : (a : ℚ) / b ≤ C := by
    rw [div_le_iff₀ hbq]
    have : ((a : Int) : ℚ) ≤ ((C * b : Int) : ℚ) := Int.cast_le.mpr h
    push_cast at this; exact this
  have : ((divRoundEven a b : Int) : ℚ) < ((C + 1 : Int) : ℚ) := by
    push_cast; linarith
  have := Int.cast_lt.mp this
  omega

theorem le_divRoundEven (a : Int) (b : Nat) (C : Int) (hb : 0 < b) (h : C * b ≤ a) :
    C ≤ divRoundEven a b := by
  have hbq : (0 : ℚ) < b := by exact_mod_cast hb
  have hs := (abs_le.mp (divRoundEven_spec a b hb)).1
  have hq : (C : ℚ) ≤ (a : ℚ) / b := by
    rw [le_div_iff₀ hbq]
    have : ((C * b : Int) : ℚ) ≤ ((a : Int) : ℚ) := Int.cast_le.mpr h
    push_cast at this; exact this
  have : ((C - 1 : Int) : ℚ) < ((divRoundEven a b : Int) : ℚ) := by
    push_cast; linarith
  have := Int.cast_lt.mp this
  omega

/-- Rounding does not cross an integer `c`: for `0 ≤ n / d < 2^53` the
result is at most `c` when `n / d` is and at least `c` when `n / d` is, and its
numerator is not negative. -/
theorem round53_bounds (n : Int) (d c : Nat) (hd : 0 < d) (hn : 0 ≤ n)
    (hsmall : n < 2 ^ 53 * (d : Int)) :
    (n ≤ (c : Int) * d → (round53 n d).toRat ≤ c) ∧
    ((c : Int) * d ≤ n → (c : ℚ) ≤ (round53 n d).toRat) ∧
    0 ≤ (round53 n d).num := by
  have h2 : (0 : ℚ) < 2 := by norm_num
  have hdq : (0 : ℚ) < d := by exact_mod_cast hd
  have hdz : (0 : Int) < d := by exact_mod_cast hd
  by_cases hn0 : n = 0
  · subst hn0
    have hv : (round53 0 d).toRat = 0 := by simp [round53, F64.toRat]
    have hnum : (round53 0 d).num = 0 := by simp [round53]
    rw [hv, hnum]
    refine ⟨fun _ => by positivity, ?_, le_refl _⟩
    intro h
    have : (c : Int) ≤ 0 := by
      by_contra hc
      push_neg at hc
      have := mul_pos hc hdz
      omega
    exact_mod_cast this
  · have hna : 0 < n.natAbs := Int.natAbs_pos.mpr hn0
    obtain ⟨hlo, -⟩ := log2Floor_spec n.natAbs d hna hd
    have habs : ((n.natAbs : Nat) : ℚ) = (n : ℚ) := by
      rw [Nat.cast_natAbs, abs_of_nonneg hn]
    rw [habs] at hlo
    generalize he : log2Floor n.natAbs d = e at hlo
    have hlt : (n : ℚ) / d < (2 : ℚ) ^ (53 : Int) := by
      rw [div_lt_iff₀ hdq]
      have : ((n : Int) : ℚ) < ((2 ^ 53 * (d : Int) : Int) : ℚ) := Int.cast_lt.mpr hsmall
      push_cast at this
      have e53 : (2 : ℚ) ^ (53 : Int) = 9007199254740992 := by norm_num
      rw [e53]
      exact this
    have he52 : e ≤ 52 := by
      by_contra hc
      push_neg at hc
      have : (2 : ℚ) ^ (53 : Int) ≤ (2 : ℚ) ^ e := zpow_le_zpow_right₀ (by norm_num) (by omega)
      linarith
    have hx : round53 n d =
        ⟨divRoundEven (n * 2 ^ (-(max e (-1022) - 52)).toNat)
            (d * 2 ^ (max e (-1022) - 52).toNat) * 2 ^ (max e (-1022) - 52).toNat,
          2 ^ (-(max e (-1022) - 52)).toNat⟩ := by
      unfold round53
      rw [if_neg hn0, he]
    rw [hx]
    have hk0 : (max e (-1022) - 52).toNat = 0 := by
      have : max e (-1022) ≤ 52 := max_le he52 (by norm_num)
      omega
    rw [hk0]
    simp only [pow_zero, Nat.mul_one, mul_one]
    generalize (-(max e (-1022) - 52)).toNat = j
    have hPz : (0 : Int) < 2 ^ j := by positivity
    have hPq : (0 : ℚ) < (2 : ℚ) ^ j := by positivity
    refine ⟨?_, ?_, ?_⟩
    · intro h
      have hm : divRoundEven (n * 2 ^ j) d ≤ (c : Int) * 2 ^ j := by
        apply divRoundEven_le _ _ _ hd
        nlinarith
      simp only [F64.toRat]
      push_cast
      rw [div_le_iff₀ hPq]
      have : ((divRoundEven (n * 2 ^ j) d : Int) : ℚ) ≤ (((c : Int) * 2 ^ j : Int) : ℚ) :=
        Int.cast_le.mpr hm
      push_cast at this
      exact this
    · intro h
      have hm : (c : Int) * 2 ^ j ≤ divRoundEven (n * 2 ^ j) d := by
        apply le_divRoundEven _ _ _ hd
        nlinarith
      simp only [F64.toRat]
      push_cast
      rw [le_div_iff₀ hPq]
      have : (((c : Int) * 2 ^ j : Int) : ℚ) ≤ ((divRoundEven (n * 2 ^ j) d : Int) : ℚ) :=
        Int.cast_le.mpr hm
      push_cast at this
      exact this
    · apply le_divRoundEven _ _ _ hd
      have : 0 ≤ n * 2 ^ j := mul_nonneg hn (le_of_lt hPz)
      simpa using this

theorem F64.num_le_den_of_toRat_le_one (x : F64) (hx : 0 < x.den) (h : x.toRat ≤ 1) :
    x.num ≤ x.den := by
  have hdq : (0 : ℚ) < x.den := by exact_mod_cast hx
  unfold F64.toRat at h
  rw [div_le_one hdq] at h
  exact_mod_cast h

theorem F64.den_le_num_of_one_le_toRat (x : F64) (hx : 0 < x.den) (h : 1 ≤ x.toRat) :
    (x.den : Int) ≤ x.num := by
  have hdq : (0 : ℚ) < x.den := by exact_mod_cast hx
  unfold F64.toRat at h
  rw [one_le_div hdq] at h
  exact_mod_cast h

theorem round53_zero (d : Nat) : round53 0 d = ⟨0, 1⟩ := by
  simp [round53]

theorem round53_nonneg (n : Int) (d : Nat) (hn : 0 ≤ n) (hd : 0 < d) :
    0 ≤ (round53 n d).num ∧ 0 ≤ (round53 n d).toRat := by
  rcases eq_or_lt_of_le hn with h | h
  · subst h
    rw [round53_zero]
    simp [F64.toRat]
  · obtain ⟨k, m, -, -, -, hr, hv, hnum, -⟩ := round53_char n d h hd
    have hdq : (0 : ℚ) < d := by exact_mod_cast hd
    have hnq : (0 : ℚ) < n := by exact_mod_cast h
    have hm : 0 ≤ m := by
      apply int_le_roundsTo _ m 0 hr
      push_cast
      positivity
    constructor
    · rw [hnum]; positivity
    · rw [hv]
      have : (0 : ℚ) ≤ m := by exact_mod_cast hm
      positivity

/-- Rounding is monotone on non-negative fractions. -/
theorem round53_mono (n1 n2 : Int) (d1 d2 : Nat) (h1 : 0 ≤ n1) (hd1 : 0 < d1) (hd2 : 0 < d2)
    (hle : (n1 : ℚ) / d1 ≤ (n2 : ℚ) / d2) :
    (round53 n1 d1).toRat ≤ (round53 n2 d2).toRat := by
  have h2 : (1 : ℚ) < 2 := by norm_num
  have hd1q : (0 : ℚ) < d1 := by exact_mod_cast hd1
  have hd2q : (0 : ℚ) < d2 := by exact_mod_cast hd2
  have hq1 : (0 : ℚ) ≤ (n1 : ℚ) / d1 := div_nonneg (by exact_mod_cast h1) (le_of_lt hd1q)
  have hn2 : 0 ≤ n2 := by
    have : (0 : ℚ) ≤ (n2 : ℚ) / d2 := le_trans hq1 hle
    have := (div_nonneg_iff.mp this)
    rcases this with ⟨a, -⟩ | ⟨-, b⟩
    · exact_mod_cast a
    · linarith
  rcases eq_or_lt_of_le h1 with h | h
  · subst h
    rw [round53_zero]
    have := (round53_nonneg n2 d2 hn2 hd2).2
    simpa [F64.toRat] using this
  · have hn2pos : 0 < n2 := by
      have hq1pos : (0 : ℚ) < (n1 : ℚ) / d1 := div_pos (by exact_mod_cast h) hd1q
      have : (0 : ℚ) < (n2 : ℚ) / d2 := lt_of_lt_of_le hq1pos hle
      have := (div_pos_iff.mp this)
      rcases this with ⟨a, -⟩ | ⟨-, b⟩
      · exact_mod_cast a
      · linarith
    obtain ⟨k1, m1, hk1, hu1, hl1, hr1, hv1, -, -⟩ := round53_char n1 d1 h hd1
    obtain ⟨k2, m2, hk2, hu2, hl2, hr2, hv2, -, -⟩ := round53_char n2 d2 hn2pos hd2
    rw [hv1, hv2]
    have hkk : k1 ≤ k2 := by
      by_contra hc
      push_neg at hc
      have a := hl1 (by omega)
      have : (2 : ℚ) ^ (k1 + 52) < (2 : ℚ) ^ (k2 + 53) := by linarith
      have := (zpow_lt_zpow_iff_right₀ h2).mp this
      omega
    have hp1 : (0 : ℚ) < (2 : ℚ) ^ k1 := zpow_pos (by norm_num) _
    have hp2 : (0 : ℚ) < (2 : ℚ) ^ k2 := zpow_pos (by norm_num) _
    rcases eq_or_lt_of_le hkk with hk | hk
    · subst hk
      have : m1 ≤ m2 := roundsTo_mono _ _ _ _ hr1 hr2 (div_le_div_of_nonneg_right hle (le_of_lt hp1))
      have : (m1 : ℚ) ≤ m2 := by exact_mod_cast this
      exact mul_le_mul_of_nonneg_right this (le_of_lt hp1)
    · have e53 : ((2 ^ 53 : Int) : ℚ) = (2 : ℚ) ^ (53 : Int) := by norm_num
      have e52 : ((2 ^ 52 : Int) : ℚ) = (2 : ℚ) ^ (52 : Int) := by norm_num
      have a1 : m1 ≤ 2 ^ 53 := by
        apply roundsTo_le_int _ m1 _ hr1
        rw [e53, div_le_iff₀ hp1, ← zpow_add₀ (by norm_num : (2 : ℚ) ≠ 0)]
        rw [show (53 : Int) + k1 = k1 + 53 by ring]
        exact le_of_lt hu1
      have a2 : 2 ^ 52 ≤ m2 := by
        apply int_le_roundsTo _ m2 _ hr2
        rw [e52, le_div_iff₀ hp2, ← zpow_add₀ (by norm_num : (2 : ℚ) ≠ 0)]
        rw [show (52 : Int) + k2 = k2 + 52 by ring]
        exact hl2 (by omega)
      have a1q : (m1 : ℚ) ≤ (2 : ℚ) ^ (53 : Int) := by rw [← e53]; exact_mod_cast a1
      have a2q : (2 : ℚ) ^ (52 : Int) ≤ (m2 : ℚ) := by rw [← e52]; exact_mod_cast a2
      calc (m1 : ℚ) * (2 : ℚ) ^ k1 ≤ (2 : ℚ) ^ (53 : Int) * (2 : ℚ) ^ k1 :=
            mul_le_mul_of_nonneg_right a1q (le_of_lt hp1)
        _ = (2 : ℚ) ^ (53 + k1) := by rw [zpow_add₀ (by norm_num : (2 : ℚ) ≠ 0)]
        _ ≤ (2 : ℚ) ^ (52 + k2) := zpow_le_zpow_right₀ (le_of_lt h2) (by omega)
        _ = (2 : ℚ) ^ (52 : Int) * (2 : ℚ) ^ k2 := by
            rw [zpow_add₀ (by norm_num : (2 : ℚ) ≠ 0)]
        _ ≤ (m2 : ℚ) * (2 : ℚ) ^ k2 := mul_le_mul_of_nonneg_right a2q (le_of_lt hp2)

/-- A rounded non-negative fraction has at most 53 significant bits. -/
theorem round53_onGrid (n : Int) (d : Nat) (hn : 0 ≤ n) (hd : 0 < d) :
    OnGrid (round53 n d).toRat := by
  rcases eq_or_lt_of_le hn with h | h
  · subst h
    rw [round53_zero]
    exact ⟨0, 0, by norm_num, le_refl _, by norm_num, by simp [F64.toRat]⟩
  · obtain ⟨k, m, hk, hu, -, hr, hv, -, -⟩ := round53_char n d h hd
    have hdq : (0 : ℚ) < d := by exact_mod_cast hd
    have hnq : (0 : ℚ) < n := by exact_mod_cast h
    have hp : (0 : ℚ) < (2 : ℚ) ^ k := zpow_pos (by norm_num) _
    have e53 : ((2 ^ 53 : Int) : ℚ) = (2 : ℚ) ^ (53 : Int) := by norm_num
    refine ⟨k, m, hk, ?_, ?_, hv⟩
    · apply int_le_roundsTo _ m 0 hr
      push_cast
      positivity
    · apply roundsTo_le_int _ m _ hr
      rw [e53, div_le_iff₀ hp, ← zpow_add₀ (by norm_num : (2 : ℚ) ≠ 0)]
      rw [show (53 : Int) + k = k + 53 by ring]
      exact le_of_lt hu

/-- Rounding a fraction does not go below a 53-bit value that the fraction is not
below: adding a non-negative number to a binary64 number does not decrease it. -/
theorem round53_ge_onGrid (v : ℚ) (n : Int) (d : Nat) (hv : OnGrid v) (hd : 0 < d)
    (hle : v ≤ (n : ℚ) / d) : v ≤ (round53 n d).toRat := by
  have h2 : (1 : ℚ) < 2 := by norm_num
  have h20 : (2 : ℚ) ≠ 0 := by norm_num
  have hdq : (0 : ℚ) < d := by exact_mod_cast hd
  obtain ⟨k0, m0, hk0, hm0, hm1, rfl⟩ := hv
  have hp0 : (0 : ℚ) < (2 : ℚ) ^ k0 := zpow_pos (by norm_num) _
  have hm0q : (0 : ℚ) ≤ m0 := by exact_mod_cast hm0
  have hn : 0 ≤ n := by
    have : (0 : ℚ) ≤ (n : ℚ) / d := le_trans (by positivity) hle
    rcases div_nonneg_iff.mp this with ⟨a, -⟩ | ⟨-, b⟩
    · exact_mod_cast a
    · linarith
  rcases eq_or_lt_of_le hm0 with h0 | h0
  · subst h0
    simpa using (round53_nonneg n d hn hd).2
  have hvpos : (0 : ℚ) < (m0 : ℚ) * (2 : ℚ) ^ k0 := by
    have : (0 : ℚ) < m0 := by exact_mod_cast h0
    positivity
  have hnpos : 0 < n := by
    have : (0 : ℚ) < (n : ℚ) / d := lt_of_lt_of_le hvpos hle
    rcases div_pos_iff.mp this with ⟨a, -⟩ | ⟨-, b⟩
    · exact_mod_cast a
    · linarith
  obtain ⟨k, m, hk, hu, hl, hr, hval, -, -⟩ := round53_char n d hnpos hd
  rw [hval]
  have hp : (0 : ℚ) < (2 : ℚ) ^ k := zpow_pos (by norm_num) _
  rcases le_or_lt k k0 with hkk | hkk
  · -- the value lies on the finer grid of the sum
    have hj : ((k0 - k).toNat : Int) = k0 - k := Int.toNat_of_nonneg (by omega)
    have e : (m0 : ℚ) * (2 : ℚ) ^ k0 = ((m0 * 2 ^ (k0 - k).toNat : Int) : ℚ) * (2 : ℚ) ^ k := by
      push_cast
      rw [mul_assoc, ← zpow_natCast, hj, ← zpow_add₀ h20]
      congr 2
      ring
    have : m0 * 2 ^ (k0 - k).toNat ≤ m := by
      apply int_le_roundsTo _ m _ hr
      rw [le_div_iff₀ hp, ← e]
      exact hle
    rw [e]
    have : ((m0 * 2 ^ (k0 - k).toNat : Int) : ℚ) ≤ (m : ℚ) := Int.cast_le.mpr this
    exact mul_le_mul_of_nonneg_right this (le_of_lt hp)
  · have e53 : ((2 ^ 53 : Int) : ℚ) = (2 : ℚ) ^ (53 : Int) := by norm_num
    have e52 : ((2 ^ 52 : Int) : ℚ) = (2 : ℚ) ^ (52 : Int) := by norm_num
    have a2 : 2 ^ 52 ≤ m := by
      apply int_le_roundsTo _ m _ hr
      rw [e52, le_div_iff₀ hp, ← zpow_add₀ h20]
      rw [show (52 : Int) + k = k + 52 by ring]
      exact hl (by omega)
    have a1q : (m0 : ℚ) ≤ (2 : ℚ) ^ (53 : Int) := by rw [← e53]; exact_mod_cast hm1
    have a2q : (2 : ℚ) ^ (52 : Int) ≤ (m : ℚ) := by rw [← e52]; exact_mod_cast a2
    calc (m0 : ℚ) * (2 : ℚ) ^ k0 ≤ (2 : ℚ) ^ (53 : Int) * (2 : ℚ) ^ k0 :=
          mul_le_mul_of_nonneg_right a1q (le_of_lt hp0)
      _ = (2 : ℚ) ^ (53 + k0) := by rw [zpow_add₀ h20]
      _ ≤ (2 : ℚ) ^ (52 + k) := zpow_le_zpow_right₀ (le_of_lt h2) (by omega)
      _ = (2 : ℚ) ^ (52 : Int) * (2 : ℚ) ^ k := by rw [zpow_add₀ h20]
      _ ≤ (m : ℚ) * (2 : ℚ) ^ k := mul_le_mul_of_nonneg_right a2q (le_of_lt hp)

theorem binary64_nonneg_cases (n : Int) (d : Nat) (hn : 0 ≤ n) (hd : 0 < d) :
    (binary64 n d = .posInf ∧ (overflowBound : ℚ) ≤ (round53 n d).toRat) ∨
    (binary64 n d = .fin (round53 n d).num (round53 n d).den ∧
      (round53 n d).toRat < (overflowBound : ℚ)) := by
  have hden := round53_den_pos n d
  have hnum := (round53_nonneg n d hn hd).1
  have hdq : (0 : ℚ) < ((round53 n d).den : ℚ) := by exact_mod_cast hden
  have hna : ((round53 n d).num.natAbs : Int) = (round53 n d).num :=
    Int.natAbs_of_nonneg hnum
  unfold binary64
  simp only
  by_cases ht : overflowBound * (round53 n d).den ≤ (round53 n d).num.natAbs
  · left
    rw [if_pos ht]
    have hpos : 0 < (round53 n d).num := by
      have : 0 < (round53 n d).num.natAbs :=
        lt_of_lt_of_le (Nat.mul_pos (by decide) hden) ht
      omega
    rw [if_pos hpos]
    refine ⟨rfl, ?_⟩
    unfold F64.toRat
    rw [le_div_iff₀ hdq]
    have : ((overflowBound * (round53 n d).den : Nat) : Int) ≤ (round53 n d).num := by
      rw [← hna]; exact_mod_cast ht
    have : (((overflowBound * (round53 n d).den : Nat) : Int) : ℚ) ≤ ((round53 n d).num : ℚ) :=
      Int.cast_le.mpr this
    push_cast at this
    exact this
  · right
    rw [if_neg ht]
    refine ⟨rfl, ?_⟩
    unfold F64.toRat
    rw [div_lt_iff₀ hdq]
    have : (round53 n d).num < ((overflowBound * (round53 n d).den : Nat) : Int) := by
      rw [← hna]; exact_mod_cast (not_le.mp ht)
    have : ((round53 n d).num : ℚ) < (((overflowBound * (round53 n d).den : Nat) : Int) : ℚ) :=
      Int.cast_lt.mpr this
    push_cast at this
    exact this

theorem binary64_wf (n : Int) (d : Nat) : (binary64 n d).WF := by
  intro a b h
  unfold binary64 at h
  simp only at h
  split at h
  · split at h <;> cases h
  · cases h
    exact round53_den_pos n d

theorem binary64_good (n : Int) (d : Nat) (hn : 0 ≤ n) (hd : 0 < d) : (binary64 n d).Good := by
  rcases binary64_nonneg_cases n d hn hd with ⟨h, -⟩ | ⟨h, -⟩
  · exact Or.inl h
  · right
    exact ⟨_, _, h, round53_den_pos n d, (round53_nonneg n d hn hd).1, round53_onGrid n d hn hd⟩

theorem Num.good_zero : (Num.fin 0 1).Good :=
  Or.inr ⟨0, 1, rfl, by decide, le_refl _, 0, 0, by norm_num, le_refl _, by norm_num, by simp⟩

theorem Num.le_posInf_of_good (x : Num) (h : x.Good) : x.le .posInf = true := by
  rcases h with rfl | ⟨n, d, rfl, -⟩ <;> rfl

theorem Num.le_fin_iff (a : Int) (b : Nat) (c : Int) (d : Nat) (hb : 0 < b) (hd : 0 < d) :
    (Num.fin a b).le (.fin c d) = true ↔ (a : ℚ) / b ≤ (c : ℚ) / d := by
  have hbq : (0 : ℚ) < b := by exact_mod_cast hb
  have hdq : (0 : ℚ) < d := by exact_mod_cast hd
  rw [div_le_div_iff₀ hbq hdq]
  simp only [Num.le, decide_eq_true_eq]
  constructor
  · intro h
    have : ((a * d : Int) : ℚ) ≤ ((c * b : Int) : ℚ) := Int.cast_le.mpr h
    push_cast at this; exact this
  · intro h
    have : ((a * d : Int) : ℚ) ≤ ((c * b : Int) : ℚ) := by push_cast; exact h
    exact Int.cast_le.mp this

theorem Num.lt_fin_iff (a : Int) (b : Nat) (c : Int) (d : Nat) (hb : 0 < b) (hd : 0 < d) :
    (Num.fin a b).lt (.fin c d) = true ↔ (a : ℚ) / b < (c : ℚ) / d := by
  have hbq : (0 : ℚ) < b := by exact_mod_cast hb
  have hdq : (0 : ℚ) < d := by exact_mod_cast hd
  rw [div_lt_div_iff₀ hbq hdq]
  simp only [Num.lt, decide_eq_true_eq]
  constructor
  · intro h
    have : ((a * d : Int) : ℚ) < ((c * b : Int) : ℚ) := Int.cast_lt.mpr h
    push_cast at this; exact this
  · intro h
    have : ((a * d : Int) : ℚ) < ((c * b : Int) : ℚ) := by push_cast; exact h
    exact Int.cast_lt.mp this

/-- Rounding is monotone, overflow to `Infinity` included. -/
theorem binary64_le_binary64 (n1 n2 : Int) (d1 d2 : Nat) (h1 : 0 ≤ n1) (hd1 : 0 < d1)
    (hd2 : 0 < d2) (hle : (n1 : ℚ) / d1 ≤ (n2 : ℚ) / d2) :
    (binary64 n1 d1).le (binary64 n2 d2) = true := by
  have hd1q : (0 : ℚ) < d1 := by exact_mod_cast hd1
  have hd2q : (0 : ℚ) < d2 := by exact_mod_cast hd2
  have hn2 : 0 ≤ n2 := by
    have : (0 : ℚ) ≤ (n2 : ℚ) / d2 :=
      le_trans (div_nonneg (by exact_mod_cast h1) (le_of_lt hd1q)) hle
    rcases div_nonneg_iff.mp this with ⟨a, -⟩ | ⟨-, b⟩
    · exact_mod_cast a
    · linarith
  have hm := round53_mono n1 n2 d1 d2 h1 hd1 hd2 hle
  rcases binary64_nonneg_cases n2 d2 hn2 hd2 with ⟨e2, -⟩ | ⟨e2, b2⟩
  · rw [e2]
    exact Num.le_posInf_of_good _ (binary64_good n1 d1 h1 hd1)
  · rcases binary64_nonneg_cases n1 d1 h1 hd1 with ⟨-, b1⟩ | ⟨e1, -⟩
    · linarith
    · rw [e1, e2, Num.le_fin_iff _ _ _ _ (round53_den_pos _ _) (round53_den_pos _ _)]
      exact hm

/-- A binary64 number is not above the rounded value of a fraction it is not above. -/
theorem le_binary64 (a : Int) (b : Nat) (n : Int) (d : Nat) (hb : 0 < b) (hd : 0 < d)
    (ha : 0 ≤ a) (hg : OnGrid ((a : ℚ) / b)) (hle : (a : ℚ) / b ≤ (n : ℚ) / d) :
    (Num.fin a b).le (binary64 n d) = true := by
  have hbq : (0 : ℚ) < b := by exact_mod_cast hb
  have hdq : (0 : ℚ) < d := by exact_mod_cast hd
  have hn : 0 ≤ n := by
    have : (0 : ℚ) ≤ (n : ℚ) / d :=
      le_trans (div_nonneg (by exact_mod_cast ha) (le_of_lt hbq)) hle
    rcases div_nonneg_iff.mp this with ⟨a, -⟩ | ⟨-, b⟩
    · exact_mod_cast a
    · linarith
  rcases binary64_nonneg_cases n d hn hd with ⟨e2, -⟩ | ⟨e2, -⟩
  · rw [e2]; rfl
  · rw [e2, Num.le_fin_iff _ _ _ _ hb (round53_den_pos _ _)]
    exact round53_ge_onGrid _ n d hg hd hle

theorem Num.add_fin (a : Int) (b : Nat) (c : Int) (d : Nat) :
    (Num.fin a b).add (.fin c d) = binary64 (a * d + c * b) (b * d) := rfl

theorem Num.add_frac (a : Int) (b : Nat) (c : Int) (d : Nat) (hb : 0 < b) (hd : 0 < d) :
    (((a * d + c * b : Int) : ℚ)) / ((b * d : Nat) : ℚ) = (a : ℚ) / b + (c : ℚ) / d := by
  have hbq : (0 : ℚ) < b := by exact_mod_cast hb
  have hdq : (0 : ℚ) < d := by exact_mod_cast hd
  push_cast
  field_simp

theorem Num.add_good (x y : Num) (hx : x.Good) (hy : y.Good) : (x.add y).Good := by
  rcases hx with rfl | ⟨a, b, rfl, hb, ha, -⟩ <;> rcases hy with rfl | ⟨c, d, rfl, hd, hc, -⟩
  · exact Or.inl rfl
  · exact Or.inl rfl
  · exact Or.inl rfl
  · rw [Num.add_fin]
    exact binary64_good _ _ (by positivity) (Nat.mul_pos hb hd)

/-- Adding the same non-negative number keeps the order. -/
theorem Num.add_le_add (s t m : Num) (hs : s.Good) (ht : t.Good) (hm : m.Good)
    (hst : s.le t = true) : (s.add m).le (t.add m) = true := by
  have hsm := Num.add_good _ _ hs hm
  rcases hm with rfl | ⟨c, d, rfl, hd, hc, -⟩
  · have : t.add .posInf = .posInf := by
      rcases ht with rfl | ⟨_, _, rfl, -⟩ <;> rfl
    rw [this]
    exact Num.le_posInf_of_good _ hsm
  · rcases ht with rfl | ⟨a2, b2, rfl, hb2, ha2, -⟩
    · exact Num.le_posInf_of_good _ hsm
    · rcases hs with rfl | ⟨a1, b1, rfl, hb1, ha1, -⟩
      · simp [Num.le] at hst
      · rw [Num.add_fin, Num.add_fin]
        apply binary64_le_binary64 _ _ _ _ (by positivity) (Nat.mul_pos hb1 hd)
          (Nat.mul_pos hb2 hd)
        rw [Num.add_frac _ _ _ _ hb1 hd, Num.add_frac _ _ _ _ hb2 hd]
        have := (Num.le_fin_iff _ _ _ _ hb1 hb2).mp hst
        linarith

/-- Adding a non-negative number does not take a sum below a smaller one. -/
theorem Num.le_add (s t m : Num) (hs : s.Good) (ht : t.Good) (hm : m.Good)
    (hst : s.le t = true) : s.le (t.add m) = true := by
  rcases hm with rfl | ⟨c, d, rfl, hd, hc, -⟩
  · have : t.add .posInf = .posInf := by
      rcases ht with rfl | ⟨_, _, rfl, -⟩ <;> rfl
    rw [this]
    exact Num.le_posInf_of_good _ hs
  · rcases ht with rfl | ⟨a2, b2, rfl, hb2, ha2, -⟩
    · exact Num.le_posInf_of_good _ hs
    · rcases hs with rfl | ⟨a1, b1, rfl, hb1, ha1, hg1⟩
      · simp [Num.le] at hst
      · rw [Num.add_fin]
        apply le_binary64 _ _ _ _ hb1 (Nat.mul_pos hb2 hd) ha1 hg1
        rw [Num.add_frac _ _ _ _ hb2 hd]
        have := (Num.le_fin_iff _ _ _ _ hb1 hb2).mp hst
        have hdq : (0 : ℚ) < d := by exact_mod_cast hd
        have : (0 : ℚ) ≤ (c : ℚ) / d := div_nonneg (by exact_mod_cast hc) (le_of_lt hdq)
        linarith

/-! ## Grading -/

theorem gradeLoop_eq (qs : List Question) :
    ∀ (as : List Val) (i : Nat) (s t : Num),
      gradeLoop qs as i (s, t) =
        ((((as.zip (qs.drop i)).filter (fun p => decide (p.1 = p.2.correctAnswer))).map
            (fun p => p.2)).foldl (fun acc q => acc.add (Num.ofNumeral q.marks)) s,
         ((as.zip (qs.drop i)).map (fun p => p.2)).foldl
            (fun acc q => acc.add (Num.ofNumeral q.marks)) t) := by
  intro as
  induction as with
  | nil => intro i s t; simp [gradeLoop]
  | cons a rest ih =>
    intro i s t
    rcases h : qs[i]? with _ | q
    · have hlen : qs.length ≤ i := by
        rcases Nat.lt_or_ge i qs.length with h1 | h1
        · rw [List.getElem?_eq_getElem h1] at h; cases h
        · exact h1
      have h1 : qs.drop i = [] := List.drop_eq_nil_of_le hlen
      have h2 : qs.drop (i + 1) = [] := List.drop_eq_nil_of_le (by omega)
      simp only [gradeLoop, h, ih, h1, h2]
      simp
    · have hlt : i < qs.length := by
        rcases Nat.lt_or_ge i qs.length with h1 | h1
        · exact h1
        · rw [List.getElem?_eq_none h1] at h; cases h
      have hq : qs[i] = q := by
        rw [List.getElem?_eq_getElem hlt] at h; exact Option.some.inj h
      have h1 : qs.drop i = q :: qs.drop (i + 1) := by
        rw [← hq]; exact List.drop_eq_getElem_cons hlt
      simp only [gradeLoop, h, ih, h1, List.zip_cons_cons, List.map_cons, List.foldl_cons]
      by_cases hc : a = q.correctAnswer
      · simp [hc, List.filter_cons]
      · simp [hc, List.filter_cons]

theorem zip_map_snd_eq_take : ∀ (as : List Val) (qs : List Question),
    (as.zip qs).map (fun p => p.2) = qs.take as.length := by
  intro as
  induction as with
  | nil => intro qs; simp
  | cons a rest ih =>
    intro qs
    cases qs with
    | nil => simp
    | cons q qs => simp [ih]

/-- The loop adds up, in binary64 and in position order, the marks of the graded
questions and those of the correctly answered ones. -/
theorem gradeLoop_sums (qs : List Question) (as : List Val) :
    gradeLoop qs as 0 (.fin 0 1, .fin 0 1) =
      (sumMarks (correctQuestions as qs), sumMarks (gradedQuestions as qs)) := by
  rw [gradeLoop_eq]
  simp only [List.drop_zero, sumMarks, correctQuestions, gradedQuestions, answered,
    zip_map_snd_eq_take]

/-- Shape of a successful `addSubmission`. -/
theorem addSubmission_ok (st : Store) (d : AppData) (sub : Submission) (now : String)
    (hd : st.appData = .stored d) :
    ∃ r, addSubmission st sub now = .ok (r,
        (setData_appData st
          { d with
            submissions := d.submissions ++ [stampSubmission d sub now],
            results := d.results ++ [r.toJSON] }).2) ∧
      r.id = "RES" ++ pad3 (d.results.length + 1) ∧
      r.studentId = sub.studentId ∧ r.examId = sub.examId ∧ r.submittedAt = now ∧
      (r.score, r.totalMarks) =
        (match d.exams.find? (fun exam => decide (exam.id = sub.examId)) with
         | some e =>
           (match e.questions with
            | some qs => gradeLoop qs sub.answers 0 (.fin 0 1, .fin 0 1)
            | none => (.fin 0 1, .fin 0 1))
         | none => (.fin 0 1, .fin 0 1)) ∧
      r.percentage = percentageOf r.score r.totalMarks ∧
      r.status =
        (if (passThreshold d sub.examId).le r.percentage then "passed" else "failed") := by
  have hg : getData_appData st = some d := by simp [getData_appData, hd]
  simp only [addSubmission, hg]
  refine ⟨_, rfl, ?_⟩
  simp [getExamById, getExams, hg, passThreshold]

theorem overflowBound_gt : (2 : ℚ) ^ 53 < (overflowBound : ℚ) := by
  have : 2 ^ 53 < overflowBound := by decide
  exact_mod_cast this

/-- A whole number below `2^53` is a binary64 number: rounding returns it. -/
theorem binary64_exact (n : Int) (d N : Nat) (hd : 0 < d) (hn : n = (N : Int) * d)
    (hN : N < 2 ^ 53) :
    ∃ a b, binary64 n d = .fin a b ∧ 0 < b ∧ a = (N : Int) * b := by
  have hdz : (0 : Int) < d := by exact_mod_cast hd
  have hn0 : 0 ≤ n := by rw [hn]; positivity
  have hsmall : n < 2 ^ 53 * (d : Int) := by
    rw [hn]
    have : (N : Int) < 2 ^ 53 := by exact_mod_cast hN
    exact mul_lt_mul_of_pos_right this hdz
  obtain ⟨b1, b2, -⟩ := round53_bounds n d N hd hn0 hsmall
  have h1 := b1 (le_of_eq hn)
  have h2 := b2 (le_of_eq hn.symm)
  have hv : (round53 n d).toRat = N := le_antisymm h1 h2
  have hden := round53_den_pos n d
  have hdq : (0 : ℚ) < ((round53 n d).den : ℚ) := by exact_mod_cast hden
  rcases binary64_nonneg_cases n d hn0 hd with ⟨-, b⟩ | ⟨e, -⟩
  · exfalso
    rw [hv] at b
    have : (N : ℚ) < 2 ^ 53 := by exact_mod_cast hN
    have := overflowBound_gt
    linarith
  · refine ⟨_, _, e, hden, ?_⟩
    unfold F64.toRat at hv
    rw [div_eq_iff (ne_of_gt hdq)] at hv
    exact_mod_cast hv

theorem Numeral.toRat_of_isNat (x : Numeral) (h : x.IsNat) :
    x.toRat = ((x.mant.toNat * 10 ^ x.exp.toNat : Nat) : ℚ) := by
  obtain ⟨h1, h2⟩ := h
  unfold Numeral.toRat
  have e1 : ((x.mant.toNat : Nat) : Int) = x.mant := Int.toNat_of_nonneg h1
  have e2 : ((x.exp.toNat : Nat) : Int) = x.exp := Int.toNat_of_nonneg h2
  push_cast
  rw [← zpow_natCast, e2]
  congr 1
  exact_mod_cast e1.symm

theorem Num.ofNumeral_of_isNat (x : Numeral) (h : x.IsNat)
    (hN : x.mant.toNat * 10 ^ x.exp.toNat < 2 ^ 53) :
    ∃ a b, Num.ofNumeral x = .fin a b ∧ 0 < b ∧
      a = ((x.mant.toNat * 10 ^ x.exp.toNat : Nat) : Int) * b := by
  obtain ⟨h1, h2⟩ := h
  unfold Num.ofNumeral
  have e0 : (-x.exp).toNat = 0 := by omega
  rw [e0, pow_zero]
  apply binary64_exact _ 1 _ (by decide) _ hN
  have e1 : ((x.mant.toNat : Nat) : Int) = x.mant := Int.toNat_of_nonneg h1
  push_cast
  rw [e1]
  ring

/-- Adding whole-number marks in binary64 is exact while the sum stays below `2^53`. -/
theorem foldl_add_exact : ∀ (qs : List Question) (acc : Num) (S : Nat),
    (∃ a b, acc = .fin a b ∧ 0 < b ∧ a = (S : Int) * b) →
    (∀ q ∈ qs, q.marks.IsNat) →
    S + (qs.map (fun q => q.marks.mant.toNat * 10 ^ q.marks.exp.toNat)).sum < 2 ^ 53 →
    ∃ a b, qs.foldl (fun acc q => acc.add (Num.ofNumeral q.marks)) acc = .fin a b ∧ 0 < b ∧
      a = ((S + (qs.map (fun q => q.marks.mant.toNat * 10 ^ q.marks.exp.toNat)).sum : Nat) : Int)
        * b := by
  intro qs
  induction qs with
  | nil => intro acc S h _ _; simpa using h
  | cons q qs ih =>
    intro acc S hacc hq hS
    simp only [List.map_cons, List.sum_cons] at hS ⊢
    obtain ⟨a, b, rfl, hb, ha⟩ := hacc
    obtain ⟨c, e, hm, he, hc⟩ := Num.ofNumeral_of_isNat q.marks (hq q (List.mem_cons_self _ _))
      (by omega)
    simp only [List.foldl_cons]
    have hstep : ∃ a1 b1, (Num.fin a b).add (Num.ofNumeral q.marks) = .fin a1 b1 ∧ 0 < b1 ∧
        a1 = ((S + q.marks.mant.toNat * 10 ^ q.marks.exp.toNat : Nat) : Int) * b1 := by
      rw [hm, Num.add_fin]
      apply binary64_exact _ _ _ (Nat.mul_pos hb he) _ (by omega)
      rw [ha, hc]
      push_cast
      ring
    have := ih _ (S + q.marks.mant.toNat * 10 ^ q.marks.exp.toNat) hstep
      (fun q1 h1 => hq q1 (List.mem_cons_of_mem _ h1)) (by omega)
    rw [Nat.add_assoc] at this
    exact this

theorem exactMarks_of_isNat (qs : List Question) (h : ∀ q ∈ qs, q.marks.IsNat) :
    exactMarks qs =
      (((qs.map (fun q => q.marks.mant.toNat * 10 ^ q.marks.exp.toNat)).sum : Nat) : ℚ) := by
  unfold exactMarks
  induction qs with
  | nil => simp
  | cons q qs ih =>
    simp only [List.map_cons, List.sum_cons]
    rw [ih (fun q1 h1 => h q1 (List.mem_cons_of_mem _ h1)),
      Numeral.toRat_of_isNat _ (h q (List.mem_cons_self _ _))]
    push_cast
    ring

/-- The binary64 sum of whole-number marks that add up to less than `2^53` is their
exact sum. -/
theorem sumMarks_exact (qs : List Question) (h : ∀ q ∈ qs, q.marks.IsNat)
    (hS : exactMarks qs < 2 ^ 53) : (sumMarks qs).toRat? = some (exactMarks qs) := by
  rw [exactMarks_of_isNat qs h] at hS ⊢
  have hS1 : 0 + (qs.map (fun q => q.marks.mant.toNat * 10 ^ q.marks.exp.toNat)).sum <
      2 ^ 53 := by
    rw [Nat.zero_add]
    exact_mod_cast hS
  obtain ⟨a, b, e, hb, ha⟩ := foldl_add_exact qs (.fin 0 1) 0
    ⟨0, 1, rfl, by decide, by simp⟩ h hS1
  unfold sumMarks
  rw [e]
  simp only [Num.toRat?, Option.some.injEq]
  have hbq : (0 : ℚ) < b := by exact_mod_cast hb
  rw [div_eq_iff (ne_of_gt hbq), ha, Nat.zero_add, Int.cast_mul, Int.cast_natCast,
    Int.cast_natCast]

theorem exactMarks_nonneg (qs : List Question) (h : ∀ q ∈ qs, q.marks.IsNat) :
    0 ≤ exactMarks qs := by
  rw [exactMarks_of_isNat qs h]
  positivity

theorem correctQuestions_sublist (as : List Val) (qs : List Question) :
    (correctQuestions as qs).Sublist (gradedQuestions as qs) := by
  unfold correctQuestions gradedQuestions answered
  rw [← zip_map_snd_eq_take]
  exact (List.filter_sublist _).map _

theorem exactMarks_sublist (l1 l2 : List Question) (hs : l1.Sublist l2)
    (h : ∀ q ∈ l2, q.marks.IsNat) : exactMarks l1 ≤ exactMarks l2 := by
  induction hs with
  | slnil => exact le_refl _
  | cons a _ ih =>
    have h1 := ih (fun q hq => h q (List.mem_cons_of_mem _ hq))
    have h2 : 0 ≤ a.marks.toRat := by
      rw [Numeral.toRat_of_isNat _ (h a (List.mem_cons_self _ _))]; positivity
    unfold exactMarks at h1 ⊢
    simp only [List.map_cons, List.sum_cons]
    linarith
  | cons₂ a _ ih =>
    have h1 := ih (fun q hq => h q (List.mem_cons_of_mem _ hq))
    unfold exactMarks at h1 ⊢
    simp only [List.map_cons, List.sum_cons]
    linarith

/-! ## C1 -/

set_option maxRecDepth 100000 in
/-- C1, counterexample: with marks `[9007199254740991, 2]` and both answers given,
`addSubmission` returns `totalMarks = 9007199254740992`, the binary64 sum, while the
marks add up to `9007199254740993`. -/
theorem C1_counterexample :
    ∃ r st1, addSubmission (storeOf largeExam) (sampleSubmission ["A", "B"]) "t1" = .ok (r, st1) ∧
      r.totalMarks = .fin 9007199254740992 1 ∧
      exactMarks (gradedQuestions (sampleSubmission ["A", "B"]).answers
        (largeExam.questions.getD [])) = 9007199254740993 := by
  refine ⟨_, _, rfl, by decide, ?_⟩
  simp [exactMarks, gradedQuestions, largeExam, examOf, sampleQuestion, sampleSubmission,
      Numeral.toRat]
  norm_num

/-- C1 (amended): in a document where `E` is the first exam whose id equals
`submission.examId`, `addSubmission` returns a Result whose `totalMarks` is the
binary64 sum, added in position order from `0`, of the marks of `E.questions[i]` over
the positions `i < min |answers| |E.questions|`, and whose `score` is the same sum
over those positions where `answers[i]` equals `E.questions[i].correctAnswer`;
answers are paired with questions by position, question ids play no part.  Both are
the exact sums when the graded marks are non-negative whole numbers that add up to
less than `2^53`. -/
theorem C1_addSubmission_score_totalMarks (st : Store) (d : AppData) (E : Exam)
    (sub : Submission) (now : String)
    (hd : st.appData = .stored d)
    (hE : d.exams.find? (fun exam => decide (exam.id = sub.examId)) = some E) :
    ∃ r st1, addSubmission st sub now = .ok (r, st1) ∧
      r.totalMarks = sumMarks (gradedQuestions sub.answers (E.questions.getD [])) ∧
      r.score = sumMarks (correctQuestions sub.answers (E.questions.getD [])) ∧
      ((∀ q ∈ gradedQuestions sub.answers (E.questions.getD []), q.marks.IsNat) →
        exactMarks (gradedQuestions sub.answers (E.questions.getD [])) < 2 ^ 53 →
        r.totalMarks.toRat? =
          some (exactMarks (gradedQuestions sub.answers (E.questions.getD []))) ∧
        r.score.toRat? =
          some (exactMarks (correctQuestions sub.answers (E.questions.getD [])))) := by
  obtain ⟨r, hr, -, -, -, -, hg, -⟩ := addSubmission_ok st d sub now hd
  have hsums : r.totalMarks = sumMarks (gradedQuestions sub.answers (E.questions.getD [])) ∧
      r.score = sumMarks (correctQuestions sub.answers (E.questions.getD [])) := by
    rw [hE] at hg
    simp only at hg
    rcases hq : E.questions with _ | qs
    · rw [hq] at hg
      have h1 : r.score = _ := congrArg Prod.fst hg
      have h2 : r.totalMarks = _ := congrArg Prod.snd hg
      rw [h1, h2]
      simp [sumMarks, gradedQuestions, correctQuestions, answered]
    · rw [hq] at hg
      simp only at hg
      rw [gradeLoop_sums] at hg
      have h1 : r.score = _ := congrArg Prod.fst hg
      have h2 : r.totalMarks = _ := congrArg Prod.snd hg
      rw [h1, h2]
      simp
  refine ⟨r, _, hr, hsums.1, hsums.2, ?_⟩
  intro hnat hlt
  rw [hsums.1, hsums.2]
  have hsub := correctQuestions_sublist sub.answers (E.questions.getD [])
  refine ⟨sumMarks_exact _ hnat hlt, sumMarks_exact _ (fun q hq => hnat q (hsub.subset hq)) ?_⟩
  exact lt_of_le_of_lt (exactMarks_sublist _ _ hsub hnat) hlt

/-- Witness of C1 on the grading example: marks `[40, 60]`, answers `["A", "X"]`. -/
theorem C1_witness :
    (sampleStore.appData = .stored { defaultData with exams := [sampleExam] } ∧
      ({ defaultData with exams := [sampleExam] } : AppData).exams.find?
        (fun exam => decide (exam.id = (sampleSubmission ["A", "X"]).examId)) = some sampleExam) ∧
    ∃ r st1, addSubmission sampleStore (sampleSubmission ["A", "X"]) "t1" = .ok (r, st1) ∧
      r.totalMarks = sumMarks (gradedQuestions (sampleSubmission ["A", "X"]).answers
        (sampleExam.questions.getD [])) ∧
      r.score = sumMarks (correctQuestions (sampleSubmission ["A", "X"]).answers
        (sampleExam.questions.getD [])) ∧
      ((∀ q ∈ gradedQuestions (sampleSubmission ["A", "X"]).answers
          (sampleExam.questions.getD []), q.marks.IsNat) →
        exactMarks (gradedQuestions (sampleSubmission ["A", "X"]).answers
          (sampleExam.questions.getD [])) < 2 ^ 53 →
        r.totalMarks.toRat? =
          some (exactMarks (gradedQuestions (sampleSubmission ["A", "X"]).answers
            (sampleExam.questions.getD []))) ∧
        r.score.toRat? =
          some (exactMarks (correctQuestions (sampleSubmission ["A", "X"]).answers
            (sampleExam.questions.getD [])))) :=
  ⟨⟨rfl, by decide⟩,
    C1_addSubmission_score_totalMarks sampleStore _ sampleExam (sampleSubmission ["A", "X"]) "t1"
      rfl (by decide)⟩

set_option maxRecDepth 100000 in
/-- The grading example of the specification, evaluated: on marks `[40, 60]` with
pass mark 50, answers `["A", "B"]` give score 100 of 100, 100 percent, passed, and
answers `["A", "X"]` give score 40 of 100, 40 percent, failed; on the fractional marks
`[0.5, 2.5]`, answers `["A", "X"]` give score 0.5 of 3 and 16.7 percent. -/
theorem grading_example :
    (∃ r st1, addSubmission sampleStore (sampleSubmission ["A", "B"]) "t1" = .ok (r, st1) ∧
      r.score.eq (.fin 100 1) = true ∧ r.totalMarks.eq (.fin 100 1) = true ∧
      r.percentage.eq (.fin 100 1) = true ∧ r.status = "passed") ∧
    (∃ r st1, addSubmission sampleStore (sampleSubmission ["A", "X"]) "t1" = .ok (r, st1) ∧
      r.score.eq (.fin 40 1) = true ∧ r.totalMarks.eq (.fin 100 1) = true ∧
      r.percentage.eq (.fin 40 1) = true ∧ r.status = "failed") ∧
    (∃ r st1, addSubmission (storeOf halfExam) (sampleSubmission ["A", "X"]) "t1" =
        .ok (r, st1) ∧
      r.score.eq (.fin 1 2) = true ∧ r.totalMarks.eq (.fin 3 1) = true ∧
      r.percentage = binary64 167 10 ∧ r.status = "failed") := by
  refine ⟨⟨_, _, rfl, ?_⟩, ⟨_, _, rfl, ?_⟩, ⟨_, _, rfl, ?_⟩⟩ <;> decide

/-! ## C2 -/

theorem Num.mul_wf (x y : Num) : (x.mul y).WF := by
  intro n d h
  cases x <;> cases y <;> simp only [Num.mul] at h <;>
    first
    | exact binary64_wf _ _ n d h
    | (split at h <;> first | cases h | (split at h <;> cases h))
    | cases h

theorem Num.div_wf (x y : Num) : (x.div y).WF := by
  intro n d h
  cases x <;> cases y <;> simp only [Num.div] at h <;>
    first
    | (split at h
       · split at h <;> first | cases h | (split at h <;> cases h)
       · exact binary64_wf _ _ n d h)
    | (cases h; decide)
    | (split at h <;> cases h)
    | cases h

theorem Num.toFixed1_toNumber_wf (x : Num) (hx : x.WF) : x.toFixed1.toNumber.WF := by
  intro n d h
  cases x with
  | fin a b =>
    simp only [Num.toFixed1] at h
    split at h
    · simp only [Fixed1.toNumber] at h
      exact hx n d h
    · simp only [Fixed1.toNumber] at h
      exact binary64_wf _ _ n d h
  | posInf => cases h
  | negInf => cases h
  | nan => cases h
  | null => cases h

theorem percentageOf_wf (s t : Num) : (percentageOf s t).WF := by
  unfold percentageOf
  split
  · exact Num.toFixed1_toNumber_wf _ (Num.mul_wf _ _)
  · intro n d h
    cases h
    decide

theorem passThreshold_wf (d : AppData) (examId : String) : (passThreshold d examId).WF := by
  unfold passThreshold
  split
  · exact binary64_wf _ _
  · intro n d h
    cases h
    decide

/-- C2: for every document and submission, the Result returned by `addSubmission`
has status `"passed"` exactly when its one-decimal percentage is at least the pass
threshold (`percentage >= passMarks` as JavaScript compares numbers, which is the
comparison of their values when both are finite and fails for `NaN`), and `"failed"`
otherwise; the threshold is `passMarks` of the referenced exam when it is found and
`50` when it is not. -/
theorem C2_status_passed_iff (st : Store) (d : AppData) (sub : Submission) (now : String)
    (hd : st.appData = .stored d) :
    ∃ r st1, addSubmission st sub now = .ok (r, st1) ∧
      (r.status = "passed" ↔ (passThreshold d sub.examId).le r.percentage = true) ∧
      (r.status = "failed" ↔ ¬ (passThreshold d sub.examId).le r.percentage = true) ∧
      (∀ t p : ℚ, (passThreshold d sub.examId).toRat? = some t →
        r.percentage.toRat? = some p →
        ((r.status = "passed" ↔ t ≤ p) ∧ (r.status = "failed" ↔ ¬ t ≤ p))) := by
  obtain ⟨r, hr, -, -, -, -, -, hp, hs⟩ := addSubmission_ok st d sub now hd
  have h12 : (r.status = "passed" ↔ (passThreshold d sub.examId).le r.percentage = true) ∧
      (r.status = "failed" ↔ ¬ (passThreshold d sub.examId).le r.percentage = true) := by
    by_cases h : (passThreshold d sub.examId).le r.percentage = true
    · rw [if_pos h] at hs
      simp [hs, h]
    · rw [if_neg h] at hs
      simp [hs, h]
  refine ⟨r, _, hr, h12.1, h12.2, ?_⟩
  intro t p ht hpv
  have hwt := passThreshold_wf d sub.examId
  have hwp : r.percentage.WF := by rw [hp]; exact percentageOf_wf _ _
  rcases hT : passThreshold d sub.examId with ⟨a, b⟩ | _ | _ | _ | _ <;>
    rw [hT] at ht <;> simp only [Num.toRat?] at ht <;> try cases ht
  rcases hP : r.percentage with ⟨c, e⟩ | _ | _ | _ | _ <;>
    rw [hP] at hpv <;> simp only [Num.toRat?] at hpv <;> try cases hpv
  have hb := hwt a b hT
  have he := hwp c e hP
  rw [hT, hP, Num.le_fin_iff _ _ _ _ hb he] at h12
  exact h12

/-- Witness of C2 on the grading example. -/
theorem C2_witness :
    sampleStore.appData = .stored { defaultData with exams := [sampleExam] } ∧
    ∃ r st1, addSubmission sampleStore (sampleSubmission ["A", "B"]) "t1" = .ok (r, st1) ∧
      (r.status = "passed" ↔
        (passThreshold { defaultData with exams := [sampleExam] }
          (sampleSubmission ["A", "B"]).examId).le r.percentage = true) ∧
      (r.status = "failed" ↔
        ¬ (passThreshold { defaultData with exams := [sampleExam] }
          (sampleSubmission ["A", "B"]).examId).le r.percentage = true) ∧
      (∀ t p : ℚ, (passThreshold { defaultData with exams := [sampleExam] }
          (sampleSubmission ["A", "B"]).examId).toRat? = some t →
        r.percentage.toRat? = some p →
        ((r.status = "passed" ↔ t ≤ p) ∧ (r.status = "failed" ↔ ¬ t ≤ p))) :=
  ⟨rfl, C2_status_passed_iff sampleStore _ (sampleSubmission ["A", "B"]) "t1" rfl⟩

/-! ## C3 -/

theorem binary64_eq_fin (n : Int) (d : Nat) (a : Int) (b : Nat) (h : binary64 n d = .fin a b) :
    a = (round53 n d).num ∧ b = (round53 n d).den := by
  unfold binary64 at h
  simp only at h
  split at h
  · split at h <;> cases h
  · cases h
    exact ⟨rfl, rfl⟩

theorem Num.add_wf (x y : Num) : (x.add y).WF := by
  intro n d h
  cases x <;> cases y <;> simp only [Num.add] at h <;>
    first
    | exact binary64_wf _ _ n d h
    | cases h

theorem foldl_add_wf : ∀ (qs : List Question) (acc : Num), acc.WF →
    (qs.foldl (fun acc q => acc.add (Num.ofNumeral q.marks)) acc).WF := by
  intro qs
  induction qs with
  | nil => intro acc h; exact h
  | cons q qs ih => intro acc _; exact ih _ (Num.add_wf _ _)

theorem Num.wf_zero : (Num.fin 0 1).WF := by
  intro n d h
  cases h
  decide

theorem addSubmission_wf (st : Store) (sub : Submission) (now : String)
    (r : Result) (st1 : Store) (h : addSubmission st sub now = .ok (r, st1)) :
    r.score.WF ∧ r.totalMarks.WF := by
  rcases hd : st.appData with _ | _ | d
  · simp [addSubmission, getData_appData, hd] at h
  · simp [addSubmission, getData_appData, hd] at h
  · obtain ⟨r1, hr, -, -, -, -, hg, -⟩ := addSubmission_ok st d sub now hd
    rw [hr] at h
    have hrr : r1 = r := congrArg Prod.fst (Except.ok.inj h)
    subst hrr
    have key : (r1.score, r1.totalMarks).1.WF ∧ (r1.score, r1.totalMarks).2.WF := by
      rw [hg]
      split
      · split
        · rw [gradeLoop_eq]
          exact ⟨foldl_add_wf _ _ Num.wf_zero, foldl_add_wf _ _ Num.wf_zero⟩
        · exact ⟨Num.wf_zero, Num.wf_zero⟩
      · exact ⟨Num.wf_zero, Num.wf_zero⟩
    exact key

/-- The binary64 value of `q * 100` for a fraction `q` that was itself rounded first
lies within relative error `2^-51` (plus `2^-1060`) of the exact product. -/
theorem times100_error (n : Int) (d : Nat) (hd : 0 < d) :
    |(round53 ((round53 n d).num * 100) ((round53 n d).den * 1)).toRat - (n : ℚ) / d * 100| ≤
      (2 : ℚ) ^ (-51 : Int) * |(n : ℚ) / d * 100| + (2 : ℚ) ^ (-1060 : Int) := by
  rw [Nat.mul_one]
  have h1 := round53_spec n d hd
  have hden := round53_den_pos n d
  have h2 := round53_spec ((round53 n d).num * 100) (round53 n d).den hden
  have e2 : (((round53 n d).num * 100 : Int) : ℚ) / ((round53 n d).den : ℚ) =
      (round53 n d).toRat * 100 := by
    simp only [F64.toRat]; push_cast; ring
  rw [e2] at h2
  generalize (round53 ((round53 n d).num * 100) (round53 n d).den).toRat = x at h2
  generalize (round53 n d).toRat = x1 at h1 h2
  generalize (n : ℚ) / d = q at h1
  have hu : (2 : ℚ) ^ (-53 : Int) = 1 / 2 ^ 53 := by
    rw [show (-53 : Int) = -((53 : Nat) : Int) by norm_num, zpow_neg, zpow_natCast, one_div]
  have hu51 : (2 : ℚ) ^ (-51 : Int) = 4 * (2 : ℚ) ^ (-53 : Int) := by
    rw [show (-51 : Int) = 2 + -53 by norm_num, zpow_add₀ (by norm_num : (2 : ℚ) ≠ 0)]
    norm_num
  have hv : (2 : ℚ) ^ (-1060 : Int) = 32768 * (2 : ℚ) ^ (-1075 : Int) := by
    rw [show (-1060 : Int) = 15 + -1075 by norm_num, zpow_add₀ (by norm_num : (2 : ℚ) ≠ 0)]
    norm_num
  have hvpos : (0 : ℚ) < (2 : ℚ) ^ (-1075 : Int) := zpow_pos (by norm_num) _
  rw [hu51, hv]
  rw [hu] at h1 h2 ⊢
  generalize (2 : ℚ) ^ (-1075 : Int) = v at h1 h2 hvpos ⊢
  have hq100 : |q * 100| = 100 * |q| := by
    rw [abs_mul]; norm_num; ring
  have hx100 : |x1 * 100| = 100 * |x1| := by
    rw [abs_mul]; norm_num; ring
  rw [hq100]
  rw [hx100] at h2
  have hx1 : |x1| ≤ |q| + (1 / 2 ^ 53 * |q| + v) := by
    have := abs_sub_abs_le_abs_sub x1 q
    linarith
  have hq0 : 0 ≤ |q| := abs_nonneg q
  have tri : |x - q * 100| ≤ |x - x1 * 100| + 100 * |x1 - q| := by
    have e : x - q * 100 = (x - x1 * 100) + 100 * (x1 - q) := by ring
    rw [e]
    refine le_trans (abs_add _ _) ?_
    rw [abs_mul]; norm_num
  have hsmall : (1 : ℚ) / 2 ^ 53 ≤ 1 / 100 := by norm_num
  have hpos53 : (0 : ℚ) < 1 / 2 ^ 53 := by norm_num
  nlinarith [mul_le_mul_of_nonneg_left hx1 (le_of_lt hpos53),
    mul_nonneg (le_of_lt hpos53) hq0, mul_nonneg (le_of_lt hpos53) (le_of_lt hvpos)]

/-- The value of `s / t * 100` in binary64, when it is finite, for finite `s` and
`t > 0`. -/
theorem percent_value_error (a : Int) (b : Nat) (c : Int) (e : Nat) (n : Int) (d : Nat)
    (hb : 0 < b) (he : 0 < e) (hc : 0 < c)
    (hx : ((Num.fin a b).div (.fin c e)).mul (.fin 100 1) = .fin n d) :
    |(n : ℚ) / d - (a : ℚ) / b / ((c : ℚ) / e) * 100| ≤
      (2 : ℚ) ^ (-51 : Int) * |(a : ℚ) / b / ((c : ℚ) / e) * 100| + (2 : ℚ) ^ (-1060 : Int) := by
  have hc0 : c ≠ 0 := ne_of_gt hc
  have hsign : c.sign = 1 := Int.sign_eq_one_of_pos hc
  simp only [Num.div, if_neg hc0, hsign, mul_one] at hx
  rcases h1 : binary64 (a * e) (b * c.natAbs) with ⟨a1, b1⟩ | _ | _ | _ | _ <;>
    rw [h1] at hx <;> simp only [Num.mul] at hx
  · obtain ⟨ea, eb⟩ := binary64_eq_fin _ _ _ _ h1
    obtain ⟨en, ed⟩ := binary64_eq_fin _ _ _ _ hx
    have hpos : 0 < b * c.natAbs := Nat.mul_pos hb (Int.natAbs_pos.mpr hc0)
    have := times100_error (a * e) (b * c.natAbs) hpos
    rw [← ea, ← eb] at this
    have hq : (((a * e : Int)) : ℚ) / ((b * c.natAbs : Nat) : ℚ) = (a : ℚ) / b / ((c : ℚ) / e) := by
      have hbq : (0 : ℚ) < b := by exact_mod_cast hb
      have heq : (0 : ℚ) < e := by exact_mod_cast he
      have hcq : (0 : ℚ) < c := by exact_mod_cast hc
      have hna : ((c.natAbs : Nat) : ℚ) = (c : ℚ) := by
        rw [Nat.cast_natAbs, abs_of_pos hc]
      push_cast
      rw [hna]
      field_simp
    unfold F64.toRat at this
    rw [← en, ← ed, hq] at this
    exact this
  · split at hx <;> cases hx
  · split at hx <;> cases hx
  · cases hx
  · cases hx

set_option maxRecDepth 100000 in
set_option exponentiation.threshold 400 in
/-- C3, as stated, fails in three ways.  With marks `[5, -10]` and both answers
correct `totalMarks` is `-5`, not `0`, and `score / totalMarks * 100` is `100`, yet
the percentage is `0`.  With marks `[23, 57]` and the first answer correct the
quotient is `28.75` exactly, which rounds to `28.8`, yet the percentage is `28.7`,
the rounding of the binary64 value of `23 / 80 * 100`.  With marks `[1e308, 1e308]`
and both answers correct both sums are `Infinity` and the percentage is `NaN`. -/
theorem C3_counterexample :
    (∃ r st1, addSubmission penaltyStore (sampleSubmission ["A", "B"]) "t1" = .ok (r, st1) ∧
      r.score.eq (.fin (-5) 1) = true ∧ r.totalMarks.eq (.fin (-5) 1) = true ∧
      r.percentage = .fin 0 1) ∧
    (∃ r st1, addSubmission (storeOf quarterExam) (sampleSubmission ["A", "X"]) "t1" =
        .ok (r, st1) ∧
      r.score.eq (.fin 23 1) = true ∧ r.totalMarks.eq (.fin 80 1) = true ∧
      r.percentage = binary64 287 10 ∧
      (Num.fin (23 * 100) 80).toFixed1 = .numeral 288) ∧
    (∃ r st1, addSubmission (storeOf hugeExam) (sampleSubmission ["A", "B"]) "t1" =
        .ok (r, st1) ∧
      r.score = .posInf ∧ r.totalMarks = .posInf ∧ r.percentage = .nan) := by
  refine ⟨⟨_, _, rfl, ?_⟩, ⟨_, _, rfl, ?_⟩, ⟨_, _, rfl, ?_⟩⟩
  · decide
  · decide
  · decide!

/-- C3 (amended): the percentage of the Result `addSubmission` returns is `0` when
`totalMarks` is not positive (zero or negative); otherwise it is the number that
`(score / totalMarks * 100).toFixed(1)` reads as, with the quotient and the product
computed in binary64.  Where that binary64 value `x` is finite and below `10^21` in
magnitude, the percentage is the binary64 number nearest to a one-decimal numeral
within `1/20` of `x`; where `x` is `NaN` (both sums `Infinity`), infinite or at least
`10^21`, the percentage is `x` itself.  For finite sums and finite `x`, `x` lies
within relative error `2^-51` (plus `2^-1060`) of the exact quotient times `100`. -/
theorem C3_percentage_rounded (st : Store) (d : AppData) (sub : Submission) (now : String)
    (hd : st.appData = .stored d) :
    ∃ r st1, addSubmission st sub now = .ok (r, st1) ∧
      ((Num.fin 0 1).lt r.totalMarks = false → r.percentage = .fin 0 1) ∧
      ((Num.fin 0 1).lt r.totalMarks = true →
        r.percentage = ((r.score.div r.totalMarks).mul (.fin 100 1)).toFixed1.toNumber ∧
        (∀ n m, (r.score.div r.totalMarks).mul (.fin 100 1) = .fin n m →
          n.natAbs < 10 ^ 21 * m →
          ∃ t : Int, r.percentage = binary64 t 10 ∧
            |tenthsToRat t - (n : ℚ) / m| ≤ 1 / 20) ∧
        (∀ n m, (r.score.div r.totalMarks).mul (.fin 100 1) = .fin n m →
          10 ^ 21 * m ≤ n.natAbs → r.percentage = .fin n m) ∧
        (((r.score.div r.totalMarks).mul (.fin 100 1)).isFinite = false →
          r.percentage = (r.score.div r.totalMarks).mul (.fin 100 1)) ∧
        (∀ (s t : ℚ) n m, r.score.toRat? = some s → r.totalMarks.toRat? = some t →
          (r.score.div r.totalMarks).mul (.fin 100 1) = .fin n m →
          |(n : ℚ) / m - s / t * 100| ≤
            (2 : ℚ) ^ (-51 : Int) * |s / t * 100| + (2 : ℚ) ^ (-1060 : Int))) := by
  obtain ⟨r, hr, -, -, -, -, -, hp, -⟩ := addSubmission_ok st d sub now hd
  obtain ⟨wfs, wft⟩ := addSubmission_wf st sub now r _ hr
  refine ⟨r, _, hr, ?_, ?_⟩
  · intro h
    rw [hp, percentageOf, h]
    rfl
  · intro h
    have hp1 : r.percentage =
        ((r.score.div r.totalMarks).mul (.fin 100 1)).toFixed1.toNumber := by
      rw [hp, percentageOf, h]
      rfl
    refine ⟨hp1, ?_, ?_, ?_, ?_⟩
    · intro n m hx hsmall
      have hm : 0 < m := Num.mul_wf _ _ n m hx
      refine ⟨toFixed1 ⟨n, m⟩, ?_, toFixed1_spec ⟨n, m⟩ hm⟩
      rw [hp1, hx]
      simp only [Num.toFixed1, if_neg (not_le.mpr hsmall), Fixed1.toNumber]
    · intro n m hx hbig
      rw [hp1, hx]
      simp only [Num.toFixed1, if_pos hbig, Fixed1.toNumber]
    · intro hnf
      rw [hp1]
      generalize (r.score.div r.totalMarks).mul (.fin 100 1) = x at hnf
      cases x <;> first | rfl | (simp [Num.isFinite] at hnf)
    · intro s t n m hs ht hx
      rcases hS : r.score with ⟨a, b⟩ | _ | _ | _ | _ <;>
        rw [hS] at hs <;> simp only [Num.toRat?] at hs <;> try cases hs
      rcases hT : r.totalMarks with ⟨c, e⟩ | _ | _ | _ | _ <;>
        rw [hT] at ht <;> simp only [Num.toRat?] at ht <;> try cases ht
      have hb := wfs a b hS
      have he := wft c e hT
      rw [hT] at h
      have hc : 0 < c := by
        simp only [Num.lt, decide_eq_true_eq] at h
        simpa using h
      rw [hS, hT] at hx
      exact percent_value_error a b c e n m hb he hc hx

/-- Witness of C3 (amended) on the grading example. -/
theorem C3_witness :
    sampleStore.appData = .stored { defaultData with exams := [sampleExam] } ∧
    ∃ r st1, addSubmission sampleStore (sampleSubmission ["A", "X"]) "t1" = .ok (r, st1) ∧
      ((Num.fin 0 1).lt r.totalMarks = false → r.percentage = .fin 0 1) ∧
      ((Num.fin 0 1).lt r.totalMarks = true →
        r.percentage = ((r.score.div r.totalMarks).mul (.fin 100 1)).toFixed1.toNumber ∧
        (∀ n m, (r.score.div r.totalMarks).mul (.fin 100 1) = .fin n m →
          n.natAbs < 10 ^ 21 * m →
          ∃ t : Int, r.percentage = binary64 t 10 ∧
            |tenthsToRat t - (n : ℚ) / m| ≤ 1 / 20) ∧
        (∀ n m, (r.score.div r.totalMarks).mul (.fin 100 1) = .fin n m →
          10 ^ 21 * m ≤ n.natAbs → r.percentage = .fin n m) ∧
        (((r.score.div r.totalMarks).mul (.fin 100 1)).isFinite = false →
          r.percentage = (r.score.div r.totalMarks).mul (.fin 100 1)) ∧
        (∀ (s t : ℚ) n m, r.score.toRat? = some s → r.totalMarks.toRat? = some t →
          (r.score.div r.totalMarks).mul (.fin 100 1) = .fin n m →
          |(n : ℚ) / m - s / t * 100| ≤
            (2 : ℚ) ^ (-51 : Int) * |s / t * 100| + (2 : ℚ) ^ (-1060 : Int))) :=
  ⟨rfl, C3_percentage_rounded sampleStore _ (sampleSubmission ["A", "X"]) "t1" rfl⟩

/-! ## C20 -/

/-- Rounding a non-negative fraction below `2^53` gives a finite number on the same
side of every whole number. -/
theorem binary64_small (n : Int) (d : Nat) (hd : 0 < d) (hn : 0 ≤ n)
    (hsmall : n < 2 ^ 53 * (d : Int)) :
    ∃ a b, binary64 n d = .fin a b ∧ 0 < b ∧ 0 ≤ a ∧
      ∀ c : Nat, (n ≤ (c : Int) * d → a ≤ (c : Int) * b) ∧ ((c : Int) * d ≤ n → (c : Int) * b ≤ a) := by
  have hden := round53_den_pos n d
  have hdq : (0 : ℚ) < ((round53 n d).den : ℚ) := by exact_mod_cast hden
  have hb := fun c => round53_bounds n d c hd hn hsmall
  rcases binary64_nonneg_cases n d hn hd with ⟨-, b⟩ | ⟨e, -⟩
  · exfalso
    have h1 := (hb (2 ^ 53)).1 (by push_cast; exact le_of_lt hsmall)
    have := overflowBound_gt
    push_cast at h1
    linarith
  · refine ⟨_, _, e, hden, (hb 0).2.2, fun c => ⟨fun h => ?_, fun h => ?_⟩⟩
    · have := (hb c).1 h
      unfold F64.toRat at this
      rw [div_le_iff₀ hdq] at this
      exact_mod_cast this
    · have := (hb c).2.1 h
      unfold F64.toRat at this
      rw [le_div_iff₀ hdq] at this
      exact_mod_cast this

/-- The percentage of a finite score `0 ≤ a/b ≤ c/e`: a finite number between `0`
and `100`, and `100` when the score equals a positive total. -/
theorem percentageOf_bounds (a : Int) (b : Nat) (c : Int) (e : Nat) (hb : 0 < b) (he : 0 < e)
    (ha : 0 ≤ a) (hle : a * e ≤ c * b) :
    ∃ n m, percentageOf (.fin a b) (.fin c e) = .fin n m ∧ 0 < m ∧ 0 ≤ n ∧ n ≤ 100 * (m : Int) ∧
      (a * e = c * b → 0 < c → n = 100 * (m : Int)) := by
  have hbz : (0 : Int) < b := by exact_mod_cast hb
  have hez : (0 : Int) < e := by exact_mod_cast he
  unfold percentageOf
  by_cases hc : 0 < c
  · have hlt : (Num.fin 0 1).lt (.fin c e) = true := by
      simp only [Num.lt, decide_eq_true_eq]
      simpa using hc
    rw [if_pos hlt]
    have hc0 : c ≠ 0 := ne_of_gt hc
    have hsign : c.sign = 1 := Int.sign_eq_one_of_pos hc
    have hna : ((c.natAbs : Nat) : Int) = c := Int.natAbs_of_nonneg (le_of_lt hc)
    have hcb : (0 : Int) < c * b := mul_pos hc hbz
    -- the quotient
    obtain ⟨a1, b1, h1, hb1, ha1, hq1⟩ := binary64_small (a * e) (b * c.natAbs)
      (Nat.mul_pos hb (Int.natAbs_pos.mpr hc0)) (mul_nonneg ha (le_of_lt hez))
      (by push_cast; rw [abs_of_pos hc]; nlinarith)
    have hq1' := hq1 1
    push_cast at hq1'
    rw [abs_of_pos hc] at hq1'
    have hle1 : a1 ≤ b1 := by
      have := hq1'.1 (by nlinarith)
      omega
    have hb1z : (0 : Int) < b1 := by exact_mod_cast hb1
    -- times 100
    obtain ⟨n, m, h2, hm, hn, hq2⟩ := binary64_small (a1 * 100) (b1 * 1)
      (by omega) (by omega) (by push_cast; omega)
    have hq2' := hq2 100
    push_cast at hq2'
    have hle2 : n ≤ 100 * (m : Int) := hq2'.1 (by omega)
    have hmz : (0 : Int) < m := by exact_mod_cast hm
    have hx : ((Num.fin a b).div (.fin c e)).mul (.fin 100 1) = .fin n m := by
      simp only [Num.div, if_neg hc0, hsign, mul_one, h1, Num.mul]
      rw [Nat.mul_one] at h2
      exact h2
    rw [hx]
    -- the numeral
    have hnotbig : ¬ 10 ^ 21 * m ≤ n.natAbs := by
      intro h
      have : ((10 ^ 21 * m : Nat) : Int) ≤ (n.natAbs : Int) := by exact_mod_cast h
      rw [Int.natAbs_of_nonneg hn] at this
      push_cast at this
      omega
    simp only [Num.toFixed1, if_neg hnotbig, Fixed1.toNumber]
    have hnear := abs_le.mp (toFixed1_spec ⟨n, m⟩ hm)
    simp only [tenthsToRat, F64.toRat] at hnear
    have hmq : (0 : ℚ) < m := by exact_mod_cast hm
    have hv0 : (0 : ℚ) ≤ (n : ℚ) / m := div_nonneg (by exact_mod_cast hn) (le_of_lt hmq)
    have hv1 : (n : ℚ) / m ≤ 100 := by
      rw [div_le_iff₀ hmq]
      exact_mod_cast hle2
    generalize toFixed1 ⟨n, m⟩ = k at hnear ⊢
    obtain ⟨l1, l2⟩ := hnear
    have up : ((k : Int) : ℚ) < ((1001 : Int) : ℚ) := by push_cast; linarith
    have lo : ((-1 : Int) : ℚ) < ((k : Int) : ℚ) := by push_cast; linarith
    have up' := Int.cast_lt.mp up
    have lo' := Int.cast_lt.mp lo
    obtain ⟨n3, m3, h3, hm3, hn3, hq3⟩ := binary64_small k 10 (by decide) (by omega)
      (by omega)
    have hq3' := hq3 100
    push_cast at hq3'
    refine ⟨n3, m3, h3, hm3, hn3, hq3'.1 (by omega), ?_⟩
    intro heq _
    have e1 : a1 = b1 := by
      have := hq1'.2 (by nlinarith)
      omega
    have e2 : n = 100 * (m : Int) := by
      have := hq2'.2 (by omega)
      omega
    have hv : (n : ℚ) / m = 100 := by
      rw [div_eq_iff (ne_of_gt hmq)]
      exact_mod_cast e2
    rw [hv] at l1 l2
    have lo2 : ((999 : Int) : ℚ) < ((k : Int) : ℚ) := by push_cast; linarith
    have := Int.cast_lt.mp lo2
    have := hq3'.2 (by omega)
    have := hq3'.1 (by omega)
    omega
  · have hlt : (Num.fin 0 1).lt (.fin c e) = false := by
      simp only [Num.lt, decide_eq_false_iff_not]
      simpa using hc
    rw [hlt]
    exact ⟨0, 1, rfl, by decide, le_refl _, by norm_num, fun _ h => absurd h hc⟩

theorem Num.ofNumeral_good (x : Numeral) (h : 0 ≤ x.mant) : (Num.ofNumeral x).Good := by
  unfold Num.ofNumeral
  exact binary64_good _ _ (by positivity) (Nat.pos_pow_of_pos _ (by decide))

/-- While the marks are not negative, the running score stays between `0` and the
running total. -/
theorem foldl_add_order : ∀ (l : List (Val × Question)) (s t : Num),
    (∀ p ∈ l, 0 ≤ p.2.marks.mant) → s.Good → t.Good → s.le t = true →
    ((((l.filter (fun p => decide (p.1 = p.2.correctAnswer))).map (fun p => p.2)).foldl
        (fun acc q => acc.add (Num.ofNumeral q.marks)) s).Good ∧
      ((l.map (fun p => p.2)).foldl (fun acc q => acc.add (Num.ofNumeral q.marks)) t).Good ∧
      (((l.filter (fun p => decide (p.1 = p.2.correctAnswer))).map (fun p => p.2)).foldl
        (fun acc q => acc.add (Num.ofNumeral q.marks)) s).le
        ((l.map (fun p => p.2)).foldl (fun acc q => acc.add (Num.ofNumeral q.marks)) t) =
          true) := by
  intro l
  induction l with
  | nil => intro s t _ hs ht hst; exact ⟨hs, ht, hst⟩
  | cons p l ih =>
    intro s t hm hs ht hst
    have hp := Num.ofNumeral_good p.2.marks (hm p (List.mem_cons_self _ _))
    have hl : ∀ q ∈ l, 0 ≤ q.2.marks.mant := fun q hq => hm q (List.mem_cons_of_mem _ hq)
    by_cases hc : p.1 = p.2.correctAnswer
    · simp only [List.filter_cons, hc, decide_True, if_true, List.map_cons, List.foldl_cons]
      exact ih _ _ hl (Num.add_good _ _ hs hp) (Num.add_good _ _ ht hp)
        (Num.add_le_add _ _ _ hs ht hp hst)
    · simp only [List.filter_cons, hc, decide_False, List.map_cons, List.foldl_cons]
      exact ih _ _ hl hs (Num.add_good _ _ ht hp) (Num.le_add _ _ _ hs ht hp hst)

theorem Num.zero_le_of_good (x : Num) (h : x.Good) : (Num.fin 0 1).le x = true := by
  rcases h with rfl | ⟨n, d, rfl, hd, hn, -⟩
  · rfl
  · simp only [Num.le, decide_eq_true_eq]
    have : (0 : Int) ≤ n * 1 := by omega
    simpa using hn

theorem percentageOf_posInf (a : Int) (b : Nat) :
    percentageOf (.fin a b) .posInf = .fin 0 1 := rfl

/-- C20 (amended): when the questions of the referenced exam all have non-negative
marks, the Result `addSubmission` returns satisfies `0 ≤ score ≤ totalMarks`, a sum
beyond the binary64 range being `Infinity`; and when the score is finite,
`0 ≤ percentage ≤ 100`, with the percentage exactly `100` whenever
`score = totalMarks > 0`. -/
theorem C20_result_bounds (st : Store) (d : AppData) (sub : Submission) (now : String)
    (hd : st.appData = .stored d)
    (hmarks : ∀ E, d.exams.find? (fun exam => decide (exam.id = sub.examId)) = some E →
      ∀ q ∈ E.questions.getD [], 0 ≤ q.marks.mant) :
    ∃ r st1, addSubmission st sub now = .ok (r, st1) ∧
      (Num.fin 0 1).le r.score = true ∧ r.score.le r.totalMarks = true ∧
      (∀ s t : ℚ, r.score.toRat? = some s → r.totalMarks.toRat? = some t → 0 ≤ s ∧ s ≤ t) ∧
      (∀ s : ℚ, r.score.toRat? = some s →
        ∃ p : ℚ, r.percentage.toRat? = some p ∧ 0 ≤ p ∧ p ≤ 100 ∧
          (r.score.eq r.totalMarks = true → (Num.fin 0 1).lt r.totalMarks = true → p = 100)) := by
  obtain ⟨r, hr, -, -, -, -, hg, hp, -⟩ := addSubmission_ok st d sub now hd
  have hinv : r.score.Good ∧ r.totalMarks.Good ∧ r.score.le r.totalMarks = true := by
    have key : (r.score, r.totalMarks).1.Good ∧ (r.score, r.totalMarks).2.Good ∧
        (r.score, r.totalMarks).1.le (r.score, r.totalMarks).2 = true := by
      rw [hg]
      split
      next E hE =>
        split
        next qs hq =>
          rw [gradeLoop_eq]
          apply foldl_add_order _ _ _ _ Num.good_zero Num.good_zero rfl
          intro p hp1
          have := hmarks E hE p.2 (by
            rw [hq]
            exact (List.of_mem_zip hp1).2)
          exact this
        next => exact ⟨Num.good_zero, Num.good_zero, rfl⟩
      next => exact ⟨Num.good_zero, Num.good_zero, rfl⟩
    exact key
  obtain ⟨gs, gt, hst⟩ := hinv
  refine ⟨r, _, hr, Num.zero_le_of_good _ gs, hst, ?_, ?_⟩
  · intro s t hs ht
    rcases gs with h | ⟨a, b, hS, hb, ha, -⟩
    · rw [h] at hs; cases hs
    rcases gt with h | ⟨c, e, hT, he, hc, -⟩
    · rw [h] at ht; cases ht
    rw [hS] at hs
    rw [hT] at ht
    simp only [Num.toRat?, Option.some.injEq] at hs ht
    rw [hS, hT, Num.le_fin_iff _ _ _ _ hb he] at hst
    have hbq : (0 : ℚ) < b := by exact_mod_cast hb
    rw [← hs, ← ht]
    exact ⟨div_nonneg (by exact_mod_cast ha) (le_of_lt hbq), hst⟩
  · intro s hs
    rcases gs with h | ⟨a, b, hS, hb, ha, -⟩
    · rw [h] at hs; cases hs
    rcases gt with hT | ⟨c, e, hT, he, hc, -⟩
    · refine ⟨0, ?_, le_refl _, by norm_num, ?_⟩
      · rw [hp, hS, hT, percentageOf_posInf]
        simp [Num.toRat?]
      · intro h
        rw [hS, hT] at h
        simp [Num.eq] at h
    · rw [hS, hT] at hst
      simp only [Num.le, decide_eq_true_eq] at hst
      obtain ⟨n, m, hx, hm, hn, hle, h100⟩ := percentageOf_bounds a b c e hb he ha hst
      have hmq : (0 : ℚ) < m := by exact_mod_cast hm
      refine ⟨(n : ℚ) / m, ?_, div_nonneg (by exact_mod_cast hn) (le_of_lt hmq), ?_, ?_⟩
      · rw [hp, hS, hT, hx]
        rfl
      · rw [div_le_iff₀ hmq]
        exact_mod_cast hle
      · intro heq hlt
        rw [hS, hT] at heq
        rw [hT] at hlt
        simp only [Num.eq, decide_eq_true_eq] at heq
        simp only [Num.lt, decide_eq_true_eq] at hlt
        have hc0 : 0 < c := by simpa using hlt
        rw [div_eq_iff (ne_of_gt hmq)]
        exact_mod_cast h100 heq hc0

set_option maxRecDepth 100000 in
set_option exponentiation.threshold 400 in
/-- C20, as stated, fails: the marks `[1e308, 1e308]` are non-negative, and with
both answers correct `score` and `totalMarks` are both `Infinity`, so
`score = totalMarks > 0`, yet the percentage is `NaN`, which is neither `100` nor
between `0` and `100`. -/
theorem C20_counterexample :
    (∀ q ∈ hugeExam.questions.getD [], 0 ≤ q.marks.mant) ∧
    ∃ r st1, addSubmission (storeOf hugeExam) (sampleSubmission ["A", "B"]) "t1" =
        .ok (r, st1) ∧
      r.score = .posInf ∧ r.totalMarks = .posInf ∧
      r.score.eq r.totalMarks = true ∧ (Num.fin 0 1).lt r.totalMarks = true ∧
      r.percentage = .nan ∧ (Num.fin 0 1).le r.percentage = false ∧
      r.percentage.le (.fin 100 1) = false := by
  refine ⟨by decide, _, _, rfl, ?_⟩
  decide!

/-- Witness of C20 on the grading example. -/
theorem C20_witness :
    (sampleStore.appData = .stored { defaultData with exams := [sampleExam] } ∧
      ∀ E, ({ defaultData with exams := [sampleExam] } : AppData).exams.find?
          (fun exam => decide (exam.id = (sampleSubmission ["A", "B"]).examId)) = some E →
        ∀ q ∈ E.questions.getD [], 0 ≤ q.marks.mant) ∧
    ∃ r st1, addSubmission sampleStore (sampleSubmission ["A", "B"]) "t1" = .ok (r, st1) ∧
      (Num.fin 0 1).le r.score = true ∧ r.score.le r.totalMarks = true ∧
      (∀ s t : ℚ, r.score.toRat? = some s → r.totalMarks.toRat? = some t → 0 ≤ s ∧ s ≤ t) ∧
      (∀ s : ℚ, r.score.toRat? = some s →
        ∃ p : ℚ, r.percentage.toRat? = some p ∧ 0 ≤ p ∧ p ≤ 100 ∧
          (r.score.eq r.totalMarks = true → (Num.fin 0 1).lt r.totalMarks = true → p = 100)) :=
  have hm : ∀ E, ({ defaultData with exams := [sampleExam] } : AppData).exams.find?
      (fun exam => decide (exam.id = (sampleSubmission ["A", "B"]).examId)) = some E →
      ∀ q ∈ E.questions.getD [], 0 ≤ q.marks.mant := by
    intro E hE
    have : E = sampleExam := by
      have h1 : ({ defaultData with exams := [sampleExam] } : AppData).exams.find?
          (fun exam => decide (exam.id = (sampleSubmission ["A", "B"]).examId)) =
          some sampleExam := by decide
      rw [h1] at hE
      exact (Option.some.inj hE).symm
    subst this
    decide
  ⟨⟨rfl, hm⟩, C20_result_bounds sampleStore _ (sampleSubmission ["A", "B"]) "t1" rfl hm⟩

/-! ## The store -/

theorem getData_appData_of_stored {st : Store} {d : AppData} (hd : st.appData = .stored d) :
    getData_appData st = some d := by
  simp [getData_appData, hd]

theorem stored_of_getData_appData {st : Store} {d : AppData}
    (hg : getData_appData st = some d) : st.appData = .stored d := by
  unfold getData_appData at hg
  split at hg
  · rename_i d1 h; rw [h]; exact congrArg Entry.stored (Option.some.inj hg)
  · cases hg

/-- A write of the document is stored, or refused and leaves the store as it was. -/
theorem setData_appData_cases (st : Store) (d : AppData) :
    (st.fits (.stored d) st.currentUser = true ∧
      setData_appData st d = (true, { st with appData := .stored d })) ∨
    (st.fits (.stored d) st.currentUser = false ∧ setData_appData st d = (false, st)) := by
  unfold setData_appData
  cases st.fits (.stored d) st.currentUser <;> simp

/-- A write of the session user is stored, or refused and leaves the store as it
was. -/
theorem setData_currentUser_cases (st : Store) (u : Option User) :
    (st.fits st.appData (.stored u) = true ∧
      setData_currentUser st u = (true, { st with currentUser := .stored u })) ∨
    (st.fits st.appData (.stored u) = false ∧ setData_currentUser st u = (false, st)) := by
  unfold setData_currentUser
  cases st.fits st.appData (.stored u) <;> simp

theorem setData_appData_fits (st : Store) (d : AppData) :
    (setData_appData st d).2.fits = st.fits := by
  rcases setData_appData_cases st d with ⟨-, h⟩ | ⟨-, h⟩ <;> rw [h]

theorem setData_currentUser_fits (st : Store) (u : Option User) :
    (setData_currentUser st u).2.fits = st.fits := by
  rcases setData_currentUser_cases st u with ⟨-, h⟩ | ⟨-, h⟩ <;> rw [h]

theorem setData_currentUser_appData (st : Store) (u : Option User) :
    (setData_currentUser st u).2.appData = st.appData := by
  rcases setData_currentUser_cases st u with ⟨-, h⟩ | ⟨-, h⟩ <;> rw [h]

theorem setData_appData_currentUser (st : Store) (d : AppData) :
    (setData_appData st d).2.currentUser = st.currentUser := by
  rcases setData_appData_cases st d with ⟨-, h⟩ | ⟨-, h⟩ <;> rw [h]

theorem setData_appData_of_acceptsAll (st : Store) (d : AppData) (h : AcceptsAll st) :
    setData_appData st d = (true, { st with appData := .stored d }) := by
  unfold setData_appData
  rw [h, if_pos rfl]

theorem setData_currentUser_of_acceptsAll (st : Store) (u : Option User) (h : AcceptsAll st) :
    setData_currentUser st u = (true, { st with currentUser := .stored u }) := by
  unfold setData_currentUser
  rw [h, if_pos rfl]

/-! ## Objects -/

theorem foldl_get_acc (k : String) :
    ∀ (l : List (String × Val)) (acc : Option Val),
      l.foldl (fun acc e => if e.1 = k then some e.2 else acc) acc =
        if l.any (fun e => e.1 == k) then
          l.foldl (fun acc e => if e.1 = k then some e.2 else acc) none
        else acc := by
  intro l
  induction l with
  | nil => intro acc; simp
  | cons e l ih =>
    intro acc
    simp only [List.foldl_cons, List.any_cons]
    rw [ih (if e.1 = k then some e.2 else acc), ih (if e.1 = k then some e.2 else none)]
    by_cases h1 : l.any (fun e => e.1 == k) = true
    · simp [h1]
    · by_cases h2 : e.1 = k <;> simp [h1, h2]

theorem Obj.get_eq_none_of_not_has (o : Obj) (k : String) (h : o.has k = false) :
    o.get k = none := by
  unfold Obj.get
  unfold Obj.has at h
  rw [foldl_get_acc, h]
  simp

theorem Obj.get_set (o : Obj) (k : String) (v : Val) (k1 : String) :
    (o.set k v).get k1 = if k1 = k then some v else o.get k1 := by
  unfold Obj.set
  by_cases hh : o.has k = true
  · rw [if_pos hh]
    unfold Obj.get
    simp only
    by_cases hk : k1 = k
    · subst hk
      rw [if_pos rfl, foldl_get_acc]
      have hany : (o.fields.map (fun e => if e.1 = k1 then (k1, v) else e)).any
          (fun e => e.1 == k1) = true := by
        unfold Obj.has at hh
        rw [List.any_eq_true] at hh ⊢
        obtain ⟨e, he, hek⟩ := hh
        refine ⟨(k1, v), ?_, by simp⟩
        rw [List.mem_map]
        exact ⟨e, he, by simp at hek; simp [hek]⟩
      rw [if_pos hany]
      have : ∀ (l : List (String × Val)) (acc : Option Val),
          (l.map (fun e => if e.1 = k1 then (k1, v) else e)).foldl
            (fun acc e => if e.1 = k1 then some e.2 else acc) acc =
          if l.any (fun e => e.1 == k1) then some v else acc := by
        intro l
        induction l with
        | nil => intro acc; simp
        | cons e l ih =>
          intro acc
          simp only [List.map_cons, List.foldl_cons, List.any_cons]
          rw [ih]
          by_cases h1 : l.any (fun e => e.1 == k1) = true
          · simp [h1]
          · by_cases h2 : e.1 = k1 <;> simp [h1, h2]
      rw [this]
      unfold Obj.has at hh
      rw [if_pos hh]
    · rw [if_neg hk]
      have : ∀ (l : List (String × Val)) (acc : Option Val),
          (l.map (fun e => if e.1 = k then (k, v) else e)).foldl
            (fun acc e => if e.1 = k1 then some e.2 else acc) acc =
          l.foldl (fun acc e => if e.1 = k1 then some e.2 else acc) acc := by
        intro l
        induction l with
        | nil => intro acc; rfl
        | cons e l ih =>
          intro acc
          simp only [List.map_cons, List.foldl_cons]
          rw [ih]
          by_cases h2 : e.1 = k
          · have h3 : ¬ e.1 = k1 := fun h => hk (h.symm.trans h2)
            have h4 : ¬ k = k1 := fun h => hk h.symm
            simp [h2, h3, h4]
          · simp [h2]
      exact this _ _
  · rw [if_neg hh]
    unfold Obj.get
    simp only [List.foldl_append, List.foldl_cons, List.foldl_nil]
    by_cases hk : k1 = k
    · subst hk; simp
    · have : ¬ k = k1 := fun h => hk h.symm
      simp [hk, this]

theorem Obj.has_set (o : Obj) (k : String) (v : Val) (k1 : String) :
    (o.set k v).has k1 = (decide (k1 = k) || o.has k1) := by
  unfold Obj.set
  by_cases hh : o.has k = true
  · rw [if_pos hh]
    unfold Obj.has at hh ⊢
    simp only [List.any_map]
    by_cases hk : k1 = k
    · subst hk
      simp only [decide_True, Bool.true_or]
      rw [List.any_eq_true] at hh ⊢
      obtain ⟨e, he, hek⟩ := hh
      exact ⟨e, he, by simp at hek; simp [hek]⟩
    · simp only [hk, decide_False, Bool.false_or]
      congr 1
      funext e
      by_cases h2 : e.1 = k
      · have : ¬ k = k1 := fun h => hk h.symm
        have h3 : ¬ e.1 = k1 := fun h => hk (h.symm.trans h2)
        simp [h2, this, h3]
      · simp [h2]
  · rw [if_neg hh]
    unfold Obj.has
    simp only [List.any_append, List.any_cons, List.any_nil, Bool.or_false]
    rw [Bool.or_comm]
    congr 1
    by_cases hk : k1 = k
    · subst hk; simp
    · have : ¬ k = k1 := fun h => hk h.symm
      simp [hk, this]

/-- Object spread, field by field: the merged record has the patch's value for every
field the patch provides and the old value for every other field. -/
theorem Obj.get_merge (a b : Obj) (k : String) :
    (a.merge b).get k = if b.has k then b.get k else a.get k := by
  obtain ⟨bf⟩ := b
  unfold Obj.merge
  simp only
  induction bf generalizing a with
  | nil => simp [Obj.has]
  | cons e rest ih =>
    simp only [List.foldl_cons]
    rw [ih (a.set e.1 e.2), Obj.get_set]
    have e1 : (Obj.mk (e :: rest)).get k =
        if (Obj.mk rest).has k then (Obj.mk rest).get k
        else (if e.1 = k then some e.2 else none) := by
      simp only [Obj.get, Obj.has, List.foldl_cons]
      rw [foldl_get_acc]
    have e2 : (Obj.mk (e :: rest)).has k = (decide (e.1 = k) || (Obj.mk rest).has k) := by
      simp only [Obj.has, List.any_cons]
      congr 1
    rw [e1, e2]
    by_cases h1 : (Obj.mk rest).has k = true
    · simp [h1]
    · by_cases h2 : e.1 = k
      · simp [h1, h2]
      · have : ¬ k = e.1 := fun h => h2 h.symm
        simp [h1, h2, this]

/-! ## Role collections -/

theorem Users.prop_coll {users : Users} {type : String} {us : List User}
    (h : users.prop type = .coll us) :
    (type = "students" ∧ us = users.students) ∨
    (type = "examiners" ∧ us = users.examiners) ∨
    (type = "admins" ∧ us = users.admins) := by
  unfold Users.prop at h
  split at h
  · left; exact ⟨‹_›, by cases h; rfl⟩
  · split at h
    · right; left; exact ⟨‹_›, by cases h; rfl⟩
    · split at h
      · right; right; exact ⟨‹_›, by cases h; rfl⟩
      · split at h <;> cases h

theorem find?_id_eq_none {us : List User} {id : Option Val}
    (h : ∀ u ∈ us, u.get "id" ≠ id) :
    us.find? (fun u => decide (u.get "id" = id)) = none := by
  rw [List.find?_eq_none]
  intro u hu
  simpa using h u hu

theorem withRegistrationDate_get (user : User) (now : String) (k : String)
    (hk : k ≠ "registrationDate") : (withRegistrationDate user now).get k = user.get k := by
  unfold withRegistrationDate
  split
  · rfl
  · rw [Obj.get_set, if_neg hk]

theorem withRegistrationDate_truthy (user : User) (now : String) (hnow : now ≠ "") :
    truthy ((withRegistrationDate user now).get "registrationDate") = true := by
  unfold withRegistrationDate
  split
  · assumption
  · rw [Obj.get_set, if_pos rfl]
    simpa [truthy] using hnow

theorem findIndex_some {α : Type} (p : α → Bool) :
    ∀ (l : List α) (i : Nat), findIndex p l = some i →
      ∃ pre x post, l = pre ++ x :: post ∧ pre.length = i ∧ p x = true ∧
        ∀ y ∈ pre, p y = false := by
  intro l
  induction l with
  | nil => intro i h; cases h
  | cons a l ih =>
    intro i h
    unfold findIndex at h
    by_cases hp : p a = true
    · rw [if_pos hp] at h
      cases h
      exact ⟨[], a, l, rfl, rfl, hp, by simp⟩
    · rw [if_neg hp] at h
      rcases hf : findIndex p l with _ | j
      · rw [hf] at h; cases h
      · rw [hf] at h
        cases h
        obtain ⟨pre, x, post, h1, h2, h3, h4⟩ := ih j hf
        refine ⟨a :: pre, x, post, by rw [h1]; rfl, by simp [h2], h3, ?_⟩
        intro y hy
        rcases List.mem_cons.mp hy with rfl | hy
        · simpa using hp
        · exact h4 y hy

theorem findIndex_ne_none {α : Type} (p : α → Bool) (l : List α)
    (h : (l.find? p).isSome = true) : findIndex p l ≠ none := by
  induction l with
  | nil => simp at h
  | cons a l ih =>
    unfold findIndex
    by_cases hp : p a = true
    · simp [hp]
    · rw [if_neg hp]
      have : (l.find? p).isSome = true := by
        simpa [List.find?_cons, hp] using h
      have := ih this
      rcases hf : findIndex p l with _ | j
      · exact absurd hf this
      · simp

theorem getUserType_some {st : Store} {d : AppData} {id : Option Val} {role : String}
    (hd : st.appData = .stored d) (h : getUserType st id = some role) :
    ∃ us, d.users.prop (role ++ "s") = .coll us ∧
      (us.find? (fun u => decide (u.get "id" = id))).isSome = true ∧
      (role = "student" ∨ role = "examiner" ∨ role = "admin") := by
  have hg := getData_appData_of_stored hd
  simp only [getUserType, hg] at h
  split at h
  · cases h; exact ⟨d.users.students, rfl, ‹_›, Or.inl rfl⟩
  · split at h
    · cases h; exact ⟨d.users.examiners, rfl, ‹_›, Or.inr (Or.inl rfl)⟩
    · split at h
      · cases h; exact ⟨d.users.admins, rfl, ‹_›, Or.inr (Or.inr rfl)⟩
      · cases h

theorem Users.prop_setColl_ne (users : Users) (type t : String) (us : List User)
    (h : t ≠ type) : (users.setColl type us).prop t = users.prop t := by
  unfold Users.setColl
  split
  · subst ‹type = "students"›; simp [Users.prop, h]
  · split
    · subst ‹type = "examiners"›; simp [Users.prop, h]
    · split
      · subst ‹type = "admins"›; simp [Users.prop, h]
      · rfl

theorem merge_get_id (old patch : User) (h : old.get "id" = patch.get "id") :
    (old.merge patch).get "id" = old.get "id" := by
  rw [Obj.get_merge]
  split
  · exact h.symm
  · rfl

theorem length_filter_ne_lt_iff (l : List User) (id : Option Val) :
    (l.filter (fun u => decide (u.get "id" ≠ id))).length < l.length ↔
      ∃ u ∈ l, u.get "id" = id := by
  rw [List.length_filter_lt_length_iff_exists]
  simp

theorem filter_ne_eq_self (l : List User) (id : Option Val)
    (h : ¬ ∃ u ∈ l, u.get "id" = id) :
    l.filter (fun u => decide (u.get "id" ≠ id)) = l := by
  rw [List.filter_eq_self]
  intro u hu
  simp only [ne_eq, decide_not, Bool.not_eq_true', decide_eq_false_iff_not]
  exact fun e => h ⟨u, hu, e⟩

theorem find?_id_none_of_filter (l : List User) (id : Option Val) :
    (l.filter (fun u => decide (u.get "id" ≠ id))).find?
      (fun u => decide (u.get "id" = id)) = none := by
  rw [List.find?_eq_none]
  intro u hu
  have := (List.mem_filter.mp hu).2
  simpa using this

theorem find?_append_isSome {α : Type} (p : α → Bool) (l1 l2 : List α)
    (h : (l1.find? p).isSome = true) : (l1 ++ l2).find? p = l1.find? p := by
  rw [List.find?_append]
  rcases hf : l1.find? p with _ | a
  · rw [hf] at h; cases h
  · rfl

theorem find?_append_isNone {α : Type} (p : α → Bool) (l1 l2 : List α)
    (h : (l1.find? p).isSome = false) : (l1 ++ l2).find? p = l2.find? p := by
  rw [List.find?_append]
  rcases hf : l1.find? p with _ | a
  · rfl
  · rw [hf] at h; cases h

/-- The roles `getUserType` can return. -/
theorem getUserType_roles (st : Store) (id : Option Val) (role : String)
    (h : getUserType st id = some role) :
    role = "student" ∨ role = "examiner" ∨ role = "admin" := by
  unfold getUserType at h
  split at h
  · cases h
  · split at h
    · cases h; exact Or.inl rfl
    · split at h
      · cases h; exact Or.inr (Or.inl rfl)
      · split at h
        · cases h; exact Or.inr (Or.inr rfl)
        · cases h

theorem idsOf_append_nodup (us : List User) (user : User) (h : (idsOf us).Nodup)
    (hfresh : ∀ u ∈ us, u.get "id" ≠ user.get "id") : (idsOf (us ++ [user])).Nodup := by
  unfold idsOf at *
  rw [List.map_append, List.nodup_append]
  refine ⟨h, by simp, ?_⟩
  intro x hx hy
  simp only [List.map_cons, List.map_nil, List.mem_singleton] at hy
  obtain ⟨u, hu, rfl⟩ := List.mem_map.mp hx
  exact hfresh u hu hy

theorem idsOf_replace (pre post : List User) (old new : User)
    (h : new.get "id" = old.get "id") :
    idsOf (pre ++ new :: post) = idsOf (pre ++ old :: post) := by
  simp [idsOf, h]

theorem idsOf_filter_nodup (us : List User) (p : User → Bool) (h : (idsOf us).Nodup) :
    (idsOf (us.filter p)).Nodup :=
  List.Nodup.sublist (List.Sublist.map _ (List.filter_sublist us)) h

theorem UsersStep.uniqueIds {users users1 : Users} (hstep : UsersStep users users1)
    (h : UniqueIds users) : UniqueIds users1 := by
  obtain ⟨hs, he, ha⟩ := h
  rcases hstep with rfl | ⟨type, us, user, hp, hfresh, rfl⟩ |
    ⟨type, pre, old, new, post, hp, hid, rfl⟩ | ⟨id, rfl⟩
  · exact ⟨hs, he, ha⟩
  · rcases Users.prop_coll hp with ⟨rfl, rfl⟩ | ⟨rfl, rfl⟩ | ⟨rfl, rfl⟩
    · exact ⟨idsOf_append_nodup _ _ hs hfresh, he, ha⟩
    · exact ⟨hs, idsOf_append_nodup _ _ he hfresh, ha⟩
    · exact ⟨hs, he, idsOf_append_nodup _ _ ha hfresh⟩
  · rcases Users.prop_coll hp with ⟨rfl, hus⟩ | ⟨rfl, hus⟩ | ⟨rfl, hus⟩
    · refine ⟨?_, he, ha⟩
      show (idsOf (pre ++ new :: post)).Nodup
      rw [idsOf_replace _ _ _ _ hid, hus]; exact hs
    · refine ⟨hs, ?_, ha⟩
      show (idsOf (pre ++ new :: post)).Nodup
      rw [idsOf_replace _ _ _ _ hid, hus]; exact he
    · refine ⟨hs, he, ?_⟩
      show (idsOf (pre ++ new :: post)).Nodup
      rw [idsOf_replace _ _ _ _ hid, hus]; exact ha
  · exact ⟨idsOf_filter_nodup _ _ hs, idsOf_filter_nodup _ _ he, idsOf_filter_nodup _ _ ha⟩

/-! ## Sequential ids -/

/-- The id suffix on sample numbers: padded to three digits, longer numbers kept. -/
theorem pad3_examples :
    pad3 1 = "001" ∧ pad3 12 = "012" ∧ pad3 123 = "123" ∧ pad3 1000 = "1000" := by
  decide

/-- The character of a decimal digit has that digit as its value. -/
theorem digitChar_value (m : Nat) (h : m < 10) : (Nat.digitChar m).toNat - 48 = m := by
  interval_cases m <;> rfl

theorem toDigitsCore_foldl :
    ∀ (fuel n : Nat) (ds : List Char), n < fuel →
      (Nat.toDigitsCore 10 fuel n ds).foldl (fun acc c => 10 * acc + (c.toNat - 48)) 0 =
        ds.foldl (fun acc c => 10 * acc + (c.toNat - 48)) n := by
  intro fuel
  induction fuel with
  | zero => intro n ds h; omega
  | succ fuel ih =>
    intro n ds h
    unfold Nat.toDigitsCore
    simp only
    have hd := digitChar_value (n % 10) (Nat.mod_lt _ (by decide))
    by_cases h0 : n / 10 = 0
    · rw [if_pos h0]
      simp only [List.foldl_cons, Nat.mul_zero, Nat.zero_add, hd]
      congr 1
      omega
    · rw [if_neg h0, ih (n / 10) _ (by omega)]
      simp only [List.foldl_cons, hd]
      congr 1
      omega

theorem pad3_decode (n : Nat) :
    (pad3 n).data.foldl (fun acc c => 10 * acc + (c.toNat - 48)) 0 = n := by
  have hrepr : (toString n).data = Nat.toDigits 10 n := rfl
  unfold pad3
  simp only [String.data_append, List.foldl_append, hrepr]
  have hz : ∀ k : Nat, (List.replicate k '0').foldl
      (fun acc c => 10 * acc + (c.toNat - 48)) 0 = 0 := by
    intro k
    induction k with
    | zero => rfl
    | succ k ih => simp only [List.replicate_succ, List.foldl_cons]; exact ih
  rw [hz]
  unfold Nat.toDigits
  rw [toDigitsCore_foldl _ _ _ (Nat.lt_succ_self n)]
  rfl

theorem pad3_injective : Function.Injective pad3 := by
  intro a b h
  have := congrArg (fun s => s.data.foldl (fun acc c => 10 * acc + (c.toNat - 48)) 0) h
  simpa only [pad3_decode] using this

theorem prefix_pad3_injective (pfx : String) :
    Function.Injective (fun n => pfx ++ pad3 n) := by
  intro a b h
  apply pad3_injective
  have h1 : (pfx ++ pad3 a).data = (pfx ++ pad3 b).data := congrArg String.data h
  simp only [String.data_append] at h1
  exact String.ext (List.append_cancel_left h1)

theorem seqIds_succ (pfx : String) (n : Nat) :
    seqIds pfx (n + 1) = seqIds pfx n ++ [pfx ++ pad3 (n + 1)] := by
  simp [seqIds, List.range_succ]

theorem seqIds_nodup (pfx : String) (n : Nat) : (seqIds pfx n).Nodup := by
  unfold seqIds
  refine List.Nodup.map ?_ (List.nodup_range n)
  intro a b h
  have := prefix_pad3_injective pfx h
  omega

theorem seqIds_length (pfx : String) (n : Nat) : (seqIds pfx n).length = n := by
  simp [seqIds]

theorem seqIds_step {α : Type} (f : α → String) (pfx : String) (l l1 : List α)
    (h : l.map f = seqIds pfx l.length)
    (hstep : l1 = l ∨ ∃ x : α, f x = pfx ++ pad3 (l.length + 1) ∧ l1 = l ++ [x]) :
    l1.map f = seqIds pfx l1.length ∧ l.map f <+: l1.map f := by
  rcases hstep with rfl | ⟨x, hx, rfl⟩
  · exact ⟨h, List.prefix_refl _⟩
  · constructor
    · rw [List.map_append, List.length_append, List.length_singleton, seqIds_succ, h]
      simp [hx]
    · rw [List.map_append]
      exact List.prefix_append _ _

theorem CollectionsStep.sequentialIds {d d1 : AppData} (hstep : CollectionsStep d d1)
    (h : SequentialIds d) :
    SequentialIds d1 ∧
      d.exams.map (fun e => e.id) <+: d1.exams.map (fun e => e.id) ∧
      d.questions.map (fun q => q.id) <+: d1.questions.map (fun q => q.id) ∧
      d.submissions.map (fun s => s.id) <+: d1.submissions.map (fun s => s.id) ∧
      d.results.map (fun r => r.id) <+: d1.results.map (fun r => r.id) := by
  obtain ⟨h1, h2, h3, h4⟩ := h
  obtain ⟨s1, s2, s3, s4⟩ := hstep
  have e1 := seqIds_step (fun e : Exam => e.id) "EXAM" _ _ h1 s1
  have e2 := seqIds_step (fun q : Question => q.id) "Q" _ _ h2 s2
  have e3 := seqIds_step (fun s : Submission => s.id) "SUB" _ _ h3 s3
  have e4 := seqIds_step (fun r : Result => r.id) "RES" _ _ h4 s4
  exact ⟨⟨e1.1, e2.1, e3.1, e4.1⟩, e1.2, e2.2, e3.2, e4.2⟩

theorem id_at_of_seqIds {α : Type} (f : α → String) (pfx : String) (l : List α)
    (h : l.map f = seqIds pfx l.length) (i : Nat) (hi : i < l.length) :
    f (l.get ⟨i, hi⟩) = pfx ++ pad3 (i + 1) := by
  have h1 : (l.map f)[i]? = (seqIds pfx l.length)[i]? := by rw [h]
  simp only [seqIds, List.getElem?_map, List.getElem?_eq_getElem hi,
    List.getElem?_range hi, Option.map_some', Option.some.injEq] at h1
  simpa using h1

/-! ## What the operations write -/

theorem addUser_effect (st : Store) (d : AppData) (user : User) (type now : String)
    (hd : st.appData = .stored d) :
    (d.users.prop type = .inherited ∧ addUser st user type now = .error .typeError) ∨
    ((d.users.prop type = .undefined ∨
        ∃ us, d.users.prop type = .coll us ∧ ∃ u ∈ us, u.get "id" = user.get "id") ∧
      addUser st user type now = .ok (false, st)) ∨
    (∃ us, d.users.prop type = .coll us ∧ (∀ u ∈ us, u.get "id" ≠ user.get "id") ∧
      addUser st user type now = .ok (setData_appData st
        { d with users := d.users.setColl type (us ++ [withRegistrationDate user now]) })) := by
  have hg := getData_appData_of_stored hd
  rcases hp : d.users.prop type with us | _ | _
  · by_cases hf : (us.find? (fun u => decide (u.get "id" = user.get "id"))).isSome = true
    · right; left
      refine ⟨Or.inr ⟨us, rfl, ?_⟩, ?_⟩
      · rw [List.find?_isSome] at hf
        obtain ⟨u, hu, h⟩ := hf
        exact ⟨u, hu, by simpa using h⟩
      · simp only [addUser, hg, hp, hf, if_true]
    · right; right
      have hnone : us.find? (fun u => decide (u.get "id" = user.get "id")) = none := by
        simpa using hf
      refine ⟨us, rfl, ?_, ?_⟩
      · intro u hu
        have := List.find?_eq_none.mp hnone u hu
        simpa using this
      · simp only [addUser, hg, hp, hnone, Option.isSome_none]
        rfl
  · left
    exact ⟨rfl, by simp only [addUser, hg, hp]⟩
  · right; left
    exact ⟨Or.inl rfl, by simp only [addUser, hg, hp]⟩

theorem addExam_ok (st : Store) (d : AppData) (exam : Exam) (now : String)
    (hd : st.appData = .stored d) :
    ∃ e : Exam, e.id = "EXAM" ++ pad3 (d.exams.length + 1) ∧
      addExam st exam now = .ok ("EXAM" ++ pad3 (d.exams.length + 1),
        (setData_appData st { d with exams := d.exams ++ [e] }).2) := by
  have hg := getData_appData_of_stored hd
  simp only [addExam, hg]
  exact ⟨_, rfl, rfl⟩

theorem addQuestion_ok (st : Store) (d : AppData) (question : Question) (now : String)
    (hd : st.appData = .stored d) :
    ∃ q : Question, q.id = "Q" ++ pad3 (d.questions.length + 1) ∧
      addQuestion st question now = .ok ("Q" ++ pad3 (d.questions.length + 1),
        (setData_appData st { d with questions := d.questions ++ [q] }).2) := by
  have hg := getData_appData_of_stored hd
  simp only [addQuestion, hg]
  exact ⟨_, rfl, rfl⟩

theorem addSubject_ok (st : Store) (d : AppData) (subject : Subject) (now : String)
    (hd : st.appData = .stored d) :
    addSubject st subject now = .ok (true,
      (setData_appData st
        { d with subjects := d.subjects ++ [subject.set "createdAt" (.str now)] }).2) := by
  have hg := getData_appData_of_stored hd
  simp only [addSubject, hg]

/-- `updateUser` on a stored document: `false` and no change when no role collection
holds the id; otherwise the first record with the id, in role order, is replaced by
the merged record in the document that is written, and the merged record is written
to the session when the session user has the id. -/
theorem updateUser_effect (st : Store) (d : AppData) (patch : User)
    (hd : st.appData = .stored d) :
    (getUserType st (patch.get "id") = none ∧ updateUser st patch = .ok (false, st)) ∨
    ∃ role type pre old post,
      getUserType st (patch.get "id") = some role ∧ type = role ++ "s" ∧
      d.users.prop type = .coll (pre ++ old :: post) ∧
      old.get "id" = patch.get "id" ∧ (∀ u ∈ pre, u.get "id" ≠ patch.get "id") ∧
      updateUser st patch = .ok (true,
        sessionWrite (setData_appData st
          { d with users := d.users.setColl type (pre ++ old.merge patch :: post) }).2
          (patch.get "id") (some (old.merge patch))) := by
  have hg := getData_appData_of_stored hd
  rcases hres : getUserType st (patch.get "id") with _ | role
  · left
    exact ⟨rfl, by simp only [updateUser, hres]⟩
  · right
    obtain ⟨us, hus, hfind, -⟩ := getUserType_some hd hres
    rcases hfi : findIndex (fun u => decide (u.get "id" = patch.get "id")) us with _ | i
    · exact absurd hfi (findIndex_ne_none _ _ hfind)
    · obtain ⟨pre, old, post, hl, hlen, hold, hpre⟩ := findIndex_some _ _ _ hfi
      have hget : us[i]? = some old := by
        rw [hl, ← hlen, List.getElem?_append_right (le_refl _)]; simp
      have hset : us.set i (old.merge patch) = pre ++ old.merge patch :: post := by
        rw [hl, ← hlen]; simp [List.set_append]
      refine ⟨role, role ++ "s", pre, old, post, rfl, rfl, hl ▸ hus, by simpa using hold, ?_, ?_⟩
      · intro u hu
        have := hpre u hu
        simpa using this
      · simp only [updateUser, hres, hg, hus, hfi, hget, hset]
        rfl

theorem mem_allUsers_iff (d : AppData) (id : Option Val) :
    (∃ u ∈ allUsers d, u.get "id" = id) ↔
      ((∃ u ∈ d.users.students, u.get "id" = id) ∨ (∃ u ∈ d.users.examiners, u.get "id" = id)) ∨
        (∃ u ∈ d.users.admins, u.get "id" = id) := by
  simp only [allUsers, List.mem_append]
  constructor
  · rintro ⟨u, (hu | hu) | hu, e⟩
    · exact Or.inl (Or.inl ⟨u, hu, e⟩)
    · exact Or.inl (Or.inr ⟨u, hu, e⟩)
    · exact Or.inr ⟨u, hu, e⟩
  · rintro ((⟨u, hu, e⟩ | ⟨u, hu, e⟩) | ⟨u, hu, e⟩)
    · exact ⟨u, Or.inl (Or.inl hu), e⟩
    · exact ⟨u, Or.inl (Or.inr hu), e⟩
    · exact ⟨u, Or.inr hu, e⟩

/-- `deleteUser` on a stored document: `false` and no change when no role collection
holds the id; otherwise `true`, after a write of `null` to the session when the
session user has the id and a write of the document without the users of that id. -/
theorem deleteUser_ok (st : Store) (d : AppData) (id : Option Val)
    (hd : st.appData = .stored d) :
    ((¬ ∃ u ∈ allUsers d, u.get "id" = id) ∧ deleteUser st id = .ok (false, st)) ∨
    ((∃ u ∈ allUsers d, u.get "id" = id) ∧
      deleteUser st id = .ok (true,
        (setData_appData (sessionWrite st id none)
          { d with users :=
            { students := d.users.students.filter (fun u => decide (u.get "id" ≠ id)),
              examiners := d.users.examiners.filter (fun u => decide (u.get "id" ≠ id)),
              admins := d.users.admins.filter (fun u => decide (u.get "id" ≠ id)) } }).2)) := by
  have hg := getData_appData_of_stored hd
  have hex := mem_allUsers_iff d id
  simp only [deleteUser, hg]
  split
  · rename_i hdel
    right
    refine ⟨?_, rfl⟩
    rw [hex]
    simpa only [Bool.or_eq_true, decide_eq_true_eq, length_filter_ne_lt_iff] using hdel
  · rename_i hdel
    left
    refine ⟨?_, rfl⟩
    rw [hex]
    simpa only [Bool.or_eq_true, decide_eq_true_eq, length_filter_ne_lt_iff] using hdel

theorem appData_after_write (st : Store) (d D : AppData) (hd : st.appData = .stored d) :
    ∃ d1, (setData_appData st D).2.appData = .stored d1 ∧ (d1 = d ∨ d1 = D) := by
  rcases setData_appData_cases st D with ⟨-, h⟩ | ⟨-, h⟩
  · exact ⟨D, by rw [h], Or.inr rfl⟩
  · exact ⟨d, by rw [h]; exact hd, Or.inl rfl⟩

theorem sessionWrite_appData (st : Store) (id : Option Val) (u : Option User) :
    (sessionWrite st id u).appData = st.appData := by
  unfold sessionWrite
  split
  · split
    · exact setData_currentUser_appData st u
    · rfl
  · rfl

theorem sessionWrite_fits (st : Store) (id : Option Val) (u : Option User) :
    (sessionWrite st id u).fits = st.fits := by
  unfold sessionWrite
  split
  · split
    · exact setData_currentUser_fits st u
    · rfl
  · rfl

/-- What a call makes of a stored document. -/
theorem run_docStep (op : Op) (st : Store) (d : AppData) (hd : st.appData = .stored d) :
    ∃ d1, (op.run st).appData = .stored d1 ∧ DocStep d d1 := by
  have hg := getData_appData_of_stored hd
  have same : ∀ st1 : Store, st1.appData = st.appData →
      ∃ d1, st1.appData = .stored d1 ∧ DocStep d d1 :=
    fun st1 h => ⟨d, h.trans hd, Or.inl rfl⟩
  have wrote : ∀ (st0 : Store) (D : AppData), st0.appData = .stored d → DocStep d D →
      ∃ d1, (setData_appData st0 D).2.appData = .stored d1 ∧ DocStep d d1 := by
    intro st0 D h0 hstep
    obtain ⟨d1, h1, h2 | h2⟩ := appData_after_write st0 d D h0
    · exact ⟨d1, h1, Or.inl h2⟩
    · exact ⟨d1, h1, h2 ▸ hstep⟩
  cases op with
  | initStorage =>
    apply same
    simp only [Op.run, initStorage, hg, Option.isNone_some, Bool.false_eq_true, if_false]
    split
    · exact setData_currentUser_appData st none
    · rfl
  | addUser user type now =>
    rcases addUser_effect st d user type now hd with ⟨-, h⟩ | ⟨-, h⟩ | ⟨us, hp, hfresh, h⟩
    · apply same
      simp only [Op.run, h, storeAfter]
    · apply same
      simp only [Op.run, h, storeAfter]
    · simp only [Op.run, h, storeAfter]
      apply wrote st _ hd
      refine Or.inr (Or.inl ⟨_, Or.inr (Or.inl ⟨type, us, withRegistrationDate user now, hp, ?_,
        rfl⟩), rfl⟩)
      intro u hu
      rw [withRegistrationDate_get user now "id" (by decide)]
      exact hfresh u hu
  | addExam exam now =>
    obtain ⟨e, he, h⟩ := addExam_ok st d exam now hd
    simp only [Op.run, h, storeAfter]
    exact wrote st _ hd (Or.inr (Or.inr (Or.inl ⟨e, he, rfl⟩)))
  | addQuestion q now =>
    obtain ⟨e, he, h⟩ := addQuestion_ok st d q now hd
    simp only [Op.run, h, storeAfter]
    exact wrote st _ hd (Or.inr (Or.inr (Or.inr (Or.inl ⟨e, he, rfl⟩))))
  | addSubmission sub now =>
    obtain ⟨r, h, -⟩ := addSubmission_ok st d sub now hd
    simp only [Op.run, h, storeAfter]
    exact wrote st _ hd
      (Or.inr (Or.inr (Or.inr (Or.inr (Or.inr ⟨st, sub, now, r, _, hd, h, rfl⟩)))))
  | addSubject s now =>
    have h := addSubject_ok st d s now hd
    simp only [Op.run, h, storeAfter]
    exact wrote st _ hd (Or.inr (Or.inr (Or.inr (Or.inr (Or.inl ⟨_, rfl⟩)))))
  | updateUser patch =>
    rcases updateUser_effect st d patch hd with ⟨-, h⟩ |
      ⟨role, type, pre, old, post, -, -, hp, hid, -, h⟩
    · apply same
      simp only [Op.run, h, storeAfter]
    · simp only [Op.run, h, storeAfter]
      rw [sessionWrite_appData]
      apply wrote st _ hd
      exact Or.inr (Or.inl ⟨_, Or.inr (Or.inr (Or.inl
        ⟨type, pre, old, old.merge patch, post, hp, merge_get_id old patch hid, rfl⟩)), rfl⟩)
  | deleteUser id =>
    rcases deleteUser_ok st d id hd with ⟨-, h⟩ | ⟨-, h⟩
    · apply same
      simp only [Op.run, h, storeAfter]
    · simp only [Op.run, h, storeAfter]
      apply wrote _ _ ((sessionWrite_appData st id none).trans hd)
      exact Or.inr (Or.inl ⟨_, Or.inr (Or.inr (Or.inr ⟨id, rfl⟩)), rfl⟩)
  | logout =>
    apply same
    simp only [Op.run, logout]
    exact setData_currentUser_appData st none

/-- No call changes the room `localStorage` has. -/
theorem run_fits (op : Op) (st : Store) : (op.run st).fits = st.fits := by
  cases op with
  | initStorage =>
    simp only [Op.run, initStorage]
    split <;> split <;>
      simp only [setData_currentUser_fits, setData_appData_fits]
  | addUser user type now =>
    simp only [Op.run, addUser]
    repeat' split
    all_goals simp only [storeAfter, setData_appData_fits]
  | addExam exam now =>
    simp only [Op.run, addExam]
    split <;> simp only [storeAfter, setData_appData_fits]
  | addQuestion q now =>
    simp only [Op.run, addQuestion]
    split <;> simp only [storeAfter, setData_appData_fits]
  | addSubmission sub now =>
    simp only [Op.run, addSubmission]
    split <;> simp only [storeAfter, setData_appData_fits]
  | addSubject s now =>
    simp only [Op.run, addSubject]
    split <;> simp only [storeAfter, setData_appData_fits]
  | updateUser patch =>
    rcases hd : st.appData with _ | _ | d
    · simp only [Op.run, updateUser, getUserType, getData_appData, hd, storeAfter]
    · simp only [Op.run, updateUser, getUserType, getData_appData, hd, storeAfter]
    · rcases updateUser_effect st d patch hd with ⟨-, h⟩ | ⟨_, _, _, _, _, -, -, -, -, -, h⟩
      · simp only [Op.run, h, storeAfter]
      · simp only [Op.run, h, storeAfter]
        rw [sessionWrite_fits, setData_appData_fits]
  | deleteUser id =>
    rcases hd : st.appData with _ | _ | d
    · simp only [Op.run, deleteUser, getData_appData, hd, storeAfter]
    · simp only [Op.run, deleteUser, getData_appData, hd, storeAfter]
    · rcases deleteUser_ok st d id hd with ⟨-, h⟩ | ⟨-, h⟩
      · simp only [Op.run, h, storeAfter]
      · simp only [Op.run, h, storeAfter]
        rw [setData_appData_fits, sessionWrite_fits]
  | logout =>
    simp only [Op.run, logout, setData_currentUser_fits]

/-! ## C4 -/

theorem DerivedFrom.mono {d d1 : AppData} {s : Submission} {r : Result}
    (h : DerivedFrom d s r) (hp : d.exams <+: d1.exams) : DerivedFrom d1 s r := by
  obtain ⟨st0, d0, sub, now, r0, st1, h1, h2, h3, h4, h5⟩ := h
  exact ⟨st0, d0, sub, now, r0, st1, h1, h2.trans hp, h3, h4, h5⟩

theorem DocStep.exams_prefix {d d1 : AppData} (h : DocStep d d1) : d.exams <+: d1.exams := by
  rcases h with rfl | ⟨_, -, rfl⟩ | ⟨e, -, rfl⟩ | ⟨_, -, rfl⟩ | ⟨_, rfl⟩ |
    ⟨_, _, _, _, _, -, -, rfl⟩
  all_goals first | exact List.prefix_refl _ | exact List.prefix_append _ _

/-- The result of a call carries the `studentId`, `examId` and `submittedAt` of the
submission the call stores. -/
theorem addSubmission_paired (st : Store) (d : AppData) (sub : Submission) (now : String)
    (r : Result) (st1 : Store) (hd : st.appData = .stored d)
    (h : addSubmission st sub now = .ok (r, st1)) :
    Paired (stampSubmission d sub now) r.toJSON ∧
      st1 = (setData_appData st
        { d with
          submissions := d.submissions ++ [stampSubmission d sub now],
          results := d.results ++ [r.toJSON] }).2 := by
  obtain ⟨r1, hr, -, h1, h2, h3, -⟩ := addSubmission_ok st d sub now hd
  rw [hr] at h
  have h' := Except.ok.inj h
  have hrr : r1 = r := congrArg Prod.fst h'
  have hss := congrArg Prod.snd h'
  subst hrr
  exact ⟨⟨h1, h2, h3⟩, hss.symm⟩

theorem DocStep.paired {d d1 : AppData} (h : DocStep d d1)
    (hp : List.Forall₂ (fun s r => Paired s r ∧ DerivedFrom d s r) d.submissions d.results) :
    List.Forall₂ (fun s r => Paired s r ∧ DerivedFrom d1 s r) d1.submissions d1.results := by
  have hpre := h.exams_prefix
  have hp1 : List.Forall₂ (fun s r => Paired s r ∧ DerivedFrom d1 s r) d.submissions
      d.results := hp.imp (fun s r hsr => ⟨hsr.1, hsr.2.mono hpre⟩)
  rcases h with rfl | ⟨_, -, rfl⟩ | ⟨e, -, rfl⟩ | ⟨_, -, rfl⟩ | ⟨_, rfl⟩ |
    ⟨st0, sub, now, r0, st1, h0, hadd, rfl⟩
  · exact hp1
  · exact hp1
  · exact hp1
  · exact hp1
  · exact hp1
  · refine List.rel_append hp1 (List.Forall₂.cons ⟨?_, ?_⟩ List.Forall₂.nil)
    · exact (addSubmission_paired st0 d sub now r0 st1 h0 hadd).1
    · exact ⟨st0, d, sub, now, r0, st1, h0, List.prefix_refl _, hadd, rfl, rfl⟩

/-- In a reachable store there is a document, and its results are paired, position
by position, with its submissions: each pair was produced by one `addSubmission`
call. -/
theorem reachable_paired {st : Store} (h : Reachable st) :
    ∃ d, st.appData = .stored d ∧
      List.Forall₂ (fun s r => Paired s r ∧ DerivedFrom d s r) d.submissions d.results := by
  induction h with
  | fresh fits => exact ⟨defaultData, rfl, List.Forall₂.nil⟩
  | @step op st _ ih =>
    obtain ⟨d, hd, hp⟩ := ih
    obtain ⟨d1, h1, hstep⟩ := run_docStep op st d hd
    exact ⟨d1, h1, hstep.paired hp⟩

set_option maxRecDepth 100000 in
set_option exponentiation.threshold 400 in
/-- C4, as stated, fails in two ways.  When `localStorage` refuses the write,
`addSubmission` returns a Result and appends nothing.  And with marks
`[1e308, 1e308]`, both answered correctly, the returned Result has the score
`Infinity` while the appended one, as `JSON.stringify` writes it, has the score
`null`. -/
theorem C4_counterexample :
    (∃ r, addSubmission (refusing sampleStore) (sampleSubmission ["A", "B"]) "t1" =
        .ok (r, refusing sampleStore) ∧
      getSubmissions (refusing sampleStore) = [] ∧ getAllResults (refusing sampleStore) = []) ∧
    (∃ r st1, addSubmission (storeOf hugeExam) (sampleSubmission ["A", "B"]) "t1" =
        .ok (r, st1) ∧
      r.score = .posInf ∧ (getAllResults st1).map (fun r1 => r1.score) = [.null]) := by
  refine ⟨⟨_, rfl, rfl, rfl⟩, ⟨_, _, rfl, ?_⟩⟩
  decide!

/-- C4 (amended): in every store reachable from the fresh empty document through
the operations there is a document; an `addSubmission` call whose write
`localStorage` accepts appends exactly one Submission and exactly one Result, and one
whose write is refused leaves the store as it was; the appended Result is the
returned one as `JSON.stringify` writes it (a number that is not finite becomes
`null`) and carries the submission's `studentId`, `examId` and `submittedAt`; results
and submissions have the same length and the `i`-th Result is the one derived from
the `i`-th Submission: it carries those fields, and the two were produced by one
`addSubmission` call. -/
theorem C4_one_result_per_submission (st : Store) (h : Reachable st) :
    ∃ d, st.appData = .stored d ∧
      (∀ sub now, ∃ r st1, addSubmission st sub now = .ok (r, st1) ∧
        Paired (stampSubmission d sub now) r.toJSON ∧
        (st.fits (.stored
            { d with submissions := d.submissions ++ [stampSubmission d sub now],
                     results := d.results ++ [r.toJSON] }) st.currentUser = true →
          st1.appData = Entry.stored
            ({ d with submissions := d.submissions ++ [stampSubmission d sub now],
                      results := d.results ++ [r.toJSON] })) ∧
        (st.fits (.stored
            { d with submissions := d.submissions ++ [stampSubmission d sub now],
                     results := d.results ++ [r.toJSON] }) st.currentUser = false →
          st1 = st)) ∧
      d.results.length = d.submissions.length ∧
      ∀ i (h1 : i < d.submissions.length) (h2 : i < d.results.length),
        Paired (d.submissions.get ⟨i, h1⟩) (d.results.get ⟨i, h2⟩) ∧
        DerivedFrom d (d.submissions.get ⟨i, h1⟩) (d.results.get ⟨i, h2⟩) := by
  obtain ⟨d, hd, hp⟩ := reachable_paired h
  refine ⟨d, hd, ?_, hp.length_eq.symm, fun i h1 h2 => hp.get h1 h2⟩
  intro sub now
  obtain ⟨r, hr, -⟩ := addSubmission_ok st d sub now hd
  obtain ⟨hpair, -⟩ := addSubmission_paired st d sub now r _ hd hr
  refine ⟨r, _, hr, hpair, ?_, ?_⟩
  · intro hf
    rcases setData_appData_cases st
      { d with submissions := d.submissions ++ [stampSubmission d sub now],
               results := d.results ++ [r.toJSON] } with ⟨-, h⟩ | ⟨hc, -⟩
    · rw [h]
    · rw [hf] at hc; cases hc
  · intro hf
    rcases setData_appData_cases st
      { d with submissions := d.submissions ++ [stampSubmission d sub now],
               results := d.results ++ [r.toJSON] } with ⟨hc, -⟩ | ⟨-, h⟩
    · rw [hf] at hc; cases hc
    · rw [h]

theorem reachable_busyStore : Reachable busyStore :=
  Reachable.step _ (Reachable.step _ (Reachable.step _ (Reachable.fresh _)))

set_option maxRecDepth 100000 in
/-- Witness of C4 at the reachable store `busyStore`, which holds one exam, two
submissions and two results. -/
theorem C4_witness :
    (Reachable busyStore ∧ (getSubmissions busyStore).length = 2 ∧
      (getAllResults busyStore).length = 2) ∧
    ∃ d, busyStore.appData = .stored d ∧
      (∀ sub now, ∃ r st1, addSubmission busyStore sub now = .ok (r, st1) ∧
        Paired (stampSubmission d sub now) r.toJSON ∧
        (busyStore.fits (.stored
            { d with submissions := d.submissions ++ [stampSubmission d sub now],
                     results := d.results ++ [r.toJSON] }) busyStore.currentUser = true →
          st1.appData = Entry.stored
            ({ d with submissions := d.submissions ++ [stampSubmission d sub now],
                      results := d.results ++ [r.toJSON] })) ∧
        (busyStore.fits (.stored
            { d with submissions := d.submissions ++ [stampSubmission d sub now],
                     results := d.results ++ [r.toJSON] }) busyStore.currentUser = false →
          st1 = busyStore)) ∧
      d.results.length = d.submissions.length ∧
      ∀ i (h1 : i < d.submissions.length) (h2 : i < d.results.length),
        Paired (d.submissions.get ⟨i, h1⟩) (d.results.get ⟨i, h2⟩) ∧
        DerivedFrom d (d.submissions.get ⟨i, h1⟩) (d.results.get ⟨i, h2⟩) :=
  ⟨⟨reachable_busyStore, by decide, by decide⟩,
    C4_one_result_per_submission busyStore reachable_busyStore⟩

/-! ## C5 -/

/-- C5, as stated, fails in two ways.  `u1` is a student; `addUser` of another `u1`
as an examiner succeeds, no examiner had that id, and `getUserById` then returns the
student's record, whose password is not the input's.  And when `localStorage` refuses
the write, `addUser` of a new id returns `false` and `getUserById` finds nothing. -/
theorem C5_counterexample :
    (∃ st1 u,
      oneStudentStore.appData = .stored oneStudentData ∧
      addUser oneStudentStore (sampleUser "u1" "y") "examiners" "t1" = .ok (true, st1) ∧
      getUserById st1 ((sampleUser "u1" "y").get "id") = some u ∧
      u.get "password" ≠ (sampleUser "u1" "y").get "password") ∧
    ((refusing oneStudentStore).appData = .stored oneStudentData ∧
      oneStudentData.users.prop "examiners" = .coll [] ∧
      addUser (refusing oneStudentStore) (sampleUser "u2" "y") "examiners" "t1" =
        .ok (false, refusing oneStudentStore) ∧
      getUserById (refusing oneStudentStore) ((sampleUser "u2" "y").get "id") = none) := by
  refine ⟨⟨_, _, rfl, rfl, rfl, by decide⟩, rfl, rfl, rfl, rfl⟩

/-- C5 (amended): when `type` names a role collection, neither that collection nor a
role collection searched before it (students, then examiners, then admins) holds a
user with `user.id`, and `localStorage` accepts the write, `addUser(user, type)`
returns `true` and `getUserById(user.id)` then returns the input user with a stamped
`registrationDate`: the input itself when its `registrationDate` is truthy, and
otherwise (none, or a falsy one) the input with `registrationDate` set to the
timestamp of the call; every other field is the input's. -/
theorem C5_addUser_then_getUserById (st : Store) (d : AppData) (user : User)
    (type now : String) (us : List User)
    (hd : st.appData = .stored d) (hrole : d.users.prop type = .coll us)
    (hfresh : ∀ u ∈ us, u.get "id" ≠ user.get "id")
    (hbefore : ∀ u ∈ searchedBefore d.users type, u.get "id" ≠ user.get "id")
    (hfits : st.fits (.stored
      { d with users := d.users.setColl type (us ++ [withRegistrationDate user now]) })
      st.currentUser = true) :
    ∃ st1, addUser st user type now = .ok (true, st1) ∧
      getUserById st1 (user.get "id") = some (withRegistrationDate user now) ∧
      (∀ k, k ≠ "registrationDate" → (withRegistrationDate user now).get k = user.get k) ∧
      (truthy (user.get "registrationDate") = true → withRegistrationDate user now = user) ∧
      (truthy (user.get "registrationDate") = false →
        (withRegistrationDate user now).get "registrationDate" = some (.str now)) := by
  have hg := getData_appData_of_stored hd
  have hnone := find?_id_eq_none hfresh
  have hid : (withRegistrationDate user now).get "id" = user.get "id" :=
    withRegistrationDate_get user now "id" (by decide)
  have hadd : addUser st user type now = .ok (setData_appData st
      { d with users := d.users.setColl type (us ++ [withRegistrationDate user now]) }) := by
    simp only [addUser, hg, hrole, hnone, Option.isSome_none]
    rfl
  rcases setData_appData_cases st
      { d with users := d.users.setColl type (us ++ [withRegistrationDate user now]) } with
    ⟨-, hw⟩ | ⟨hc, -⟩
  swap
  · rw [hfits] at hc; cases hc
  rw [hw] at hadd
  refine ⟨_, hadd, ?_, fun k hk => withRegistrationDate_get user now k hk, ?_, ?_⟩
  · simp only [getUserById, getData_appData, allUsers]
    change List.find? _ (_ ++ _ ++ _) = some (withRegistrationDate user now)
    rcases Users.prop_coll hrole with ⟨ht, hus⟩ | ⟨ht, hus⟩ | ⟨ht, hus⟩
    · subst ht
      simp only [Users.setColl, if_true]
      simp [List.find?_append, hnone, hid]
    · subst ht
      have hb : d.users.students.find? (fun u => decide (u.get "id" = user.get "id")) = none :=
        find?_id_eq_none (by simpa [searchedBefore] using hbefore)
      simp only [Users.setColl]
      simp [List.find?_append, hnone, hid, hb]
    · subst ht
      have hb1 : d.users.students.find? (fun u => decide (u.get "id" = user.get "id")) = none :=
        find?_id_eq_none (fun u hu => hbefore u (by simp [searchedBefore, hu]))
      have hb2 : d.users.examiners.find? (fun u => decide (u.get "id" = user.get "id")) = none :=
        find?_id_eq_none (fun u hu => hbefore u (by simp [searchedBefore, hu]))
      simp only [Users.setColl]
      simp [List.find?_append, hnone, hid, hb1, hb2]
  · intro h
    simp only [withRegistrationDate, h, if_true]
  · intro h
    simp only [withRegistrationDate, h, Bool.false_eq_true, if_false, Obj.get_set, if_true]

/-- Witness of C5 (amended): registering `u2` as an examiner next to student `u1`. -/
theorem C5_witness :
    (oneStudentStore.appData = .stored oneStudentData ∧
      oneStudentData.users.prop "examiners" = .coll [] ∧
      (∀ u ∈ ([] : List User), u.get "id" ≠ (sampleUser "u2" "y").get "id") ∧
      (∀ u ∈ searchedBefore oneStudentData.users "examiners",
        u.get "id" ≠ (sampleUser "u2" "y").get "id") ∧
      oneStudentStore.fits (.stored
        { oneStudentData with
          users := oneStudentData.users.setColl "examiners"
            ([] ++ [withRegistrationDate (sampleUser "u2" "y") "t1"]) })
        oneStudentStore.currentUser = true) ∧
    ∃ st1, addUser oneStudentStore (sampleUser "u2" "y") "examiners" "t1" = .ok (true, st1) ∧
      getUserById st1 ((sampleUser "u2" "y").get "id") =
        some (withRegistrationDate (sampleUser "u2" "y") "t1") ∧
      (∀ k, k ≠ "registrationDate" →
        (withRegistrationDate (sampleUser "u2" "y") "t1").get k = (sampleUser "u2" "y").get k) ∧
      (truthy ((sampleUser "u2" "y").get "registrationDate") = true →
        withRegistrationDate (sampleUser "u2" "y") "t1" = sampleUser "u2" "y") ∧
      (truthy ((sampleUser "u2" "y").get "registrationDate") = false →
        (withRegistrationDate (sampleUser "u2" "y") "t1").get "registrationDate" =
          some (.str "t1")) :=
  ⟨⟨rfl, rfl, by simp, by decide, rfl⟩,
    C5_addUser_then_getUserById oneStudentStore oneStudentData (sampleUser "u2" "y")
      "examiners" "t1" []
      rfl rfl (by simp) (by decide) rfl⟩

/-- The stamp also replaces a `registrationDate` that is present but falsy: the
empty text is overwritten by the timestamp of the call, a non-empty one is kept. -/
theorem addUser_registrationDate_examples :
    (getUserById
        (storeAfter (addUser oneStudentStore
          ((sampleUser "u2" "y").set "registrationDate" (.str "")) "admins" "t1")
          oneStudentStore) (some (.str "u2"))).map (fun u => u.get "registrationDate") =
      some (some (.str "t1")) ∧
    (getUserById
        (storeAfter (addUser oneStudentStore
          ((sampleUser "u2" "y").set "registrationDate" (.str "t0")) "admins" "t1")
          oneStudentStore) (some (.str "u2"))).map (fun u => u.get "registrationDate") =
      some (some (.str "t0")) := by
  constructor <;> decide

/-! ## C6 -/

/-- C6, the failing input: on the fresh empty document `addUser(user, "constructor")`
does not return `false`.  `appData.users["constructor"]` is the inherited `Object`
function, which is truthy and has no `find` method, so the call faults. -/
theorem C6_addUser_inherited_name_faults :
    addUser (initStorage emptyStore) (sampleUser "u1" "x") "constructor" "t1" =
      .error .typeError := by
  rfl

/-- What `addUser` does satisfy of C6: on a stored document it returns `false` and
leaves the store as it is when `users[type]` is `undefined` and when the role
collection named `type` already holds a user with `user.id`; users with that id in
other role collections play no part: without one in the named collection the call
goes on to write the document with the user appended. -/
theorem addUser_rejects (st : Store) (d : AppData) (user : User) (type now : String)
    (hd : st.appData = .stored d) :
    (d.users.prop type = .undefined → addUser st user type now = .ok (false, st)) ∧
    (∀ us, d.users.prop type = .coll us → (∃ u ∈ us, u.get "id" = user.get "id") →
      addUser st user type now = .ok (false, st)) ∧
    (∀ us, d.users.prop type = .coll us → (∀ u ∈ us, u.get "id" ≠ user.get "id") →
      addUser st user type now = .ok (setData_appData st
        { d with users := d.users.setColl type (us ++ [withRegistrationDate user now]) })) := by
  have hg := getData_appData_of_stored hd
  refine ⟨?_, ?_, ?_⟩
  · intro h
    simp only [addUser, hg, h]
  · intro us h ⟨u, hu, hid⟩
    have hsome : (us.find? (fun u => decide (u.get "id" = user.get "id"))).isSome = true := by
      rw [List.find?_isSome]
      exact ⟨u, hu, by simpa using hid⟩
    simp only [addUser, hg, h, hsome, if_true]
  · intro us h hfresh
    have hnone := find?_id_eq_none hfresh
    simp only [addUser, hg, h, hnone, Option.isSome_none]
    rfl

/-! ## C7 -/

theorem examIds_succ (k n : Nat) :
    (List.range (n + 1)).map (fun i => "EXAM" ++ pad3 (k + i + 1)) =
      ("EXAM" ++ pad3 (k + 1)) ::
        (List.range n).map (fun i => "EXAM" ++ pad3 (k + 1 + i + 1)) := by
  rw [List.range_succ_eq_map, List.map_cons, List.map_map]
  congr 1
  apply List.map_congr_left
  intro i _
  simp only [Function.comp, Nat.succ_eq_add_one]
  congr 2
  omega

theorem AcceptsAll.setData_appData {st : Store} (h : AcceptsAll st) (d : AppData) :
    AcceptsAll (setData_appData st d).2 ∧ (setData_appData st d).2.appData = .stored d ∧
      (setData_appData st d).2.currentUser = st.currentUser := by
  rw [setData_appData_of_acceptsAll st d h]
  exact ⟨h, rfl, rfl⟩

theorem AcceptsAll.setData_currentUser {st : Store} (h : AcceptsAll st) (u : Option User) :
    AcceptsAll (setData_currentUser st u).2 ∧
      (setData_currentUser st u).2.currentUser = .stored u ∧
      (setData_currentUser st u).2.appData = st.appData := by
  rw [setData_currentUser_of_acceptsAll st u h]
  exact ⟨h, rfl, rfl⟩

theorem addExams_ids : ∀ (inputs : List (Exam × String)) (st : Store) (d : AppData),
    st.appData = .stored d → AcceptsAll st →
    ∃ st1 d1,
      addExams st inputs =
        .ok ((List.range inputs.length).map
          (fun i => "EXAM" ++ pad3 (d.exams.length + i + 1)), st1) ∧
      st1.appData = .stored d1 ∧
      d1.exams.map (fun e => e.id) =
        d.exams.map (fun e => e.id) ++
          (List.range inputs.length).map (fun i => "EXAM" ++ pad3 (d.exams.length + i + 1)) := by
  intro inputs
  induction inputs with
  | nil => intro st d hd _; exact ⟨st, d, rfl, hd, by simp⟩
  | cons inp rest ih =>
    intro st d hd hacc
    obtain ⟨exam, now⟩ := inp
    obtain ⟨e, he, h1⟩ := addExam_ok st d exam now hd
    obtain ⟨hacc1, hst1, -⟩ := hacc.setData_appData { d with exams := d.exams ++ [e] }
    obtain ⟨st2, d2, h2, hst2, hids⟩ := ih _ _ hst1 hacc1
    simp only [List.length_append, List.length_singleton] at h2 hids
    refine ⟨st2, d2, ?_, hst2, ?_⟩
    · simp only [addExams, h1, h2, List.length_cons, examIds_succ]
    · rw [hids]
      simp only [List.length_cons, examIds_succ, List.map_append, List.map_cons, List.map_nil,
        he, List.append_assoc, List.singleton_append]

/-- C7, as stated, fails: on a `localStorage` that refuses the writes, two
consecutive `addExam` calls on the empty document both return `EXAM001`, and no exam
is stored. -/
theorem C7_counterexample :
    (refusing (initStorage emptyStore)).appData = .stored defaultData ∧
    defaultData.exams = [] ∧
    addExams (refusing (initStorage emptyStore)) [(sampleExam, "t1"), (penaltyExam, "t2")] =
      .ok (["EXAM001", "EXAM001"], refusing (initStorage emptyStore)) ∧
    getExams (refusing (initStorage emptyStore)) = [] := by
  exact ⟨rfl, rfl, rfl, rfl⟩

/-- C7 (amended): for every `N`, starting from a document whose exam collection is
empty, on a `localStorage` that accepts every write, `N` consecutive `addExam` calls
return exactly the ids `EXAM001`, `EXAM002`, ..., `EXAM` followed by `N` in decimal
left-padded with zeros to at least three digits, in that order, and the stored exams
carry those ids in that order. -/
theorem C7_addExam_sequential_ids (st : Store) (d : AppData)
    (inputs : List (Exam × String))
    (hd : st.appData = .stored d) (hempty : d.exams = []) (hacc : AcceptsAll st) :
    ∃ st1 d1,
      addExams st inputs =
        .ok ((List.range inputs.length).map (fun i => "EXAM" ++ pad3 (i + 1)), st1) ∧
      st1.appData = .stored d1 ∧
      d1.exams.map (fun e => e.id) =
        (List.range inputs.length).map (fun i => "EXAM" ++ pad3 (i + 1)) := by
  obtain ⟨st1, d1, h1, h2, h3⟩ := addExams_ids inputs st d hd hacc
  simp only [hempty, List.length_nil, Nat.zero_add, List.map_nil, List.nil_append] at h1 h3
  exact ⟨st1, d1, h1, h2, h3⟩

/-- Witness of C7: two exams added to the fresh empty document. -/
theorem C7_witness :
    ((initStorage emptyStore).appData = .stored defaultData ∧ defaultData.exams = [] ∧
      AcceptsAll (initStorage emptyStore)) ∧
    ∃ st1 d1,
      addExams (initStorage emptyStore) [(sampleExam, "t1"), (penaltyExam, "t2")] =
        .ok ((List.range [(sampleExam, "t1"), (penaltyExam, "t2")].length).map
          (fun i => "EXAM" ++ pad3 (i + 1)), st1) ∧
      st1.appData = .stored d1 ∧
      d1.exams.map (fun e => e.id) =
        (List.range [(sampleExam, "t1"), (penaltyExam, "t2")].length).map
          (fun i => "EXAM" ++ pad3 (i + 1)) :=
  ⟨⟨rfl, rfl, fun _ _ => rfl⟩,
    C7_addExam_sequential_ids (initStorage emptyStore) defaultData
      [(sampleExam, "t1"), (penaltyExam, "t2")] rfl rfl (fun _ _ => rfl)⟩

/-! ## C8 -/

/-- C8, as stated, fails: on a `localStorage` that refuses the writes,
`updateUser` of the logged-in student `u1` returns `true` and neither the stored
record nor the session user has the new password. -/
theorem C8_counterexample :
    (refusing loggedInStore).appData = .stored oneStudentData ∧
    getUserType (refusing loggedInStore) ((sampleUser "u1" "new").get "id") = some "student" ∧
    updateUser (refusing loggedInStore) (sampleUser "u1" "new") =
      .ok (true, refusing loggedInStore) ∧
    (getUserById (refusing loggedInStore) (some (.str "u1"))).map (fun u => u.get "password") =
      some (some (.str "x")) ∧
    (getData_currentUser (refusing loggedInStore)).map (fun u => u.get "password") =
      some (some (.str "x")) := by
  exact ⟨rfl, by decide, rfl, by decide, by decide⟩

/-- C8 (amended): when `patch.id` resolves to a user and `localStorage` accepts the
writes, `updateUser(patch)` returns `true` and replaces that user's stored record,
the first one with that id in the first role collection that has one, by the merged
record, which has the patch's value for every field the patch provides and the old
value for every other field; every other user and every other collection is
unchanged; `currentUser` becomes the merged record if it has the id of the patch and
is unchanged otherwise. -/
theorem C8_updateUser_merges (st : Store) (d : AppData) (patch : User) (role : String)
    (hd : st.appData = .stored d)
    (hres : getUserType st (patch.get "id") = some role) (hacc : AcceptsAll st) :
    ∃ pre old post st1,
      d.users.prop (role ++ "s") = .coll (pre ++ old :: post) ∧
      (∀ u ∈ pre, u.get "id" ≠ patch.get "id") ∧ old.get "id" = patch.get "id" ∧
      updateUser st patch = .ok (true, st1) ∧
      st1.appData = Entry.stored
        ({ d with users := d.users.setColl (role ++ "s") (pre ++ old.merge patch :: post) }) ∧
      (∀ t, t ≠ role ++ "s" →
        (d.users.setColl (role ++ "s") (pre ++ old.merge patch :: post)).prop t =
          d.users.prop t) ∧
      (∀ k, (old.merge patch).get k = if patch.has k then patch.get k else old.get k) ∧
      (sessionHasId st (patch.get "id") → st1.currentUser = .stored (some (old.merge patch))) ∧
      (¬ sessionHasId st (patch.get "id") → st1.currentUser = st.currentUser) := by
  rcases updateUser_effect st d patch hd with ⟨hnone, -⟩ |
    ⟨role1, type, pre, old, post, hrole, rfl, hp, hid, hpre, h⟩
  · rw [hnone] at hres; cases hres
  rw [hres] at hrole
  obtain rfl := Option.some.inj hrole
  obtain ⟨hacc1, hst1, hcu1⟩ := hacc.setData_appData
    { d with users := d.users.setColl (role ++ "s") (pre ++ old.merge patch :: post) }
  have hgcu : getData_currentUser (setData_appData st
      { d with users := d.users.setColl (role ++ "s") (pre ++ old.merge patch :: post) }).2 =
      getData_currentUser st := by
    simp only [getData_currentUser, hcu1]
  refine ⟨pre, old, post, _, hp, hpre, hid, h, ?_,
    fun t ht => Users.prop_setColl_ne _ _ _ _ ht,
    fun k => Obj.get_merge old patch k, ?_, ?_⟩
  · rw [sessionWrite_appData, hst1]
  · rintro ⟨cu, hcu, hcid⟩
    unfold sessionWrite
    rw [hgcu, hcu]
    simp only [hcid, if_true]
    exact (hacc1.setData_currentUser _).2.1
  · intro hno
    unfold sessionWrite
    rw [hgcu]
    rcases hcu : getData_currentUser st with _ | cu
    · exact hcu1
    · simp only
      rw [if_neg (fun hcid => hno ⟨cu, hcu, hcid⟩)]
      exact hcu1

/-- Witness of C8: the logged-in student `u1` changes the password. -/
theorem C8_witness :
    (loggedInStore.appData = .stored oneStudentData ∧
      getUserType loggedInStore ((sampleUser "u1" "new").get "id") = some "student" ∧
      AcceptsAll loggedInStore) ∧
    ∃ pre old post st1,
      oneStudentData.users.prop ("student" ++ "s") = .coll (pre ++ old :: post) ∧
      (∀ u ∈ pre, u.get "id" ≠ (sampleUser "u1" "new").get "id") ∧
      old.get "id" = (sampleUser "u1" "new").get "id" ∧
      updateUser loggedInStore (sampleUser "u1" "new") = .ok (true, st1) ∧
      st1.appData = Entry.stored
        ({ oneStudentData with
            users := oneStudentData.users.setColl ("student" ++ "s")
              (pre ++ old.merge (sampleUser "u1" "new") :: post) }) ∧
      (∀ t, t ≠ "student" ++ "s" →
        (oneStudentData.users.setColl ("student" ++ "s")
            (pre ++ old.merge (sampleUser "u1" "new") :: post)).prop t =
          oneStudentData.users.prop t) ∧
      (∀ k, (old.merge (sampleUser "u1" "new")).get k =
        if (sampleUser "u1" "new").has k then (sampleUser "u1" "new").get k else old.get k) ∧
      (sessionHasId loggedInStore ((sampleUser "u1" "new").get "id") →
        st1.currentUser = .stored (some (old.merge (sampleUser "u1" "new")))) ∧
      (¬ sessionHasId loggedInStore ((sampleUser "u1" "new").get "id") →
        st1.currentUser = loggedInStore.currentUser) :=
  ⟨⟨rfl, by decide, fun _ _ => rfl⟩,
    C8_updateUser_merges loggedInStore oneStudentData (sampleUser "u1" "new") "student" rfl
      (by decide) (fun _ _ => rfl)⟩

/-- The example of C8 evaluated: the password is replaced, `registrationDate` is
kept, and the session copy is refreshed. -/
theorem updateUser_example :
    (updateUser loggedInStore (sampleUser "u1" "new")).toOption.map
        (fun r => (r.1, getUserById r.2 (some (.str "u1")), getData_currentUser r.2)) =
      some (true,
        some ⟨[("id", .str "u1"), ("password", .str "new"), ("registrationDate", .str "t0")]⟩,
        some ⟨[("id", .str "u1"), ("password", .str "new"), ("registrationDate", .str "t0")]⟩) := by
  decide

/-- The session is matched by id alone: with `u1` stored as a student and as an
examiner and the examiner logged in, `updateUser` of `u1` merges into the student's
record, the first match, and the session becomes that student's merged record. -/
theorem updateUser_session_example :
    (getData_currentUser examinerSessionStore).map (fun u => u.get "password") =
      some (some (.str "y")) ∧
    (updateUser examinerSessionStore ⟨[("id", .str "u1"), ("name", .str "N")]⟩).toOption.map
        (fun r => (r.1, (getData_currentUser r.2).map (fun u => u.get "password"))) =
      some (true, some (some (.str "x"))) := by
  constructor <;> decide

/-! ## C9 and C10 -/

/-- C9, the failing input: in a `localStorage` without an `appData` entry no role
collection holds user `u1`, yet `deleteUser("u1")` does not return `false`: it
faults on `appData.users[role]`, `appData` being `null`. -/
theorem C9_deleteUser_without_document_faults :
    getUserById emptyStore (some (.str "u1")) = none ∧
    getUserType emptyStore (some (.str "u1")) = none ∧
    deleteUser emptyStore (some (.str "u1")) = .error .typeError := by
  exact ⟨rfl, rfl, rfl⟩

theorem AcceptsAll.of_fits {st st1 : Store} (h : AcceptsAll st) (hf : st1.fits = st.fits) :
    AcceptsAll st1 := by
  intro a c
  rw [hf]
  exact h a c

theorem sessionWrite_currentUser (st : Store) (id : Option Val) (u : Option User) :
    (sessionHasId st id → st.fits st.appData (.stored u) = true →
      (sessionWrite st id u).currentUser = .stored u) ∧
    (¬ sessionHasId st id → sessionWrite st id u = st) := by
  constructor
  · rintro ⟨cu, hcu, hid⟩ hf
    unfold sessionWrite
    rw [hcu]
    simp only [hid, if_true]
    rcases setData_currentUser_cases st u with ⟨-, h⟩ | ⟨hc, -⟩
    · rw [h]
    · rw [hf] at hc; cases hc
  · intro hno
    unfold sessionWrite
    rcases hcu : getData_currentUser st with _ | cu
    · rfl
    · simp only
      rw [if_neg (fun hid => hno ⟨cu, hcu, hid⟩)]

/-- What `deleteUser` does satisfy of C9, on every store that holds a document and
whatever the `currentUser` entry: it returns `true` exactly when some role
collection held a user with the id; deleting the id of the session user (and of a
stored user) returns `true` and, when `localStorage` accepts the write, sets
`currentUser` to `null`; an id no role collection holds returns `false` and leaves
session and document as they were. -/
theorem deleteUser_on_document (st : Store) (d : AppData) (id : Option Val)
    (hd : st.appData = .stored d) :
    ∃ b st1, deleteUser st id = .ok (b, st1) ∧
      (b = true ↔ ∃ u ∈ allUsers d, u.get "id" = id) ∧
      (sessionHasId st id → (∃ u ∈ allUsers d, u.get "id" = id) →
        st.fits st.appData (.stored none) = true →
        b = true ∧ st1.currentUser = .stored none) ∧
      ((¬ ∃ u ∈ allUsers d, u.get "id" = id) → b = false ∧ st1 = st) := by
  rcases deleteUser_ok st d id hd with ⟨hno, h⟩ | ⟨hex, h⟩
  · refine ⟨false, st, h, ?_, ?_, fun _ => ⟨rfl, rfl⟩⟩
    · simp only [Bool.false_eq_true, false_iff]; exact hno
    · intro _ hex; exact absurd hex hno
  · refine ⟨true, _, h, ?_, ?_, fun hno => absurd hex hno⟩
    · simp only [true_iff]; exact hex
    · intro hs _ hf
      refine ⟨rfl, ?_⟩
      rw [setData_appData_currentUser]
      exact (sessionWrite_currentUser st id none).1 hs hf

/-- C10, as stated, fails: on a `localStorage` that refuses the writes,
`deleteUser("u1")` returns `true` and `getUserById("u1")` still returns the
student. -/
theorem C10_counterexample :
    (refusing oneStudentStore).appData = .stored oneStudentData ∧
    deleteUser (refusing oneStudentStore) (some (.str "u1")) =
      .ok (true, refusing oneStudentStore) ∧
    (getUserById (refusing oneStudentStore) (some (.str "u1"))).isSome = true ∧
    getUserType (refusing oneStudentStore) (some (.str "u1")) = some "student" := by
  exact ⟨rfl, rfl, by decide, by decide⟩

/-- C10 (amended): for every document and id, on a `localStorage` that accepts the
writes, after `deleteUser(id)` no role collection holds a user with that id, so
`getUserById(id)` and `getUserType(id)` return nothing, also when the id was in
several role collections; each role collection is the old one with the users of that
id filtered out, so every other user stays, in the original order; exams, questions,
submissions, results and subjects are unchanged. -/
theorem C10_deleteUser_removes_everywhere (st : Store) (d : AppData) (id : Option Val)
    (hd : st.appData = .stored d) (hacc : AcceptsAll st) :
    ∃ b st1 d1, deleteUser st id = .ok (b, st1) ∧ st1.appData = .stored d1 ∧
      (∀ u ∈ allUsers d1, u.get "id" ≠ id) ∧
      getUserById st1 id = none ∧ getUserType st1 id = none ∧
      d1.users.students = d.users.students.filter (fun u => decide (u.get "id" ≠ id)) ∧
      d1.users.examiners = d.users.examiners.filter (fun u => decide (u.get "id" ≠ id)) ∧
      d1.users.admins = d.users.admins.filter (fun u => decide (u.get "id" ≠ id)) ∧
      d1.exams = d.exams ∧ d1.questions = d.questions ∧ d1.submissions = d.submissions ∧
      d1.results = d.results ∧ d1.subjects = d.subjects := by
  have key : ∃ b st1, deleteUser st id = .ok (b, st1) ∧ st1.appData = Entry.stored
      ({ d with users :=
          { students := d.users.students.filter (fun u => decide (u.get "id" ≠ id)),
            examiners := d.users.examiners.filter (fun u => decide (u.get "id" ≠ id)),
            admins := d.users.admins.filter (fun u => decide (u.get "id" ≠ id)) } }) := by
    rcases deleteUser_ok st d id hd with ⟨hno, h⟩ | ⟨-, h⟩
    · refine ⟨false, st, h, ?_⟩
      rw [mem_allUsers_iff] at hno
      push_neg at hno
      rw [filter_ne_eq_self _ _ (by push_neg; exact hno.1.1),
        filter_ne_eq_self _ _ (by push_neg; exact hno.1.2),
        filter_ne_eq_self _ _ (by push_neg; exact hno.2)]
      exact hd
    · refine ⟨true, _, h, ?_⟩
      exact ((hacc.of_fits (sessionWrite_fits st id none)).setData_appData _).2.1
  obtain ⟨b, st1, h, hst⟩ := key
  have hg1 := getData_appData_of_stored hst
  refine ⟨b, st1, _, h, hst, ?_, ?_, ?_, rfl, rfl, rfl, rfl, rfl, rfl, rfl, rfl⟩
  · intro u hu
    simp only [allUsers, List.mem_append] at hu
    rcases hu with (hu | hu) | hu
    all_goals
      have := (List.mem_filter.mp hu).2
      simpa using this
  · simp only [getUserById, hg1, allUsers, List.find?_append, find?_id_none_of_filter]
    rfl
  · simp only [getUserType, hg1, find?_id_none_of_filter]
    rfl

/-- Witness of C10: deleting the student `u1`. -/
theorem C10_witness :
    (oneStudentStore.appData = .stored oneStudentData ∧ AcceptsAll oneStudentStore) ∧
    ∃ b st1 d1, deleteUser oneStudentStore (some (.str "u1")) = .ok (b, st1) ∧
      st1.appData = .stored d1 ∧
      (∀ u ∈ allUsers d1, u.get "id" ≠ some (.str "u1")) ∧
      getUserById st1 (some (.str "u1")) = none ∧
      getUserType st1 (some (.str "u1")) = none ∧
      d1.users.students =
        oneStudentData.users.students.filter
          (fun u => decide (u.get "id" ≠ some (.str "u1"))) ∧
      d1.users.examiners =
        oneStudentData.users.examiners.filter
          (fun u => decide (u.get "id" ≠ some (.str "u1"))) ∧
      d1.users.admins =
        oneStudentData.users.admins.filter
          (fun u => decide (u.get "id" ≠ some (.str "u1"))) ∧
      d1.exams = oneStudentData.exams ∧ d1.questions = oneStudentData.questions ∧
      d1.submissions = oneStudentData.submissions ∧ d1.results = oneStudentData.results ∧
      d1.subjects = oneStudentData.subjects :=
  ⟨⟨rfl, fun _ _ => rfl⟩,
    C10_deleteUser_removes_everywhere oneStudentStore oneStudentData _ rfl (fun _ _ => rfl)⟩

/-- The example of C9 evaluated: the logged-in student `u1` is deleted, the call
returns `true`, the student collection is empty and `currentUser` is `null`; deleting
the unknown `u9` returns `false` and changes nothing. -/
theorem deleteUser_example :
    (deleteUser loggedInStore (some (.str "u1"))).toOption.map
        (fun r => (r.1, getData_appData r.2, r.2.currentUser)) =
      some (true, some defaultData, .stored none) ∧
    deleteUser loggedInStore (some (.str "u9")) = .ok (false, loggedInStore) := by
  constructor
  · decide
  · rfl

/-! ## C11 -/

/-- C11: on every document the three lookups search the one sequence
`students ++ examiners ++ admins` and stop at the first match: `getUserById(id)` is
the first record with that id, `findUser(id, password)` the first record whose id
and password both equal the arguments, and `getUserType(id)` names the role
collection that holds the record `getUserById(id)` returns: it is nothing exactly
when `getUserById(id)` is nothing, and when it is a role, the record is the first
match of that role's collection and no earlier collection has a match. -/
theorem C11_lookups_first_match (st : Store) (d : AppData) (id password : Option Val)
    (hd : st.appData = .stored d) :
    getUserById st id =
      (d.users.students ++ d.users.examiners ++ d.users.admins).find?
        (fun u => decide (u.get "id" = id)) ∧
    findUser st id password =
      (d.users.students ++ d.users.examiners ++ d.users.admins).find?
        (fun u => decide (u.get "id" = id) && decide (u.get "password" = password)) ∧
    (getUserType st id = none ↔ getUserById st id = none) ∧
    (getUserType st id = some "student" ↔
      (getUserById st id).isSome = true ∧
      getUserById st id = d.users.students.find? (fun u => decide (u.get "id" = id))) ∧
    (getUserType st id = some "examiner" ↔
      (getUserById st id).isSome = true ∧
      d.users.students.find? (fun u => decide (u.get "id" = id)) = none ∧
      getUserById st id = d.users.examiners.find? (fun u => decide (u.get "id" = id))) ∧
    (getUserType st id = some "admin" ↔
      (getUserById st id).isSome = true ∧
      d.users.students.find? (fun u => decide (u.get "id" = id)) = none ∧
      d.users.examiners.find? (fun u => decide (u.get "id" = id)) = none ∧
      getUserById st id = d.users.admins.find? (fun u => decide (u.get "id" = id))) := by
  have hg := getData_appData_of_stored hd
  refine ⟨by simp only [getUserById, hg, allUsers], by simp only [findUser, hg, allUsers], ?_⟩
  simp only [getUserById, getUserType, hg, allUsers]
  rcases h1 : d.users.students.find? (fun u => decide (u.get "id" = id)) with _ | a
  · rcases h2 : d.users.examiners.find? (fun u => decide (u.get "id" = id)) with _ | b
    · rcases h3 : d.users.admins.find? (fun u => decide (u.get "id" = id)) with _ | c
      · simp [List.find?_append, h1, h2, h3]
      · simp [List.find?_append, h1, h2, h3]
    · simp [List.find?_append, h1, h2]
  · simp [List.find?_append, h1]

/-- Witness of C11: student `u1` looked up in `oneStudentStore`. -/
theorem C11_witness :
    oneStudentStore.appData = .stored oneStudentData ∧
    (getUserById oneStudentStore (some (.str "u1")) =
      (oneStudentData.users.students ++ oneStudentData.users.examiners ++
          oneStudentData.users.admins).find?
        (fun u => decide (u.get "id" = some (.str "u1"))) ∧
    findUser oneStudentStore (some (.str "u1")) (some (.str "x")) =
      (oneStudentData.users.students ++ oneStudentData.users.examiners ++
          oneStudentData.users.admins).find?
        (fun u => decide (u.get "id" = some (.str "u1")) &&
          decide (u.get "password" = some (.str "x"))) ∧
    (getUserType oneStudentStore (some (.str "u1")) = none ↔
      getUserById oneStudentStore (some (.str "u1")) = none) ∧
    (getUserType oneStudentStore (some (.str "u1")) = some "student" ↔
      (getUserById oneStudentStore (some (.str "u1"))).isSome = true ∧
      getUserById oneStudentStore (some (.str "u1")) =
        oneStudentData.users.students.find?
          (fun u => decide (u.get "id" = some (.str "u1")))) ∧
    (getUserType oneStudentStore (some (.str "u1")) = some "examiner" ↔
      (getUserById oneStudentStore (some (.str "u1"))).isSome = true ∧
      oneStudentData.users.students.find?
        (fun u => decide (u.get "id" = some (.str "u1"))) = none ∧
      getUserById oneStudentStore (some (.str "u1")) =
        oneStudentData.users.examiners.find?
          (fun u => decide (u.get "id" = some (.str "u1")))) ∧
    (getUserType oneStudentStore (some (.str "u1")) = some "admin" ↔
      (getUserById oneStudentStore (some (.str "u1"))).isSome = true ∧
      oneStudentData.users.students.find?
        (fun u => decide (u.get "id" = some (.str "u1"))) = none ∧
      oneStudentData.users.examiners.find?
        (fun u => decide (u.get "id" = some (.str "u1"))) = none ∧
      getUserById oneStudentStore (some (.str "u1")) =
        oneStudentData.users.admins.find?
          (fun u => decide (u.get "id" = some (.str "u1"))))) :=
  ⟨rfl, C11_lookups_first_match oneStudentStore oneStudentData _ _ rfl⟩

/-! ## C12 -/

/-- C12: on every document `getSubmissionsForExaminer(id)` returns, in stored
order, exactly the submissions `s` for which some exam `e` has `e.createdBy = id` and
`e.id = s.examId`, and `getExamsByExaminer(id)` returns, in stored order, exactly the
exams with `createdBy = id`. -/
theorem C12_examiner_joins (st : Store) (d : AppData) (examinerId : String)
    (hd : st.appData = .stored d) :
    getExamsByExaminer st examinerId =
      d.exams.filter (fun e => decide (e.createdBy = examinerId)) ∧
    getSubmissionsForExaminer st examinerId =
      d.submissions.filter
        (fun s => decide (∃ e ∈ d.exams, e.createdBy = examinerId ∧ e.id = s.examId)) ∧
    (∀ e, e ∈ getExamsByExaminer st examinerId ↔ e ∈ d.exams ∧ e.createdBy = examinerId) ∧
    (∀ s, s ∈ getSubmissionsForExaminer st examinerId ↔
      s ∈ d.submissions ∧ ∃ e ∈ d.exams, e.createdBy = examinerId ∧ e.id = s.examId) ∧
    List.Sublist (getExamsByExaminer st examinerId) d.exams ∧
    List.Sublist (getSubmissionsForExaminer st examinerId) d.submissions := by
  have hg := getData_appData_of_stored hd
  have h1 : getExamsByExaminer st examinerId =
      d.exams.filter (fun e => decide (e.createdBy = examinerId)) := by
    simp only [getExamsByExaminer, getExams, hg]
  have h2 : getSubmissionsForExaminer st examinerId =
      d.submissions.filter
        (fun s => decide (∃ e ∈ d.exams, e.createdBy = examinerId ∧ e.id = s.examId)) := by
    simp only [getSubmissionsForExaminer, h1, getSubmissions, hg]
    apply List.filter_congr
    intro s _
    simp only [List.contains_eq_any_beq, List.any_map, List.any_filter]
    rw [Bool.eq_iff_iff]
    simp only [List.any_eq_true, Function.comp, Bool.and_eq_true, decide_eq_true_eq,
      beq_iff_eq]
    constructor
    · rintro ⟨x, hx, h4⟩
      obtain ⟨e, he, rfl⟩ := List.mem_map.mp hx
      have hf := List.mem_filter.mp he
      exact ⟨e, hf.1, by simpa using hf.2, h4.symm⟩
    · rintro ⟨e, he, h3, h4⟩
      exact ⟨e.id, List.mem_map.mpr ⟨e, List.mem_filter.mpr ⟨he, by simpa using h3⟩, rfl⟩,
        h4.symm⟩
  refine ⟨h1, h2, ?_, ?_, ?_, ?_⟩
  · intro e; rw [h1]; simp
  · intro s; rw [h2]; simp
  · rw [h1]; exact List.filter_sublist _
  · rw [h2]; exact List.filter_sublist _

/-- Witness of C12 on the store holding `sampleExam`, created by `ex1`. -/
theorem C12_witness :
    sampleStore.appData = .stored { defaultData with exams := [sampleExam] } ∧
    (getExamsByExaminer sampleStore "ex1" =
      ({ defaultData with exams := [sampleExam] } : AppData).exams.filter
        (fun e => decide (e.createdBy = "ex1")) ∧
    getSubmissionsForExaminer sampleStore "ex1" =
      ({ defaultData with exams := [sampleExam] } : AppData).submissions.filter
        (fun s => decide (∃ e ∈ ({ defaultData with exams := [sampleExam] } : AppData).exams,
          e.createdBy = "ex1" ∧ e.id = s.examId)) ∧
    (∀ e, e ∈ getExamsByExaminer sampleStore "ex1" ↔
      e ∈ ({ defaultData with exams := [sampleExam] } : AppData).exams ∧
        e.createdBy = "ex1") ∧
    (∀ s, s ∈ getSubmissionsForExaminer sampleStore "ex1" ↔
      s ∈ ({ defaultData with exams := [sampleExam] } : AppData).submissions ∧
        ∃ e ∈ ({ defaultData with exams := [sampleExam] } : AppData).exams,
          e.createdBy = "ex1" ∧ e.id = s.examId) ∧
    List.Sublist (getExamsByExaminer sampleStore "ex1")
      ({ defaultData with exams := [sampleExam] } : AppData).exams ∧
    List.Sublist (getSubmissionsForExaminer sampleStore "ex1")
      ({ defaultData with exams := [sampleExam] } : AppData).submissions) :=
  ⟨rfl, C12_examiner_joins sampleStore _ "ex1" rfl⟩

/-! ## C13 -/

/-- The binary64 value of `a/b / (c/e) * 100` for `0 ≤ a/b ≤ c/e`, `c > 0`: a finite
number between `0` and `100`, printed by `toFixed(1)` as a one-decimal numeral. -/
theorem percent_text (a : Int) (b : Nat) (c : Int) (e : Nat) (hb : 0 < b) (he : 0 < e)
    (ha : 0 ≤ a) (hc : 0 < c) (hle : a * e ≤ c * b) :
    ∃ n m, ((Num.fin a b).div (.fin c e)).mul (.fin 100 1) = .fin n m ∧ 0 < m ∧ 0 ≤ n ∧
      n ≤ 100 * (m : Int) ∧
      (((Num.fin a b).div (.fin c e)).mul (.fin 100 1)).toFixed1 =
        .numeral (toFixed1 ⟨n, m⟩) ∧
      0 ≤ toFixed1 ⟨n, m⟩ ∧ toFixed1 ⟨n, m⟩ ≤ 1000 := by
  have hbz : (0 : Int) < b := by exact_mod_cast hb
  have hez : (0 : Int) < e := by exact_mod_cast he
  have hc0 : c ≠ 0 := ne_of_gt hc
  have hsign : c.sign = 1 := Int.sign_eq_one_of_pos hc
  have hcb : (0 : Int) < c * b := mul_pos hc hbz
  obtain ⟨a1, b1, h1, hb1, ha1, hq1⟩ := binary64_small (a * e) (b * c.natAbs)
    (Nat.mul_pos hb (Int.natAbs_pos.mpr hc0)) (mul_nonneg ha (le_of_lt hez))
    (by push_cast; rw [abs_of_pos hc]; nlinarith)
  have hq1' := hq1 1
  push_cast at hq1'
  rw [abs_of_pos hc] at hq1'
  have hle1 : a1 ≤ b1 := by
    have := hq1'.1 (by nlinarith)
    omega
  have hb1z : (0 : Int) < b1 := by exact_mod_cast hb1
  obtain ⟨n, m, h2, hm, hn, hq2⟩ := binary64_small (a1 * 100) (b1 * 1)
    (by omega) (by omega) (by push_cast; omega)
  have hq2' := hq2 100
  push_cast at hq2'
  have hle2 : n ≤ 100 * (m : Int) := hq2'.1 (by omega)
  have hmz : (0 : Int) < m := by exact_mod_cast hm
  have hx : ((Num.fin a b).div (.fin c e)).mul (.fin 100 1) = .fin n m := by
    simp only [Num.div, if_neg hc0, hsign, mul_one, h1, Num.mul]
    rw [Nat.mul_one] at h2
    exact h2
  have hnotbig : ¬ 10 ^ 21 * m ≤ n.natAbs := by
    intro h
    have : ((10 ^ 21 * m : Nat) : Int) ≤ (n.natAbs : Int) := by exact_mod_cast h
    rw [Int.natAbs_of_nonneg hn] at this
    push_cast at this
    omega
  have hnear := abs_le.mp (toFixed1_spec ⟨n, m⟩ hm)
  simp only [tenthsToRat, F64.toRat] at hnear
  have hmq : (0 : ℚ) < m := by exact_mod_cast hm
  have hv0 : (0 : ℚ) ≤ (n : ℚ) / m := div_nonneg (by exact_mod_cast hn) (le_of_lt hmq)
  have hv1 : (n : ℚ) / m ≤ 100 := by
    rw [div_le_iff₀ hmq]
    exact_mod_cast hle2
  obtain ⟨l1, l2⟩ := hnear
  have up : ((toFixed1 ⟨n, m⟩ : Int) : ℚ) < ((1001 : Int) : ℚ) := by push_cast; linarith
  have lo : ((-1 : Int) : ℚ) < ((toFixed1 ⟨n, m⟩ : Int) : ℚ) := by push_cast; linarith
  have up' := Int.cast_lt.mp up
  have lo' := Int.cast_lt.mp lo
  refine ⟨n, m, hx, hm, hn, hle2, ?_, by omega, by omega⟩
  rw [hx]
  simp only [Num.toFixed1, if_neg hnotbig]

/-- C13, as stated, fails: with 23 of 80 results passed the quotient times `100` is
`28.75` exactly, which rounds to `28.8`, yet `passRate` is the text `"28.7"`, the
rounding of the binary64 value of `23 / 80 * 100`. -/
theorem C13_counterexample :
    ∃ stats, getSystemStats quarterStore = some stats ∧
      stats.passedExams = 23 ∧ stats.totalResults = 80 ∧
      stats.passRate = .text (.numeral 287) ∧
      (Num.fin (23 * 100) 80).toFixed1 = .numeral 288 := by
  refine ⟨_, rfl, ?_, ?_, ?_, ?_⟩ <;> decide

/-- C13 (amended): for every stored document `getSystemStats().passRate` is the
number `0` when there are no results, and otherwise is the text that `toFixed(1)`
returns for the binary64 value `x` of (the number of results with status `"passed"`)
divided by (the number of results) times `100`: a one-decimal numeral between `0` and
`100` within `1/20` of `x`, the larger one on a tie, where `x` lies within relative
error `2^-51` (plus `2^-1060`) of the exact quotient times `100`. -/
theorem C13_passRate (st : Store) (d : AppData) (hd : st.appData = .stored d) :
    ∃ stats, getSystemStats st = some stats ∧
      (d.results = [] → stats.passRate = .number (.fin 0 1)) ∧
      (d.results ≠ [] →
        ∃ (n : Int) (m : Nat) (t : Int),
          ((Num.fin ((d.results.filter (fun r => decide (r.status = "passed"))).length : Nat) 1).div
            (.fin (d.results.length : Nat) 1)).mul (.fin 100 1) = .fin n m ∧
          stats.passRate = .text (.numeral t) ∧ t = toFixed1 ⟨n, m⟩ ∧
          0 ≤ t ∧ t ≤ 1000 ∧
          |tenthsToRat t - (n : ℚ) / m| ≤ 1 / 20 ∧
          |(n : ℚ) / m -
              ((d.results.filter (fun r => decide (r.status = "passed"))).length : ℚ) /
                d.results.length * 100| ≤
            (2 : ℚ) ^ (-51 : Int) *
                |((d.results.filter (fun r => decide (r.status = "passed"))).length : ℚ) /
                  d.results.length * 100| +
              (2 : ℚ) ^ (-1060 : Int)) := by
  have hg := getData_appData_of_stored hd
  simp only [getSystemStats, hg]
  refine ⟨_, rfl, ?_, ?_⟩
  · intro h
    simp [h]
  · intro h
    have hpos : 0 < d.results.length := List.length_pos.mpr h
    have hle := List.length_filter_le (fun r : Result => decide (r.status = "passed")) d.results
    obtain ⟨n, m, hx, hm, hn, -, htext, h0, h1⟩ := percent_text
      ((d.results.filter (fun r => decide (r.status = "passed"))).length : Nat) 1
      (d.results.length : Nat) 1 (by decide) (by decide) (by positivity)
      (by exact_mod_cast hpos) (by push_cast; omega)
    refine ⟨n, m, toFixed1 ⟨n, m⟩, hx, ?_, rfl, h0, h1, toFixed1_spec ⟨n, m⟩ hm, ?_⟩
    · simp only [hpos, if_true]
      rw [htext]
    · have := percent_value_error _ 1 _ 1 n m (by decide) (by decide)
        (by exact_mod_cast hpos) hx
      simpa using this

/-- Witness of C13 on the store with one result, which passed. -/
theorem C13_witness :
    gradedStore.appData = .stored gradedData ∧
    ∃ stats, getSystemStats gradedStore = some stats ∧
      (gradedData.results = [] → stats.passRate = .number (.fin 0 1)) ∧
      (gradedData.results ≠ [] →
        ∃ (n : Int) (m : Nat) (t : Int),
          ((Num.fin ((gradedData.results.filter
              (fun r => decide (r.status = "passed"))).length : Nat) 1).div
            (.fin (gradedData.results.length : Nat) 1)).mul (.fin 100 1) = .fin n m ∧
          stats.passRate = .text (.numeral t) ∧ t = toFixed1 ⟨n, m⟩ ∧
          0 ≤ t ∧ t ≤ 1000 ∧
          |tenthsToRat t - (n : ℚ) / m| ≤ 1 / 20 ∧
          |(n : ℚ) / m -
              ((gradedData.results.filter (fun r => decide (r.status = "passed"))).length : ℚ) /
                gradedData.results.length * 100| ≤
            (2 : ℚ) ^ (-51 : Int) *
                |((gradedData.results.filter
                    (fun r => decide (r.status = "passed"))).length : ℚ) /
                  gradedData.results.length * 100| +
              (2 : ℚ) ^ (-1060 : Int)) :=
  ⟨rfl, C13_passRate gradedStore gradedData rfl⟩

set_option maxRecDepth 100000 in
/-- The pass rate evaluated: one result of one passed gives the text `"100.0"`; two
results, one passed, give `"50.0"`; no results give the number `0`. -/
theorem passRate_examples :
    (getSystemStats gradedStore).map (fun s => (s.passedExams, s.totalResults, s.passRate)) =
      some (1, 1, .text (.numeral 1000)) ∧
    (getSystemStats busyStore).map (fun s => (s.passedExams, s.totalResults, s.passRate)) =
      some (1, 2, .text (.numeral 500)) ∧
    (getSystemStats sampleStore).map (fun s => s.passRate) = some (.number (.fin 0 1)) := by
  refine ⟨?_, ?_, ?_⟩ <;> decide

/-! ## C14 -/

theorem DocStep.submitted {d d1 : AppData} (h : DocStep d d1)
    (hp : ∀ s ∈ d.submissions, s.status = "submitted") :
    ∀ s ∈ d1.submissions, s.status = "submitted" := by
  rcases h with rfl | ⟨_, -, rfl⟩ | ⟨e, -, rfl⟩ | ⟨_, -, rfl⟩ | ⟨_, rfl⟩ |
    ⟨st0, sub, now, r0, st1, -, -, rfl⟩
  · exact hp
  · exact hp
  · exact hp
  · exact hp
  · exact hp
  · intro s hs
    simp only [List.mem_append, List.mem_singleton] at hs
    rcases hs with hs | rfl
    · exact hp s hs
    · rfl

/-- In a reachable store every stored submission has status `"submitted"`. -/
theorem reachable_submitted {st : Store} (h : Reachable st) :
    ∃ d, st.appData = .stored d ∧ ∀ s ∈ d.submissions, s.status = "submitted" := by
  induction h with
  | fresh fits => exact ⟨defaultData, rfl, by simp [defaultData]⟩
  | @step op st _ ih =>
    obtain ⟨d, hd, hp⟩ := ih
    obtain ⟨d1, h1, hstep⟩ := run_docStep op st d hd
    exact ⟨d1, h1, hstep.submitted hp⟩

/-- C14: in every store reachable from the fresh empty document through the
operations, every stored submission has status `"submitted"`, so for every examiner
id `getExaminerStats(id).pendingEvaluations` equals
`getExaminerStats(id).totalSubmissions`, which is the length of
`getSubmissionsForExaminer(id)`. -/
theorem C14_pending_equals_total (st : Store) (h : Reachable st) :
    ∃ d, st.appData = .stored d ∧
      (∀ s ∈ d.submissions, s.status = "submitted") ∧
      ∀ examinerId,
        (getExaminerStats st examinerId).pendingEvaluations =
          (getExaminerStats st examinerId).totalSubmissions ∧
        (getExaminerStats st examinerId).totalSubmissions =
          (getSubmissionsForExaminer st examinerId).length := by
  obtain ⟨d, hd, hp⟩ := reachable_submitted h
  have hg := getData_appData_of_stored hd
  refine ⟨d, hd, hp, fun examinerId => ⟨?_, rfl⟩⟩
  simp only [getExaminerStats]
  congr 1
  rw [List.filter_eq_self]
  intro s hs
  have hs1 : s ∈ d.submissions := by
    simp only [getSubmissionsForExaminer, getSubmissions, hg] at hs
    exact (List.mem_filter.mp hs).1
  simpa using hp s hs1

set_option maxRecDepth 100000 in
/-- Witness of C14 at the reachable store `busyStore`: examiner `ex1` has two
submissions, both pending. -/
theorem C14_witness :
    (Reachable busyStore ∧ (getExaminerStats busyStore "ex1").totalSubmissions = 2 ∧
      (getExaminerStats busyStore "ex1").pendingEvaluations = 2) ∧
    ∃ d, busyStore.appData = .stored d ∧
      (∀ s ∈ d.submissions, s.status = "submitted") ∧
      ∀ examinerId,
        (getExaminerStats busyStore examinerId).pendingEvaluations =
          (getExaminerStats busyStore examinerId).totalSubmissions ∧
        (getExaminerStats busyStore examinerId).totalSubmissions =
          (getSubmissionsForExaminer busyStore examinerId).length :=
  ⟨⟨reachable_busyStore, by decide, by decide⟩,
    C14_pending_equals_total busyStore reachable_busyStore⟩

/-! ## C15 -/

theorem DocStep.usersStep {d d1 : AppData} (h : DocStep d d1) : UsersStep d.users d1.users := by
  rcases h with rfl | ⟨_, hu, rfl⟩ | ⟨e, -, rfl⟩ | ⟨_, -, rfl⟩ | ⟨_, rfl⟩ |
    ⟨st0, sub, now, r0, st1, -, -, rfl⟩
  · exact Or.inl rfl
  · exact hu
  · exact Or.inl rfl
  · exact Or.inl rfl
  · exact Or.inl rfl
  · exact Or.inl rfl

/-- In a reachable store there is a document whose role collections have unique
ids. -/
theorem reachable_uniqueIds {st : Store} (h : Reachable st) :
    ∃ d, st.appData = .stored d ∧ UniqueIds d.users := by
  induction h with
  | fresh fits => exact ⟨defaultData, rfl, by simp [UniqueIds, idsOf, defaultData]⟩
  | @step op st _ ih =>
    obtain ⟨d, hd, hu⟩ := ih
    obtain ⟨d1, h1, hstep⟩ := run_docStep op st d hd
    exact ⟨d1, h1, hstep.usersStep.uniqueIds hu⟩

theorem reachable_twoRolesStore : Reachable twoRolesStore :=
  Reachable.step _ (Reachable.step _ (Reachable.fresh _))

/-- C15: in every store reachable from the fresh empty document through the
operations (`addUser`, `updateUser`, `deleteUser` and the others) no role collection
holds two users with the same id; the same id may occur in two different role
collections, as it does after `u1` registers as a student and as an examiner. -/
theorem C15_ids_unique_per_role :
    (∀ st, Reachable st →
      ∃ d, st.appData = .stored d ∧
        (idsOf d.users.students).Nodup ∧ (idsOf d.users.examiners).Nodup ∧
        (idsOf d.users.admins).Nodup) ∧
    (Reachable twoRolesStore ∧
      ∃ d, twoRolesStore.appData = .stored d ∧
        ∃ u ∈ d.users.students, ∃ v ∈ d.users.examiners, u.get "id" = v.get "id") := by
  refine ⟨fun st h => reachable_uniqueIds h, reachable_twoRolesStore, ?_⟩
  refine ⟨_, rfl, _, List.mem_singleton.mpr rfl, _, List.mem_singleton.mpr rfl, ?_⟩
  decide

/-- Witness of C15 at the store where `u1` is a student and an examiner. -/
theorem C15_witness :
    Reachable twoRolesStore ∧
    ∃ d, twoRolesStore.appData = .stored d ∧
      (idsOf d.users.students).Nodup ∧ (idsOf d.users.examiners).Nodup ∧
      (idsOf d.users.admins).Nodup :=
  ⟨reachable_twoRolesStore, C15_ids_unique_per_role.1 twoRolesStore reachable_twoRolesStore⟩

/-! ## C16 -/

/-- C16, as stated, fails in two ways.  In a store with no `appData` entry and
student `u1` still under `currentUser`, `initStorage` writes the empty document but no
`null` `currentUser`; the session entry stays as it was.  And on a `localStorage`
that refuses the writes, `initStorage` leaves a store with no `appData` entry
without one. -/
theorem C16_counterexample :
    (staleSessionStore.appData = .missing ∧
      (initStorage staleSessionStore).appData = .stored defaultData ∧
      (initStorage staleSessionStore).currentUser = .stored (some (sampleUser "u1" "x")) ∧
      (initStorage staleSessionStore).currentUser ≠ .stored none) ∧
    ((refusing emptyStore).appData = .missing ∧
      (initStorage (refusing emptyStore)).appData = .missing ∧
      (initStorage (refusing emptyStore)).currentUser = .missing) := by
  refine ⟨⟨rfl, rfl, rfl, by decide⟩, rfl, rfl, rfl⟩

/-- C16 (amended): on a `localStorage` that accepts the writes, `initStorage` never
overwrites an existing document: it leaves `appData` unchanged when the entry holds a
document; when `getData('appData')` finds none (no entry, or one that does not
decode) it writes the empty document (three empty role collections and empty exams,
submissions, results, questions, subjects); it writes a `null` `currentUser` when
no session user is stored and keeps a stored session user; so running it twice
leaves the same store as running it once. -/
theorem C16_initStorage (st : Store) (hacc : AcceptsAll st) :
    (∀ d, st.appData = .stored d → (initStorage st).appData = .stored d) ∧
    (getData_appData st = none →
      (initStorage st).appData = .stored
        { users := { students := [], examiners := [], admins := [] },
          exams := [], submissions := [], results := [], questions := [], subjects := [] }) ∧
    (getData_currentUser st = none → (initStorage st).currentUser = .stored none) ∧
    (∀ u, getData_currentUser st = some u → (initStorage st).currentUser = st.currentUser) ∧
    initStorage (initStorage st) = initStorage st := by
  have hf : st.fits = fun _ _ => true := funext (fun a => funext (fun c => hacc a c))
  obtain ⟨a, c, f⟩ := st
  simp only at hf
  subst hf
  refine ⟨?_, ?_, ?_, ?_, ?_⟩
  · intro d hd
    simp only at hd
    subst hd
    rcases c with _ | _ | _ | u <;> rfl
  · intro h
    rcases a with _ | _ | d
    · rcases c with _ | _ | _ | u <;> rfl
    · rcases c with _ | _ | _ | u <;> rfl
    · simp [getData_appData] at h
  · intro h
    rcases c with _ | _ | _ | u
    · rcases a with _ | _ | d <;> rfl
    · rcases a with _ | _ | d <;> rfl
    · rcases a with _ | _ | d <;> rfl
    · simp [getData_currentUser] at h
  · intro u h
    rcases c with _ | _ | _ | u1
    · simp [getData_currentUser] at h
    · simp [getData_currentUser] at h
    · simp [getData_currentUser] at h
    · rcases a with _ | _ | d <;> rfl
  · rcases a with _ | _ | d <;> rcases c with _ | _ | _ | u <;> rfl

/-- Witness of C16 (amended), at a store that holds a document, which `initStorage`
leaves in place, and at an empty `localStorage`. -/
theorem C16_witness :
    (AcceptsAll oneStudentStore ∧ oneStudentStore.appData = .stored oneStudentData ∧
      (∀ d, oneStudentStore.appData = .stored d →
        (initStorage oneStudentStore).appData = .stored d) ∧
      (getData_appData oneStudentStore = none →
        (initStorage oneStudentStore).appData = .stored
          { users := { students := [], examiners := [], admins := [] },
            exams := [], submissions := [], results := [], questions := [], subjects := [] }) ∧
      (getData_currentUser oneStudentStore = none →
        (initStorage oneStudentStore).currentUser = .stored none) ∧
      (∀ u, getData_currentUser oneStudentStore = some u →
        (initStorage oneStudentStore).currentUser = oneStudentStore.currentUser) ∧
      initStorage (initStorage oneStudentStore) = initStorage oneStudentStore) ∧
    (AcceptsAll emptyStore ∧ getData_appData emptyStore = none ∧
      (∀ d, emptyStore.appData = .stored d → (initStorage emptyStore).appData = .stored d) ∧
      (getData_appData emptyStore = none →
        (initStorage emptyStore).appData = .stored
          { users := { students := [], examiners := [], admins := [] },
            exams := [], submissions := [], results := [], questions := [], subjects := [] }) ∧
      (getData_currentUser emptyStore = none →
        (initStorage emptyStore).currentUser = .stored none) ∧
      (∀ u, getData_currentUser emptyStore = some u →
        (initStorage emptyStore).currentUser = emptyStore.currentUser) ∧
      initStorage (initStorage emptyStore) = initStorage emptyStore) :=
  ⟨⟨fun _ _ => rfl, rfl, C16_initStorage oneStudentStore (fun _ _ => rfl)⟩,
    ⟨fun _ _ => rfl, rfl, C16_initStorage emptyStore (fun _ _ => rfl)⟩⟩

/-- An `appData` entry that does not decode is overwritten like a missing one. -/
theorem initStorage_corrupt : (initStorage corruptStore).appData = .stored defaultData := rfl

/-! ## C17 -/

/-- C17, the failing inputs: in a `localStorage` whose `appData` entry is missing,
and likewise in one whose entry does not decode, `addExam`, `addQuestion`,
`addSubmission`, `addSubject` and `deleteUser` do not complete with a value: each
dereferences the `null` document and faults. -/
theorem C17_operations_without_document_fault :
    addExam emptyStore sampleExam "t1" = .error .typeError ∧
    addQuestion emptyStore (sampleQuestion fifty "A") "t1" = .error .typeError ∧
    addSubmission emptyStore (sampleSubmission ["A"]) "t1" = .error .typeError ∧
    addSubject emptyStore (sampleUser "math" "") "t1" = .error .typeError ∧
    deleteUser emptyStore (some (.str "u1")) = .error .typeError ∧
    addExam corruptStore sampleExam "t1" = .error .typeError ∧
    addQuestion corruptStore (sampleQuestion fifty "A") "t1" = .error .typeError ∧
    addSubmission corruptStore (sampleSubmission ["A"]) "t1" = .error .typeError ∧
    addSubject corruptStore (sampleUser "math" "") "t1" = .error .typeError ∧
    deleteUser corruptStore (some (.str "u1")) = .error .typeError := by
  refine ⟨rfl, rfl, rfl, rfl, rfl, rfl, rfl, rfl, rfl, rfl⟩

/-- What the operations do satisfy of C17 on a store without a document: `addUser`
and `updateUser` return `false` and leave the store as it is, and the getters
return nothing or an empty sequence. -/
theorem guarded_operations_without_document (st : Store) (h : getData_appData st = none)
    (user : User) (type now : String) (id password : Option Val) (examinerId : String) :
    addUser st user type now = .ok (false, st) ∧
    updateUser st user = .ok (false, st) ∧
    findUser st id password = none ∧ getUserType st id = none ∧ getUserById st id = none ∧
    getExams st = [] ∧ getExamById st examinerId = none ∧ getQuestions st = [] ∧
    getSubmissions st = [] ∧ getSubjects st = [] ∧ getAllResults st = [] ∧
    getStudentResults st examinerId = [] ∧ getExamsByExaminer st examinerId = [] ∧
    getSubmissionsForExaminer st examinerId = [] ∧ getSystemStats st = none := by
  simp [addUser, updateUser, findUser, getUserType, getUserById, getExams, getExamById,
    getQuestions, getSubmissions, getSubjects, getAllResults, getStudentResults,
    getExamsByExaminer, getSubmissionsForExaminer, getSystemStats, h]

/-- What the operations do satisfy of C17 on failure: a call of `addUser`,
`updateUser` or `deleteUser` that returns `false` leaves the store as it was, also
when the `false` of `addUser` reports a refused write. -/
theorem failed_operation_keeps_store (st st1 : Store) (user : User) (type now : String)
    (id : Option Val) :
    (addUser st user type now = .ok (false, st1) → st1 = st) ∧
    (updateUser st user = .ok (false, st1) → st1 = st) ∧
    (deleteUser st id = .ok (false, st1) → st1 = st) := by
  refine ⟨?_, ?_, ?_⟩
  · intro h
    rcases hg : getData_appData st with _ | d
    · simp only [addUser, hg] at h
      cases h; rfl
    · rcases addUser_effect st d user type now (stored_of_getData_appData hg) with
        ⟨-, h2⟩ | ⟨-, h2⟩ | ⟨us, -, -, h2⟩
      · rw [h2] at h; cases h
      · rw [h2] at h; cases h; rfl
      · rw [h2] at h
        rcases setData_appData_cases st
          { d with users := d.users.setColl type (us ++ [withRegistrationDate user now]) } with
          ⟨-, h3⟩ | ⟨-, h3⟩
        · rw [h3] at h; cases h
        · rw [h3] at h; cases h; rfl
  · intro h
    rcases hg : getData_appData st with _ | d
    · have h2 : updateUser st user = .ok (false, st) := by
        simp [updateUser, getUserType, hg]
      rw [h2] at h
      cases h; rfl
    · rcases updateUser_effect st d user (stored_of_getData_appData hg) with ⟨-, h2⟩ |
        ⟨_, _, _, _, _, -, -, -, -, -, h2⟩
      · rw [h2] at h; cases h; rfl
      · rw [h2] at h; cases h
  · intro h
    rcases hg : getData_appData st with _ | d
    · simp [deleteUser, hg] at h
    · rcases deleteUser_ok st d id (stored_of_getData_appData hg) with ⟨-, h2⟩ | ⟨-, h2⟩
      · rw [h2] at h; cases h; rfl
      · rw [h2] at h; cases h

/-! ## C18 -/

/-- C18: for every key and every JSON-representable value `v`, when the write
succeeds `setData(key, v)` returns `true` and a following `getData(key)` returns `v`;
`getData` returns `null` for a key that was never written.  (A write that fails
returns `false` and leaves the storage as it was.) -/
theorem C18_setData_getData_roundtrip {J : Type} (c : JsonCodec J) (ls : LocalStorage)
    (key : String) (v : J) :
    (ls.accepts key (c.stringify v) = true →
      (ls.setData c key v).1 = true ∧ (ls.setData c key v).2.getData c key = v) ∧
    (ls.items key = none → ls.getData c key = c.null) ∧
    (ls.accepts key (c.stringify v) = false → ls.setData c key v = (false, ls)) := by
  refine ⟨?_, ?_, ?_⟩
  · intro h
    simp only [LocalStorage.setData, h, if_true, LocalStorage.getData,
      c.stringify_ne_empty v, if_false, c.parse_stringify v, and_self]
  · intro h
    simp only [LocalStorage.getData, h]
  · intro h
    simp [LocalStorage.setData, h]

/-- Witness of C18: `true` written under `flag` in an empty storage. -/
theorem C18_witness :
    (emptyLocalStorage.accepts "flag" (literalCodec.stringify (some true)) = true →
      (emptyLocalStorage.setData literalCodec "flag" (some true)).1 = true ∧
      (emptyLocalStorage.setData literalCodec "flag" (some true)).2.getData literalCodec "flag" =
        some true) ∧
    (emptyLocalStorage.items "flag" = none →
      emptyLocalStorage.getData literalCodec "flag" = literalCodec.null) ∧
    (emptyLocalStorage.accepts "flag" (literalCodec.stringify (some true)) = false →
      emptyLocalStorage.setData literalCodec "flag" (some true) = (false, emptyLocalStorage)) :=
  C18_setData_getData_roundtrip literalCodec emptyLocalStorage "flag" (some true)

/-! ## C19 -/

theorem DocStep.collectionsStep {d d1 : AppData} (h : DocStep d d1) : CollectionsStep d d1 := by
  rcases h with rfl | ⟨_, -, rfl⟩ | ⟨e, he, rfl⟩ | ⟨q, hq, rfl⟩ | ⟨_, rfl⟩ |
    ⟨st0, sub, now, r0, st1, h0, hadd, rfl⟩
  · exact ⟨Or.inl rfl, Or.inl rfl, Or.inl rfl, Or.inl rfl⟩
  · exact ⟨Or.inl rfl, Or.inl rfl, Or.inl rfl, Or.inl rfl⟩
  · exact ⟨Or.inr ⟨e, he, rfl⟩, Or.inl rfl, Or.inl rfl, Or.inl rfl⟩
  · exact ⟨Or.inl rfl, Or.inr ⟨q, hq, rfl⟩, Or.inl rfl, Or.inl rfl⟩
  · exact ⟨Or.inl rfl, Or.inl rfl, Or.inl rfl, Or.inl rfl⟩
  · obtain ⟨r1, hr, hid, -⟩ := addSubmission_ok st0 d sub now h0
    rw [hr] at hadd
    have hrr : r1 = r0 := congrArg Prod.fst (Except.ok.inj hadd)
    subst hrr
    exact ⟨Or.inl rfl, Or.inl rfl, Or.inr ⟨_, rfl, rfl⟩, Or.inr ⟨r1.toJSON, hid, rfl⟩⟩

/-- The four id-carrying collections after a call, in terms of those before it. -/
theorem run_collections (op : Op) (st : Store) (d : AppData) (hd : st.appData = .stored d) :
    ∃ d1, (op.run st).appData = .stored d1 ∧ CollectionsStep d d1 := by
  obtain ⟨d1, h1, hstep⟩ := run_docStep op st d hd
  exact ⟨d1, h1, hstep.collectionsStep⟩

/-- In a reachable store there is a document whose four id-carrying collections
have sequential ids. -/
theorem reachable_sequentialIds {st : Store} (h : Reachable st) :
    ∃ d, st.appData = .stored d ∧ SequentialIds d := by
  induction h with
  | fresh fits => exact ⟨defaultData, rfl, by simp [SequentialIds, seqIds, defaultData]⟩
  | @step op st _ ih =>
    obtain ⟨d, hd, hs⟩ := ih
    obtain ⟨d1, h1, hstep⟩ := run_collections op st d hd
    exact ⟨d1, h1, (hstep.sequentialIds hs).1⟩

/-- C19: in every store reachable from the fresh empty document through the
operations, the element at position `i` (counting from 1) of exams, questions,
submissions and results has the id made of the prefix `EXAM`, `Q`, `SUB`, `RES`
followed by `i` zero-padded to at least three digits, so the ids within each
collection are pairwise distinct; and no operation causes an id to be reused: after
any call the ids assigned so far are still the leading ids of each collection and
all ids are still pairwise distinct. -/
theorem C19_sequential_distinct_ids (st : Store) (h : Reachable st) :
    ∃ d, st.appData = .stored d ∧
      (∀ i (hi : i < d.exams.length), (d.exams.get ⟨i, hi⟩).id = "EXAM" ++ pad3 (i + 1)) ∧
      (∀ i (hi : i < d.questions.length),
        (d.questions.get ⟨i, hi⟩).id = "Q" ++ pad3 (i + 1)) ∧
      (∀ i (hi : i < d.submissions.length),
        (d.submissions.get ⟨i, hi⟩).id = "SUB" ++ pad3 (i + 1)) ∧
      (∀ i (hi : i < d.results.length), (d.results.get ⟨i, hi⟩).id = "RES" ++ pad3 (i + 1)) ∧
      (d.exams.map (fun e => e.id)).Nodup ∧ (d.questions.map (fun q => q.id)).Nodup ∧
      (d.submissions.map (fun s => s.id)).Nodup ∧ (d.results.map (fun r => r.id)).Nodup ∧
      ∀ op : Op, ∃ d1, (op.run st).appData = .stored d1 ∧
        d.exams.map (fun e => e.id) <+: d1.exams.map (fun e => e.id) ∧
        d.questions.map (fun q => q.id) <+: d1.questions.map (fun q => q.id) ∧
        d.submissions.map (fun s => s.id) <+: d1.submissions.map (fun s => s.id) ∧
        d.results.map (fun r => r.id) <+: d1.results.map (fun r => r.id) ∧
        (d1.exams.map (fun e => e.id)).Nodup ∧ (d1.questions.map (fun q => q.id)).Nodup ∧
        (d1.submissions.map (fun s => s.id)).Nodup ∧
        (d1.results.map (fun r => r.id)).Nodup := by
  obtain ⟨d, hd, hs⟩ := reachable_sequentialIds h
  have nodup : ∀ d2 : AppData, SequentialIds d2 →
      (d2.exams.map (fun e => e.id)).Nodup ∧ (d2.questions.map (fun q => q.id)).Nodup ∧
      (d2.submissions.map (fun s => s.id)).Nodup ∧ (d2.results.map (fun r => r.id)).Nodup := by
    intro d2 h2
    obtain ⟨a, b, c, e⟩ := h2
    rw [a, b, c, e]
    exact ⟨seqIds_nodup _ _, seqIds_nodup _ _, seqIds_nodup _ _, seqIds_nodup _ _⟩
  obtain ⟨n1, n2, n3, n4⟩ := nodup d hs
  refine ⟨d, hd, id_at_of_seqIds _ _ _ hs.1, id_at_of_seqIds _ _ _ hs.2.1,
    id_at_of_seqIds _ _ _ hs.2.2.1, id_at_of_seqIds _ _ _ hs.2.2.2, n1, n2, n3, n4, ?_⟩
  intro op
  obtain ⟨d1, h1, hstep⟩ := run_collections op st d hd
  obtain ⟨hs1, p1, p2, p3, p4⟩ := hstep.sequentialIds hs
  obtain ⟨m1, m2, m3, m4⟩ := nodup d1 hs1
  exact ⟨d1, h1, p1, p2, p3, p4, m1, m2, m3, m4⟩

set_option maxRecDepth 100000 in
/-- Witness of C19 at the reachable store `busyStore`, which holds one exam, two
submissions and two results: their ids are `EXAM001`, `SUB001`, `SUB002`, `RES001`,
`RES002`. -/
theorem C19_witness :
    (Reachable busyStore ∧
      (getExams busyStore).map (fun e => e.id) = ["EXAM001"] ∧
      (getSubmissions busyStore).map (fun s => s.id) = ["SUB001", "SUB002"] ∧
      (getAllResults busyStore).map (fun r => r.id) = ["RES001", "RES002"]) ∧
    ∃ d, busyStore.appData = .stored d ∧
      (∀ i (hi : i < d.exams.length), (d.exams.get ⟨i, hi⟩).id = "EXAM" ++ pad3 (i + 1)) ∧
      (∀ i (hi : i < d.questions.length),
        (d.questions.get ⟨i, hi⟩).id = "Q" ++ pad3 (i + 1)) ∧
      (∀ i (hi : i < d.submissions.length),
        (d.submissions.get ⟨i, hi⟩).id = "SUB" ++ pad3 (i + 1)) ∧
      (∀ i (hi : i < d.results.length), (d.results.get ⟨i, hi⟩).id = "RES" ++ pad3 (i + 1)) ∧
      (d.exams.map (fun e => e.id)).Nodup ∧ (d.questions.map (fun q => q.id)).Nodup ∧
      (d.submissions.map (fun s => s.id)).Nodup ∧ (d.results.map (fun r => r.id)).Nodup ∧
      ∀ op : Op, ∃ d1, (op.run busyStore).appData = .stored d1 ∧
        d.exams.map (fun e => e.id) <+: d1.exams.map (fun e => e.id) ∧
        d.questions.map (fun q => q.id) <+: d1.questions.map (fun q => q.id) ∧
        d.submissions.map (fun s => s.id) <+: d1.submissions.map (fun s => s.id) ∧
        d.results.map (fun r => r.id) <+: d1.results.map (fun r => r.id) ∧
        (d1.exams.map (fun e => e.id)).Nodup ∧ (d1.questions.map (fun q => q.id)).Nodup ∧
        (d1.submissions.map (fun s => s.id)).Nodup ∧
        (d1.results.map (fun r => r.id)).Nodup :=
  ⟨⟨reachable_busyStore, by decide, by decide, by decide⟩,
    C19_sequential_distinct_ids busyStore reachable_busyStore⟩

end SchoolOnline
